import Mathlib

/-!
# CLAST to GIMPLE translation (`gcc/graphite-clast-to-gimple.c`)

A shallow embedding of the type inference engine, the expression translator,
the loop-guard synthesizer and the structural walk of
`graphite-clast-to-gimple.c`, together with theorems about them.

Conventions of the embedding.

* GMP integers (`mpz_t`) are `Int`.
* A GCC type is reduced to what the translated code inspects: whether it is a
  pointer type, its precision and its signedness.
* The global flag `gloog_error` is passed explicitly: a function that may set
  it takes the flag as its last argument and returns the new flag next to its
  result.
* A function returns `none` where the C code stops in `gcc_assert` or
  `gcc_unreachable` (or reads outside a vector).
* Target macros and the collaborators that live outside this file
  (`BITS_PER_WORD`, the machine modes, the polyhedral library) are fields of
  the parameter structures `Target` and `Collaborators`.
-/

namespace Graphite

/-! ## Types -/

/-- A GCC type node, as far as the translation looks at it: an integer type with
its `TYPE_PRECISION` and `TYPE_UNSIGNED`, or a pointer type with its precision. -/
inductive GccType where
  | integer (precision : Nat) (unsignedp : Bool)
  | pointer (precision : Nat)
  deriving DecidableEq, Repr

/-- `POINTER_TYPE_P (type)`. -/
def POINTER_TYPE_P : GccType → Bool
  | .integer _ _ => false
  | .pointer _ => true

/-- `TYPE_PRECISION (type)`. -/
def TYPE_PRECISION : GccType → Nat
  | .integer p _ => p
  | .pointer p => p

/-- `TYPE_UNSIGNED (type)`; pointer types are laid out as unsigned. -/
def TYPE_UNSIGNED : GccType → Bool
  | .integer _ u => u
  | .pointer _ => true

/-- Smallest value of a type: `-2^(p-1)` for a signed `p`-bit integer type, `0`
for unsigned and pointer types. -/
def TYPE_MIN_VALUE : GccType → Int
  | .integer p false => -(((2 ^ p / 2 : Nat) : Int))
  | .integer _ true => 0
  | .pointer _ => 0

/-- Largest value of a type: `2^(p-1) - 1` for a signed `p`-bit integer type,
`2^p - 1` for unsigned and pointer types. -/
def TYPE_MAX_VALUE : GccType → Int
  | .integer p false => ((2 ^ p / 2 : Nat) : Int) - 1
  | .integer p true => ((2 ^ p : Nat) : Int) - 1
  | .pointer p => ((2 ^ p : Nat) : Int) - 1

/-- The value `v` is representable in the type `t`. -/
def representable (t : GccType) (v : Int) : Prop :=
  TYPE_MIN_VALUE t ≤ v ∧ v ≤ TYPE_MAX_VALUE t

instance (t : GccType) (v : Int) : Decidable (representable t v) := by
  unfold representable; exact inferInstance

/-- Target parameters used by the translation. `int_mode_precisions` lists
`GET_MODE_PRECISION` of the `MODE_INT` machine modes from the narrowest to the
widest; `nonstandard_type_built p u` tells whether
`build_nonstandard_integer_type (p, u)` returns a type (rather than `NULL`). -/
structure Target where
  BITS_PER_WORD : Nat
  INT_TYPE_SIZE : Nat
  POINTER_SIZE : Nat
  int_mode_precisions : List Nat
  nonstandard_type_built : Nat → Bool → Bool

/-- `integer_type_node`: the type `int` of the target. -/
def integer_type_node (tg : Target) : GccType := .integer tg.INT_TYPE_SIZE false

/-- `sizetype`: the unsigned integer type as wide as an address. -/
def sizetype (tg : Target) : GccType := .integer tg.POINTER_SIZE true

/-- `boolean_type_node`. -/
def boolean_type_node : GccType := .integer 1 true

/-- `smallest_mode_for_size (size, MODE_INT)` followed by `GET_MODE_PRECISION`:
walks the integer modes from the narrowest and returns the precision of the
first one that has at least `size` bits; `none` is `gcc_unreachable ()`. -/
def smallest_mode_for_size : List Nat → Nat → Option Nat
  | [], _ => none
  | m :: ms, size => if m ≥ size then some m else smallest_mode_for_size ms size

/-- `build_nonstandard_integer_type (precision, unsignedp)`: the integer type of
that precision and signedness, or `none` for a `NULL` result. -/
def build_nonstandard_integer_type (tg : Target) (precision : Nat) (unsignedp : Bool) :
    Option GccType :=
  if tg.nonstandard_type_built precision unsignedp then some (.integer precision unsignedp)
  else none

/-- Number of binary digits of `n` (`0` for `n = 0`), counted by halving; the
first argument bounds the number of halvings and is given as `n` itself. -/
def bit_length : Nat → Nat → Nat
  | 0, _ => 0
  | fuel + 1, n => if n = 0 then 0 else bit_length fuel (n / 2) + 1

/-- `mpz_sizeinbase (v, 2)`: the number of bits of the absolute value of `v`,
and `1` for `v = 0`. -/
def mpz_sizeinbase (v : Int) : Nat :=
  if v = 0 then 1 else bit_length v.natAbs v.natAbs

/-- An x86-64 like target: 64-bit words and pointers, 32-bit `int`, integer
modes of 8, 16, 32, 64 and 128 bits, every nonstandard integer type built. -/
def x86_64 : Target where
  BITS_PER_WORD := 64
  INT_TYPE_SIZE := 32
  POINTER_SIZE := 64
  int_mode_precisions := [8, 16, 32, 64, 128]
  nonstandard_type_built := fun _ _ => true

/-! ## Type inference engine -/

/-- The precision chosen at lines 214-223 of `max_signed_precision_type`: that
of the wider type (of `type2` on a tie), doubled when that type is unsigned. -/
def max_signed_precision (type1 type2 : GccType) : Nat :=
  let p1 := TYPE_PRECISION type1
  let p2 := TYPE_PRECISION type2
  if p1 > p2 then (if TYPE_UNSIGNED type1 then p1 * 2 else p1)
  else (if TYPE_UNSIGNED type2 then p2 * 2 else p2)

/-- Embedding of `max_signed_precision_type` (lines 211-242). -/
def max_signed_precision_type (tg : Target) (type1 type2 : GccType) (gloog_error : Bool) :
    Option (GccType × Bool) :=
  let precision := max_signed_precision type1 type2
  if precision > tg.BITS_PER_WORD then some (integer_type_node tg, true)
  else
    match smallest_mode_for_size tg.int_mode_precisions precision with
    | none => none
    | some precision =>
      match build_nonstandard_integer_type tg precision false with
      | none => some (integer_type_node tg, true)
      | some type => some (type, gloog_error)

/-- Embedding of `max_precision_type` (lines 246-260). -/
def max_precision_type (tg : Target) (type1 type2 : GccType) (gloog_error : Bool) :
    Option (GccType × Bool) :=
  if POINTER_TYPE_P type1 then some (type1, gloog_error)
  else if POINTER_TYPE_P type2 then some (type2, gloog_error)
  else if !TYPE_UNSIGNED type1 || !TYPE_UNSIGNED type2 then
    max_signed_precision_type tg type1 type2 gloog_error
  else some (if TYPE_PRECISION type1 > TYPE_PRECISION type2 then type1 else type2, gloog_error)

/-- Embedding of `gcc_type_for_interval` (lines 400-431). -/
def gcc_type_for_interval (tg : Target) (v1 v2 : Int) (gloog_error : Bool) :
    Option (GccType × Bool) :=
  let precision := max (mpz_sizeinbase v1) (mpz_sizeinbase v2)
  if precision > tg.BITS_PER_WORD then some (integer_type_node tg, true)
  else
    let unsigned_p : Bool := if v1 ≤ v2 then decide (0 ≤ v1) else decide (0 ≤ v2)
    match smallest_mode_for_size tg.int_mode_precisions precision with
    | none => none
    | some precision =>
      match build_nonstandard_integer_type tg precision unsigned_p with
      | none => some (integer_type_node tg, true)
      | some type => some (type, gloog_error)

/-- Embedding of `gcc_type_for_value` (lines 436-440). -/
def gcc_type_for_value (tg : Target) (val : Int) (gloog_error : Bool) :
    Option (GccType × Bool) :=
  gcc_type_for_interval tg val val gloog_error

/-! ## Expression trees -/

/-- The tree codes the translation builds or tests. -/
inductive tree_code where
  | SSA_NAME | INTEGER_CST | NOP_EXPR | NEGATE_EXPR
  | PLUS_EXPR | POINTER_PLUS_EXPR | MULT_EXPR | MIN_EXPR | MAX_EXPR
  | FLOOR_DIV_EXPR | CEIL_DIV_EXPR | EXACT_DIV_EXPR | TRUNC_MOD_EXPR
  | EQ_EXPR | GE_EXPR | LE_EXPR | LT_EXPR | TRUTH_AND_EXPR
  deriving DecidableEq, Repr

/-- A GCC expression tree: an SSA name, an integer constant, or an operator
node with one or two operands; every node carries its type. -/
inductive tree where
  | ssa_name (type : GccType) (version : Nat)
  | integer_cst (type : GccType) (val : Int)
  | build1 (code : tree_code) (type : GccType) (op0 : tree)
  | build2 (code : tree_code) (type : GccType) (op0 op1 : tree)
  deriving DecidableEq, Repr

/-- `TREE_CODE (t)`. -/
def TREE_CODE : tree → tree_code
  | .ssa_name _ _ => .SSA_NAME
  | .integer_cst _ _ => .INTEGER_CST
  | .build1 code _ _ => code
  | .build2 code _ _ _ => code

/-- `TREE_TYPE (t)`. -/
def TREE_TYPE : tree → GccType
  | .ssa_name type _ => type
  | .integer_cst type _ => type
  | .build1 _ type _ => type
  | .build2 _ type _ _ => type

/-- `gmp_cst_to_tree (type, val)` (graphite-ppl.c, outside this file): the
integer constant `val` in `type`, an `INTEGER_CST` node. -/
def gmp_cst_to_tree (type : GccType) (val : Int) : tree := .integer_cst type val

/-- `fold_build1 (code, type, op0)` (fold-const.c, outside this file). The
embedding keeps the expression that is handed to the folder, without the
simplifications the folder may do on it. -/
def fold_build1 (code : tree_code) (type : GccType) (op0 : tree) : tree :=
  .build1 code type op0

/-- `fold_build2 (code, type, op0, op1)` (fold-const.c, outside this file). The
embedding keeps the expression that is handed to the folder, without the
simplifications the folder may do on it. -/
def fold_build2 (code : tree_code) (type : GccType) (op0 op1 : tree) : tree :=
  .build2 code type op0 op1

/-- `fold_convert (type, arg)` (fold-const.c, outside this file): `arg` itself
when it already has the type, the constant in the new type when `arg` is an
integer constant, and a `NOP_EXPR` conversion of `arg` otherwise. -/
def fold_convert (type : GccType) (arg : tree) : tree :=
  if TREE_TYPE arg = type then arg
  else
    match arg with
    | .integer_cst _ val => .integer_cst type val
    | _ => .build1 .NOP_EXPR type arg

/-- `integer_zero_node`. -/
def integer_zero_node (tg : Target) : tree := .integer_cst (integer_type_node tg) 0

/-- `integer_one_node`. -/
def integer_one_node (tg : Target) : tree := .integer_cst (integer_type_node tg) 1

/-- `size_one_node`. -/
def size_one_node (tg : Target) : tree := .integer_cst (sizetype tg) 1

/-! ## Name/index registry -/

/-- The record `struct clast_name_index` (lines 62-66). -/
structure clast_name_index where
  index : Int
  level : Int
  name : String
  deriving DecidableEq, Repr

/-- A hash table of `clast_name_index` records keyed by name
(`eq_clast_name_indexes`): at most one record is found for a name. -/
abbrev htab := List clast_name_index

/-- `htab_find_slot (index_table, &tmp, NO_INSERT)`: the record stored for the
name, if there is one. -/
def htab_find_slot : htab → String → Option clast_name_index
  | [], _ => none
  | e :: rest, name => if e.name = name then some e else htab_find_slot rest name

/-- `htab_find_slot (index_table, &tmp, INSERT)` followed by the store into the
slot: the record of the same name is replaced, or a new slot is filled. -/
def htab_store : htab → clast_name_index → htab
  | [], elt => [elt]
  | e :: rest, elt => if e.name = elt.name then elt :: rest else e :: htab_store rest elt

/-- Embedding of `new_clast_name_index` (lines 71-80). -/
def new_clast_name_index (name : String) (index level : Int) : clast_name_index :=
  { index := index, level := level, name := name }

/-- Embedding of `clast_name_to_level` (lines 87-106). -/
def clast_name_to_level (name : String) (index_table : htab) : Int :=
  match htab_find_slot index_table name with
  | some slot => slot.level
  | none => -1

/-- Embedding of `clast_name_to_index` (lines 112-131). -/
def clast_name_to_index (name : String) (index_table : htab) : Int :=
  match htab_find_slot index_table name with
  | some slot => slot.index
  | none => -1

/-- Embedding of `save_clast_name_index` (lines 135-151). -/
def save_clast_name_index (index_table : htab) (name : String) (index level : Int) : htab :=
  htab_store index_table (new_clast_name_index name index level)

/-- The record `struct ivs_params` (lines 180-184) without its region; a `NULL`
vector or table is `none`. -/
structure ivs_params where
  params : Option (List tree)
  newivs : Option (List tree)
  newivs_index : Option htab
  params_index : Option htab

/-- `VEC_index (tree, v, index)` for `index >= 0`; reading outside the vector
stops the program. -/
def VEC_index (v : List tree) (index : Int) : Option tree :=
  if index < 0 then none else v.get? index.toNat

/-- Embedding of `clast_name_to_gcc` (lines 189-207). -/
def clast_name_to_gcc (name : String) (ip : ivs_params) : Option tree :=
  let from_newivs : Option tree :=
    match ip.newivs, ip.newivs_index with
    | some newivs, some newivs_index =>
      let index := clast_name_to_index name newivs_index
      if index ≥ 0 then VEC_index newivs index else none
    | _, _ => none
  match ip.params, ip.params_index with
  | some params, some params_index =>
    let index := clast_name_to_index name params_index
    if index ≥ 0 then VEC_index params index else from_newivs
  | _, _ => from_newivs

/-! ## The CLooG expressions -/

/-- `enum clast_red_type`. -/
inductive clast_red_type where
  | clast_red_sum | clast_red_min | clast_red_max
  deriving DecidableEq, Repr

/-- `enum clast_bin_type`. -/
inductive clast_bin_type where
  | clast_bin_fdiv | clast_bin_cdiv | clast_bin_div | clast_bin_mod
  deriving DecidableEq, Repr

/-- A CLooG expression (`struct clast_expr`): a term `val * var` (or the
constant `val` when there is no variable), a reduction over a list of
expressions, or a binary operation with an integer right operand. -/
inductive clast_expr where
  | clast_expr_term (var : Option String) (val : Int)
  | clast_expr_red (type : clast_red_type) (elts : List clast_expr)
  | clast_expr_bin (type : clast_bin_type) (LHS : clast_expr) (RHS : Int)

/-- A CLooG equation (`struct clast_equation`). -/
structure clast_equation where
  LHS : clast_expr
  RHS : clast_expr
  sign : Int

/-! ## Expression translator -/

mutual
/-- Embedding of `clast_to_gcc_expression` (lines 288-396). The three cases of a
term with a variable start with the same lookup and conversions, written once
here. -/
def clast_to_gcc_expression (tg : Target) :
    GccType → clast_expr → ivs_params → Bool → Option (tree × Bool)
  | type, .clast_expr_term (some var) val, ip, gloog_error =>
    match clast_name_to_gcc var ip with
    | none => none
    | some name =>
      let name :=
        if POINTER_TYPE_P (TREE_TYPE name) != POINTER_TYPE_P type then
          fold_convert (sizetype tg) name
        else name
      let name := fold_convert type name
      if val = 1 then some (name, gloog_error)
      else if val = -1 then some (fold_build1 .NEGATE_EXPR type name, gloog_error)
      else
        let cst := gmp_cst_to_tree type val
        if !POINTER_TYPE_P type then some (fold_build2 .MULT_EXPR type cst name, gloog_error)
        else some (cst, true)
  | type, .clast_expr_term none val, _, gloog_error =>
    some (gmp_cst_to_tree type val, gloog_error)
  | type, .clast_expr_red .clast_red_sum elts, ip, gloog_error =>
    clast_to_gcc_expression_red tg type
      (if POINTER_TYPE_P type then .POINTER_PLUS_EXPR else .PLUS_EXPR) elts ip gloog_error
  | type, .clast_expr_red .clast_red_min elts, ip, gloog_error =>
    clast_to_gcc_expression_red tg type .MIN_EXPR elts ip gloog_error
  | type, .clast_expr_red .clast_red_max elts, ip, gloog_error =>
    clast_to_gcc_expression_red tg type .MAX_EXPR elts ip gloog_error
  | type, .clast_expr_bin btype lhs rhs, ip, gloog_error =>
    match clast_to_gcc_expression tg type lhs ip gloog_error with
    | none => none
    | some (tl, gloog_error) =>
      let tr := gmp_cst_to_tree type rhs
      match btype with
      | .clast_bin_fdiv => some (fold_build2 .FLOOR_DIV_EXPR type tl tr, gloog_error)
      | .clast_bin_cdiv => some (fold_build2 .CEIL_DIV_EXPR type tl tr, gloog_error)
      | .clast_bin_div => some (fold_build2 .EXACT_DIV_EXPR type tl tr, gloog_error)
      | .clast_bin_mod => some (fold_build2 .TRUNC_MOD_EXPR type tl tr, gloog_error)
/-- Embedding of `clast_to_gcc_expression_red` (lines 268-283); the list is
`r->elts[0 .. r->n - 1]`, and an empty one has no `elts[0]` to read. -/
def clast_to_gcc_expression_red (tg : Target) :
    GccType → tree_code → List clast_expr → ivs_params → Bool → Option (tree × Bool)
  | _, _, [], _, _ => none
  | type, op, e0 :: rest, ip, gloog_error =>
    match clast_to_gcc_expression tg type e0 ip gloog_error with
    | none => none
    | some (res, gloog_error) =>
      let operand_type := if op = .POINTER_PLUS_EXPR then sizetype tg else type
      clast_to_gcc_expression_red_loop tg type operand_type op rest res ip gloog_error
/-- The loop `for (i = 1; i < r->n; i++)` of `clast_to_gcc_expression_red`
(lines 276-280) over the remaining elements, with the running result `res`. -/
def clast_to_gcc_expression_red_loop (tg : Target) :
    GccType → GccType → tree_code → List clast_expr → tree → ivs_params → Bool →
      Option (tree × Bool)
  | _, _, _, [], res, _, gloog_error => some (res, gloog_error)
  | type, operand_type, op, e :: rest, res, ip, gloog_error =>
    match clast_to_gcc_expression tg operand_type e ip gloog_error with
    | none => none
    | some (t, gloog_error) =>
      clast_to_gcc_expression_red_loop tg type operand_type op rest
        (fold_build2 op type res t) ip gloog_error
end

/-- Embedding of `gcc_type_for_clast_term` (lines 444-454) for the term
`val * var`. -/
def gcc_type_for_clast_term (tg : Target) (var : Option String) (val : Int)
    (ip : ivs_params) (gloog_error : Bool) : Option (GccType × Bool) :=
  match var with
  | none => gcc_type_for_value tg val gloog_error
  | some var =>
    match clast_name_to_gcc var ip with
    | none => none
    | some name => some (TREE_TYPE name, gloog_error)

mutual
/-- Embedding of `gcc_type_for_clast_expr` (lines 504-524), with the body of
`gcc_type_for_clast_bin` (lines 493-499) in its binary case. -/
def gcc_type_for_clast_expr (tg : Target) :
    clast_expr → ivs_params → Bool → Option (GccType × Bool)
  | .clast_expr_term var val, ip, gloog_error =>
    gcc_type_for_clast_term tg var val ip gloog_error
  | .clast_expr_red _ elts, ip, gloog_error => gcc_type_for_clast_red tg elts ip gloog_error
  | .clast_expr_bin _ lhs rhs, ip, gloog_error =>
    match gcc_type_for_clast_expr tg lhs ip gloog_error with
    | none => none
    | some (l, gloog_error) =>
      match gcc_type_for_value tg rhs gloog_error with
      | none => none
      | some (r, gloog_error) => max_signed_precision_type tg l r gloog_error
/-- Embedding of `gcc_type_for_clast_red` (lines 461-489): the type of the first
element, joined with the types of the following ones; the three reduction
operators share this code. -/
def gcc_type_for_clast_red (tg : Target) :
    List clast_expr → ivs_params → Bool → Option (GccType × Bool)
  | [], _, _ => none
  | e0 :: rest, ip, gloog_error =>
    match gcc_type_for_clast_expr tg e0 ip gloog_error with
    | none => none
    | some (type, gloog_error) => gcc_type_for_clast_red_loop tg rest type ip gloog_error
/-- The loop `for (i = 1; i < r->n; i++)` of `gcc_type_for_clast_red`
(lines 477-479), with the running type. -/
def gcc_type_for_clast_red_loop (tg : Target) :
    List clast_expr → GccType → ivs_params → Bool → Option (GccType × Bool)
  | [], type, _, gloog_error => some (type, gloog_error)
  | e :: rest, type, ip, gloog_error =>
    match gcc_type_for_clast_expr tg e ip gloog_error with
    | none => none
    | some (t, gloog_error) =>
      match max_precision_type tg type t gloog_error with
      | none => none
      | some (type, gloog_error) => gcc_type_for_clast_red_loop tg rest type ip gloog_error
end

/-! ## Equations and guard conditions -/

/-- Embedding of `gcc_type_for_clast_eq` (lines 528-535). -/
def gcc_type_for_clast_eq (tg : Target) (cleq : clast_equation) (ip : ivs_params)
    (gloog_error : Bool) : Option (GccType × Bool) :=
  match gcc_type_for_clast_expr tg cleq.LHS ip gloog_error with
  | none => none
  | some (l, gloog_error) =>
    match gcc_type_for_clast_expr tg cleq.RHS ip gloog_error with
    | none => none
    | some (r, gloog_error) => max_precision_type tg l r gloog_error

/-- Embedding of `graphite_translate_clast_equation` (lines 539-558). -/
def graphite_translate_clast_equation (tg : Target) (cleq : clast_equation) (ip : ivs_params)
    (gloog_error : Bool) : Option (tree × Bool) :=
  match gcc_type_for_clast_eq tg cleq ip gloog_error with
  | none => none
  | some (type, gloog_error) =>
    match clast_to_gcc_expression tg type cleq.LHS ip gloog_error with
    | none => none
    | some (lhs, gloog_error) =>
      match clast_to_gcc_expression tg type cleq.RHS ip gloog_error with
      | none => none
      | some (rhs, gloog_error) =>
        let comp : tree_code :=
          if cleq.sign = 0 then .EQ_EXPR
          else if cleq.sign > 0 then .GE_EXPR
          else .LE_EXPR
        some (fold_build2 comp boolean_type_node lhs rhs, gloog_error)

/-- Embedding of `graphite_create_guard_cond_expr` (lines 562-580) over the
equations `stmt->eq[0 .. stmt->n - 1]`; `cond` is `none` while it is `NULL`. -/
def graphite_create_guard_cond_expr (tg : Target) :
    List clast_equation → Option tree → ivs_params → Bool → Option (Option tree × Bool)
  | [], cond, _, gloog_error => some (cond, gloog_error)
  | cleq :: rest, cond, ip, gloog_error =>
    match graphite_translate_clast_equation tg cleq ip gloog_error with
    | none => none
    | some (eq, gloog_error) =>
      let cond :=
        match cond with
        | some cond => fold_build2 .TRUTH_AND_EXPR (TREE_TYPE eq) cond eq
        | none => eq
      graphite_create_guard_cond_expr tg rest (some cond) ip gloog_error

/-! ## The CLooG statements and the state of a translation -/

/-- A CLooG statement list (`struct clast_stmt` and its variants): `null` ends a
list, every other node carries its `next` sibling. A user statement names its
polyhedral basic block and lists the right-hand sides of its substitutions. -/
inductive clast_stmt where
  | null
  | stmt_root (next : clast_stmt)
  | stmt_user (statement : Nat) (substitutions : List clast_expr) (next : clast_stmt)
  | stmt_for (iterator : String) (LB UB : clast_expr) (stride : Int)
      (body next : clast_stmt)
  | stmt_guard (eq : List clast_equation) (then_ next : clast_stmt)
  | stmt_block (body next : clast_stmt)

/-- The fields of a `struct clast_for` other than its `next` link. -/
structure clast_for where
  iterator : String
  LB : clast_expr
  UB : clast_expr
  stride : Int
  body : clast_stmt

/-- The collaborators of the translation that live in other files: the bounds
of a scattering level of a polyhedral basic block (`compute_bounds_for_level`,
answered by the polyhedral library), whether the block of a statement is the
entry block, the loop number that `gbb_loop_at_index` finds at a depth, the
dependence test between two polyhedral basic blocks at a level, and the switch
`flag_loop_parallelize_all`. -/
structure Collaborators where
  compute_bounds_for_level : Nat → Nat → Int × Int
  GBB_BB_is_entry_block : Nat → Bool
  gbb_loop_at_index : Nat → Nat → Nat
  dependency_between_pbbs_p : Nat → Nat → Nat → Bool
  flag_loop_parallelize_all : Bool

/-- The record `bb_pbb_def`: a basic block and its polyhedral basic block. -/
structure bb_pbb_def where
  bb : Nat
  pbb : Nat
  deriving DecidableEq, Repr

/-- The operations requested from the control-flow graph, in the order of the
requests. Edges, blocks and SSA names are numbered as they are created. -/
inductive cfg_event where
  | if_region (entry_edge : Nat) (cond_expr : tree) (exit_edge : Nat)
  | empty_loop (entry_edge : Nat) (lb stride ub iv : tree) (outer : Option Nat) (loop : Nat)
  | copy_bb (pbb : Nat) (next_e : Nat) (iv_map : List (Option tree)) (new_bb : Nat)
  | redirect_edge (e : Nat) (dest : Nat)
  | can_be_parallel (loop : Nat)
  | ifsese_condition (cond : tree)
  deriving DecidableEq, Repr

/-- The mutable state of one translation: the flag `gloog_error`, the tables
reached through `ip`, the table `bb_pbb_mapping`, and the control-flow graph as
the list of operations done on it with the counters for fresh names
(`next_id`) and for loops (`number_of_loops`). -/
structure gloog_state where
  gloog_error : Bool
  ip : ivs_params
  bb_pbb_mapping : List bb_pbb_def
  cfg : List cfg_event
  next_id : Nat
  number_of_loops : Nat

/-- `create_empty_if_region_on_edge (entry_edge, cond_expr)`: records the new
region and returns its exit edge; the true edge of the region is numbered right
after the exit edge. -/
def create_empty_if_region_on_edge (entry_edge : Nat) (cond_expr : tree) (st : gloog_state) :
    Nat × gloog_state :=
  (st.next_id,
   { st with cfg := st.cfg ++ [.if_region entry_edge cond_expr st.next_id],
             next_id := st.next_id + 2 })

/-- `get_true_edge_from_guard_bb` for the region whose exit edge is given. -/
def get_true_edge_from_guard_bb (exit_edge : Nat) : Nat := exit_edge + 1

/-- Embedding of `graphite_create_new_guard` (lines 584-591). A `NULL` condition
(a guard without equations) cannot be made into a region. -/
def graphite_create_new_guard (tg : Target) (entry_edge : Nat) (eq : List clast_equation)
    (st : gloog_state) : Option (Nat × gloog_state) :=
  match graphite_create_guard_cond_expr tg eq none st.ip st.gloog_error with
  | none => none
  | some (none, _) => none
  | some (some cond_expr, gloog_error) =>
    some (create_empty_if_region_on_edge entry_edge cond_expr
      { st with gloog_error := gloog_error })

/-! ## Bounds and the type of an induction variable -/

/-- Embedding of `compute_type_for_level` (lines 625-640); the bounds come from
the polyhedral collaborator. -/
def compute_type_for_level (tg : Target) (co : Collaborators) (pbb level : Nat)
    (gloog_error : Bool) : Option (GccType × Bool) :=
  let (low, up) := co.compute_bounds_for_level pbb level
  gcc_type_for_interval tg low up gloog_error

/-- Embedding of `clast_get_body_of_loop` (lines 662-679): the statement of the
first user statement found, `some none` for a `NULL` result and `none` for
`gcc_unreachable ()`. -/
def clast_get_body_of_loop : clast_stmt → Option (Option Nat)
  | .null => some none
  | .stmt_user statement _ _ => some (some statement)
  | .stmt_for _ _ _ _ body _ => clast_get_body_of_loop body
  | .stmt_guard _ then_ _ => clast_get_body_of_loop then_
  | .stmt_block body _ => clast_get_body_of_loop body
  | .stmt_root _ => none

/-- Embedding of `gcc_type_for_iv_of_clast_loop` (lines 684-696); the statement
handed to `clast_get_body_of_loop` is the loop itself, whose case is the
descent into its body. -/
def gcc_type_for_iv_of_clast_loop (tg : Target) (co : Collaborators) (stmt_for : clast_for)
    (level : Nat) (lb_type ub_type : GccType) (gloog_error : Bool) :
    Option (GccType × Bool) :=
  match clast_get_body_of_loop stmt_for.body with
  | none => none
  | some none => none
  | some (some pbb) =>
    match compute_type_for_level tg co pbb level gloog_error with
    | none => none
    | some (level_type, gloog_error) =>
      match max_precision_type tg ub_type level_type gloog_error with
      | none => none
      | some (t, gloog_error) => max_signed_precision_type tg lb_type t gloog_error

/-! ## Loop guards -/

/-- The condition built at lines 887-904 of `graphite_create_new_loop_guard`
from the type and the translated bounds. -/
def loop_guard_cond_expr (tg : Target) (type : GccType) (lb ub : tree) : tree :=
  if TREE_CODE ub = .INTEGER_CST || TREE_CODE ub = .SSA_NAME then
    fold_build2 .LE_EXPR boolean_type_node lb ub
  else
    let one :=
      if POINTER_TYPE_P type then size_one_node tg
      else fold_convert type (integer_one_node tg)
    let ub_one :=
      fold_build2 (if POINTER_TYPE_P type then .POINTER_PLUS_EXPR else .PLUS_EXPR) type ub one
    fold_build2 .LT_EXPR boolean_type_node lb ub_one

/-- What `graphite_create_new_loop_guard` hands back: the exit edge of the new
region, the outputs `*type`, `*lb`, `*ub`, and the condition it built. -/
structure loop_guard where
  exit_edge : Nat
  type : GccType
  lb : tree
  ub : tree
  cond_expr : tree
  deriving DecidableEq, Repr

/-- Embedding of `graphite_create_new_loop_guard` (lines 873-909). -/
def graphite_create_new_loop_guard (tg : Target) (co : Collaborators) (entry_edge : Nat)
    (stmt : clast_for) (level : Nat) (st : gloog_state) : Option (loop_guard × gloog_state) :=
  match gcc_type_for_clast_expr tg stmt.LB st.ip st.gloog_error with
  | none => none
  | some (lb_type, gloog_error) =>
    match gcc_type_for_clast_expr tg stmt.UB st.ip gloog_error with
    | none => none
    | some (ub_type, gloog_error) =>
      match gcc_type_for_iv_of_clast_loop tg co stmt level lb_type ub_type gloog_error with
      | none => none
      | some (type, gloog_error) =>
        match clast_to_gcc_expression tg type stmt.LB st.ip gloog_error with
        | none => none
        | some (lb, gloog_error) =>
          match clast_to_gcc_expression tg type stmt.UB st.ip gloog_error with
          | none => none
          | some (ub, gloog_error) =>
            let cond_expr := loop_guard_cond_expr tg type lb ub
            let (exit_edge, st) :=
              create_empty_if_region_on_edge entry_edge cond_expr
                { st with gloog_error := gloog_error }
            some ({ exit_edge := exit_edge, type := type, lb := lb, ub := ub,
                    cond_expr := cond_expr }, st)

/-! ## Statement-to-block map and the dependence test -/

/-- Embedding of `mark_bb_with_pbb` (lines 767-778): the block is recorded
unless the table already has a record for it. -/
def mark_bb_with_pbb (pbb bb : Nat) : List bb_pbb_def → List bb_pbb_def
  | [] => [{ bb := bb, pbb := pbb }]
  | x :: rest => if x.bb = bb then x :: rest else x :: mark_bb_with_pbb pbb bb rest

/-- Embedding of `find_pbb_via_hash` (lines 782-795); `none` is `NULL`. -/
def find_pbb_via_hash : List bb_pbb_def → Nat → Option Nat
  | [], _ => none
  | x :: rest, bb => if x.bb = bb then some x.pbb else find_pbb_via_hash rest bb

/-- The inner loop over `j` of `dependency_in_loop_p` (lines 814-826) for a
given `pbb1`, over the blocks that are left. -/
def dependency_in_loop_p_inner (co : Collaborators) (bb_pbb_mapping : List bb_pbb_def)
    (level pbb1 : Nat) : List Nat → Bool
  | [] => false
  | bb :: rest =>
    match find_pbb_via_hash bb_pbb_mapping bb with
    | none => dependency_in_loop_p_inner co bb_pbb_mapping level pbb1 rest
    | some pbb2 =>
      if co.dependency_between_pbbs_p pbb1 pbb2 level then true
      else dependency_in_loop_p_inner co bb_pbb_mapping level pbb1 rest

/-- The outer loop over `i` of `dependency_in_loop_p` (lines 807-827) over the
blocks that are left; `bbs` is the whole body of the loop. -/
def dependency_in_loop_p_outer (co : Collaborators) (bb_pbb_mapping : List bb_pbb_def)
    (level : Nat) (bbs : List Nat) : List Nat → Bool
  | [] => false
  | bb :: rest =>
    match find_pbb_via_hash bb_pbb_mapping bb with
    | none => dependency_in_loop_p_outer co bb_pbb_mapping level bbs rest
    | some pbb1 =>
      if dependency_in_loop_p_inner co bb_pbb_mapping level pbb1 bbs then true
      else dependency_in_loop_p_outer co bb_pbb_mapping level bbs rest

/-- Embedding of `dependency_in_loop_p` (lines 801-832); `bbs` is the result of
`get_loop_body_in_dom_order (loop)`. -/
def dependency_in_loop_p (co : Collaborators) (bbs : List Nat)
    (bb_pbb_mapping : List bb_pbb_def) (level : Nat) : Bool :=
  dependency_in_loop_p_outer co bb_pbb_mapping level bbs bbs

/-- `get_loop_body_in_dom_order (loop)` read off the operations done since the
loop was created: the blocks copied into it, in the order of their creation.
The blocks of the skeleton (headers, latches, guards) carry no statement and
are left out. -/
def get_loop_body_in_dom_order : List cfg_event → List Nat
  | [] => []
  | .copy_bb _ _ _ new_bb :: rest => new_bb :: get_loop_body_in_dom_order rest
  | _ :: rest => get_loop_body_in_dom_order rest

/-! ## Structural translator -/

/-- The fields of a `struct clast_user_stmt` other than its `next` link. -/
structure clast_user_stmt where
  statement : Nat
  substitutions : List clast_expr

/-- Embedding of `build_iv_mapping` (lines 729-749) over the substitutions that
are left, at the depth reached. -/
def build_iv_mapping (tg : Target) (co : Collaborators) (pbb : Nat) :
    List clast_expr → Nat → List (Option tree) → ivs_params → Bool →
      Option (List (Option tree) × Bool)
  | [], _, iv_map, _, gloog_error => some (iv_map, gloog_error)
  | expr :: rest, depth, iv_map, ip, gloog_error =>
    match gcc_type_for_clast_expr tg expr ip gloog_error with
    | none => none
    | some (type, gloog_error) =>
      match clast_to_gcc_expression tg type expr ip gloog_error with
      | none => none
      | some (new_name, gloog_error) =>
        let num := co.gbb_loop_at_index pbb depth
        if num < iv_map.length then
          build_iv_mapping tg co pbb rest (depth + 1) (iv_map.set num (some new_name)) ip
            gloog_error
        else none

/-- Embedding of `translate_clast_user` (lines 840-868). -/
def translate_clast_user (tg : Target) (co : Collaborators) (stmt : clast_user_stmt)
    (next_e : Nat) (st : gloog_state) : Option (Nat × gloog_state) :=
  let pbb := stmt.statement
  if co.GBB_BB_is_entry_block pbb then some (next_e, st)
  else
    let iv_map : List (Option tree) := List.replicate st.number_of_loops none
    match build_iv_mapping tg co pbb stmt.substitutions 0 iv_map st.ip st.gloog_error with
    | none => none
    | some (iv_map, gloog_error) =>
      let new_e := st.next_id
      let new_bb := st.next_id + 1
      some (new_e,
        { st with gloog_error := gloog_error,
                  cfg := st.cfg ++ [.copy_bb pbb next_e iv_map new_bb],
                  next_id := st.next_id + 2,
                  bb_pbb_mapping := mark_bb_with_pbb pbb new_bb st.bb_pbb_mapping })

/-- Embedding of `graphite_create_new_loop` (lines 706-724). -/
def graphite_create_new_loop (entry_edge : Nat) (stmt : clast_for) (outer : Option Nat)
    (type : GccType) (lb ub : tree) (level : Nat) (st : gloog_state) :
    Option (Nat × gloog_state) :=
  let stride := gmp_cst_to_tree type stmt.stride
  let iv := tree.ssa_name type st.next_id
  let loop := st.number_of_loops
  match st.ip.newivs_index with
  | none => none
  | some newivs_index =>
    let newivs := st.ip.newivs.getD []
    let ip : ivs_params :=
      { st.ip with
        newivs_index := some (save_clast_name_index newivs_index stmt.iterator newivs.length level),
        newivs := some (newivs ++ [iv]) }
    some (loop,
      { st with ip := ip,
                cfg := st.cfg ++ [.empty_loop entry_edge lb stride ub iv outer loop],
                next_id := st.next_id + 1,
                number_of_loops := st.number_of_loops + 1 })

/-- Embedding of `translate_clast_for_loop` (lines 919-944). The recursive call
`translate_clast (loop, stmt->body, to_body, bb_pbb_mapping, level + 1, ip)` is
the argument `translate_body`, applied to the loop, the edge and the level. -/
def translate_clast_for_loop (co : Collaborators)
    (translate_body : Option Nat → Nat → Nat → gloog_state → Option (Nat × gloog_state))
    (context_loop : Option Nat) (stmt : clast_for) (next_e level : Nat)
    (type : GccType) (lb ub : tree) (st : gloog_state) : Option (Nat × gloog_state) :=
  match graphite_create_new_loop next_e stmt context_loop type lb ub level st with
  | none => none
  | some (loop, st) =>
    let to_body := st.next_id
    let after := st.next_id + 1
    let last_e := st.next_id + 2
    let st := { st with next_id := st.next_id + 3 }
    let created := st.cfg.length
    match translate_body (some loop) to_body (level + 1) st with
    | none => none
    | some (next_e, st) =>
      let st := { st with cfg := st.cfg ++ [.redirect_edge next_e after] }
      let bbs := get_loop_body_in_dom_order (st.cfg.drop created)
      let st :=
        if co.flag_loop_parallelize_all && !dependency_in_loop_p co bbs st.bb_pbb_mapping level
        then { st with cfg := st.cfg ++ [.can_be_parallel loop] }
        else st
      some (last_e, st)

/-- Embedding of `translate_clast_for` (lines 953-965). -/
def translate_clast_for (tg : Target) (co : Collaborators)
    (translate_body : Option Nat → Nat → Nat → gloog_state → Option (Nat × gloog_state))
    (context_loop : Option Nat) (stmt : clast_for) (next_e level : Nat) (st : gloog_state) :
    Option (Nat × gloog_state) :=
  match graphite_create_new_loop_guard tg co next_e stmt level st with
  | none => none
  | some (g, st) =>
    let last_e := g.exit_edge
    let true_e := get_true_edge_from_guard_bb last_e
    match translate_clast_for_loop co translate_body context_loop stmt true_e level
        g.type g.lb g.ub st with
    | none => none
    | some (_, st) => some (last_e, st)

/-- Embedding of `translate_clast_guard` (lines 973-983). The recursive call
`translate_clast (context_loop, stmt->then, true_e, ...)` is the argument
`translate_then`, applied to the true edge. -/
def translate_clast_guard (tg : Target)
    (translate_then : Nat → gloog_state → Option (Nat × gloog_state))
    (eq : List clast_equation) (next_e : Nat) (st : gloog_state) :
    Option (Nat × gloog_state) :=
  match graphite_create_new_guard tg next_e eq st with
  | none => none
  | some (last_e, st) =>
    let true_e := get_true_edge_from_guard_bb last_e
    match translate_then true_e st with
    | none => none
    | some (_, st) => some (last_e, st)

/-- Embedding of `translate_clast` (lines 992-1025). -/
def translate_clast (tg : Target) (co : Collaborators) :
    Option Nat → clast_stmt → Nat → Nat → gloog_state → Option (Nat × gloog_state)
  | _, .null, next_e, _, st => some (next_e, st)
  | context_loop, .stmt_root next, next_e, level, st =>
    translate_clast tg co context_loop next next_e level st
  | context_loop, .stmt_user statement substitutions next, next_e, level, st =>
    match translate_clast_user tg co
        { statement := statement, substitutions := substitutions } next_e st with
    | none => none
    | some (next_e, st) => translate_clast tg co context_loop next next_e level st
  | context_loop, .stmt_for iterator LB UB stride body next, next_e, level, st =>
    match translate_clast_for tg co
        (fun loop e lvl s => translate_clast tg co loop body e lvl s) context_loop
        { iterator := iterator, LB := LB, UB := UB, stride := stride, body := body }
        next_e level st with
    | none => none
    | some (next_e, st) => translate_clast tg co context_loop next next_e level st
  | context_loop, .stmt_guard eq then_ next, next_e, level, st =>
    match translate_clast_guard tg
        (fun e s => translate_clast tg co context_loop then_ e level s) eq next_e st with
    | none => none
    | some (next_e, st) => translate_clast tg co context_loop next next_e level st
  | context_loop, .stmt_block body next, next_e, level, st =>
    match translate_clast tg co context_loop body next_e level st with
    | none => none
    | some (next_e, st) => translate_clast tg co context_loop next next_e level st

/-! ## The entry point -/

/-- What `gloog` reads of a SCoP: the parameters of its region
(`SESE_PARAMS`), the names CLooG gave them, the statement list produced by
`scop_to_clast`, and the loop around the entry of the region. -/
structure scop where
  params : Option (List tree)
  parameters : List String
  stmt : clast_stmt
  context_loop : Option Nat

/-- Embedding of `create_params_index` (lines 1375-1384) from parameter `i` on. -/
def create_params_index : htab → List String → Nat → htab
  | index_table, [], _ => index_table
  | index_table, name :: rest, i =>
    create_params_index (save_clast_name_index index_table name i i) rest (i + 1)

/-- Embedding of `gloog` (lines 1391-1475). The state handed in is the one left
by what ran before: its flag is the static `gloog_error`, its table
`bb_pbb_mapping` the argument of that name. The result is the returned boolean
and the state at the return. -/
def gloog (tg : Target) (co : Collaborators) (sc : scop) (st : gloog_state) :
    Option (Bool × gloog_state) :=
  let st := { st with gloog_error := false }
  let true_region_entry := st.next_id
  let st := { st with next_id := st.next_id + 1 }
  let ip : ivs_params :=
    { newivs := some [], newivs_index := some [], params := sc.params,
      params_index := some (create_params_index [] sc.parameters 0) }
  let st := { st with ip := ip }
  match translate_clast tg co sc.context_loop sc.stmt true_region_entry 0 st with
  | none => none
  | some (_, st) =>
    let st :=
      if st.gloog_error then
        { st with cfg := st.cfg ++ [.ifsese_condition (integer_zero_node tg)] }
      else st
    some (!st.gloog_error, st)

/-! ## The value of an expression tree -/

/-- Modelled from the spec: "wraparound arithmetic" in a type. The code that
gives expression trees their values is outside the sources; `wrap type v` is
the value of the type that equals `v` modulo `2 ^ TYPE_PRECISION (type)`. -/
def wrap (type : GccType) (v : Int) : Int :=
  let m : Int := ((2 ^ TYPE_PRECISION type : Nat) : Int)
  let h : Int := ((2 ^ TYPE_PRECISION type / 2 : Nat) : Int)
  if TYPE_UNSIGNED type then v % m else (v + h) % m - h

/-- Modelled from the spec: the value an expression tree "evaluates to" when
the SSA name of version `n` holds `env n`. The code that gives expression
trees their values is outside the sources. Arithmetic wraps around in the type
of the node, a comparison is `1` or `0`, a division by zero has no value. -/
def tree_value (env : Nat → Int) : tree → Option Int
  | .ssa_name type version => some (wrap type (env version))
  | .integer_cst type val => some (wrap type val)
  | .build1 code type op0 =>
    match tree_value env op0 with
    | none => none
    | some a =>
      match code with
      | .NOP_EXPR => some (wrap type a)
      | .NEGATE_EXPR => some (wrap type (-a))
      | _ => none
  | .build2 code type op0 op1 =>
    match tree_value env op0, tree_value env op1 with
    | some a, some b =>
      match code with
      | .PLUS_EXPR => some (wrap type (a + b))
      | .POINTER_PLUS_EXPR => some (wrap type (a + b))
      | .MULT_EXPR => some (wrap type (a * b))
      | .MIN_EXPR => some (min a b)
      | .MAX_EXPR => some (max a b)
      | .FLOOR_DIV_EXPR => if b = 0 then none else some (wrap type (Int.fdiv a b))
      | .CEIL_DIV_EXPR => if b = 0 then none else some (wrap type (-(Int.fdiv (-a) b)))
      | .EXACT_DIV_EXPR => if b = 0 then none else some (wrap type (Int.tdiv a b))
      | .TRUNC_MOD_EXPR => if b = 0 then none else some (wrap type (Int.tmod a b))
      | .EQ_EXPR => some (if a = b then 1 else 0)
      | .GE_EXPR => some (if a ≥ b then 1 else 0)
      | .LE_EXPR => some (if a ≤ b then 1 else 0)
      | .LT_EXPR => some (if a < b then 1 else 0)
      | .TRUTH_AND_EXPR => some (if a ≠ 0 ∧ b ≠ 0 then 1 else 0)
      | _ => none
    | _, _ => none

/-! ## Shapes of bound expressions -/

mutual
/-- The expression is a constant term, a variable with coefficient `1`, or a
reduction with a single element that is itself of this shape: the shapes whose
translation is the translation of one term without an operator around it. -/
def clast_expr_is_bare_term : clast_expr → Bool
  | .clast_expr_term none _ => true
  | .clast_expr_term (some _) val => decide (val = 1)
  | .clast_expr_red _ elts => clast_expr_is_bare_term_single elts
  | .clast_expr_bin _ _ _ => false
/-- The list has exactly one element, and that element is a bare term. -/
def clast_expr_is_bare_term_single : List clast_expr → Bool
  | [] => false
  | e :: rest =>
    match rest with
    | [] => clast_expr_is_bare_term e
    | _ :: _ => false
end

/-! ## Reference definitions for reductions, guards and the registry -/

/-- The translations of the expressions of a list, in the order of the list, all
in the type `type`; the flag goes from one translation to the next, and the
whole has no result when one translation has none. -/
def clast_to_gcc_expression_list (tg : Target) (type : GccType) :
    List clast_expr → ivs_params → Bool → Option (List tree × Bool)
  | [], _, gloog_error => some ([], gloog_error)
  | e :: rest, ip, gloog_error =>
    match clast_to_gcc_expression tg type e ip gloog_error with
    | none => none
    | some (t, gloog_error) =>
      match clast_to_gcc_expression_list tg type rest ip gloog_error with
      | none => none
      | some (ts, gloog_error) => some (t :: ts, gloog_error)

/-- The operator of a reduction as the spec names it: `MIN` for min, `MAX` for
max, and for sum the plain addition on a non-pointer target and the
pointer-offset addition on a pointer target. -/
def clast_reduction_operator (type : GccType) : clast_red_type → tree_code
  | .clast_red_sum => if POINTER_TYPE_P type then .POINTER_PLUS_EXPR else .PLUS_EXPR
  | .clast_red_min => .MIN_EXPR
  | .clast_red_max => .MAX_EXPR

/-- The type in which the elements after the first are translated as the spec
names it: the address-sized integer type for a sum on a pointer target, the
target type otherwise. -/
def clast_reduction_operand_type (tg : Target) (type : GccType) : clast_red_type → GccType
  | .clast_red_sum => if POINTER_TYPE_P type then sizetype tg else type
  | .clast_red_min => type
  | .clast_red_max => type

/-- The reduction as the spec words it: the left fold
`op (... op (op (tr e0, tr e1), tr e2) ..., tr e(n-1))` that starts from the
translation of `e0` in the target type. -/
def clast_reduction_left_fold (tg : Target) (type : GccType) (rtype : clast_red_type)
    (e0 : clast_expr) (rest : List clast_expr) (ip : ivs_params) (gloog_error : Bool) :
    Option (tree × Bool) :=
  match clast_to_gcc_expression tg type e0 ip gloog_error with
  | none => none
  | some (t0, gloog_error) =>
    match clast_to_gcc_expression_list tg (clast_reduction_operand_type tg type rtype) rest ip
        gloog_error with
    | none => none
    | some (ts, gloog_error) =>
      some (ts.foldl (fun acc t => tree.build2 (clast_reduction_operator type rtype) type acc t)
        t0, gloog_error)

/-- The operator of a BinaryOp as the spec names it: flooring division for
floor-div, ceiling division for ceil-div, exact division for exact-div, and
the modulo of the truncating division for mod. -/
def clast_bin_operator : clast_bin_type → tree_code
  | .clast_bin_fdiv => .FLOOR_DIV_EXPR
  | .clast_bin_cdiv => .CEIL_DIV_EXPR
  | .clast_bin_div => .EXACT_DIV_EXPR
  | .clast_bin_mod => .TRUNC_MOD_EXPR

/-- The meaning of the four operators of a BinaryOp as the spec words it
("truncating/flooring/ceiling integer semantics"), for a dividend `a`, a
divisor `b` other than zero and a result `q`. Floor-div: `q` is `a / b` rounded
down, so the rest `a - q * b` has the sign of `b` and is smaller than `b` in
absolute value. Ceil-div: `q` is `a / b` rounded up, so the rest has the sign
opposite to `b`. Exact-div: `q * b` is `a` whenever `b` divides `a`. Mod: `q` is
the rest of the division that truncates toward zero, so it differs from `a` by
a multiple of `b`, is smaller than `b` in absolute value, and has the sign of
`a`. -/
def clast_bin_meaning : clast_bin_type → Int → Int → Int → Prop
  | .clast_bin_fdiv, a, b, q => 0 ≤ (a - q * b) * b ∧ (a - q * b).natAbs < b.natAbs
  | .clast_bin_cdiv, a, b, q => (a - q * b) * b ≤ 0 ∧ (a - q * b).natAbs < b.natAbs
  | .clast_bin_div, a, b, q => b ∣ a → q * b = a
  | .clast_bin_mod, a, b, q => b ∣ (a - q) ∧ q.natAbs < b.natAbs ∧ 0 ≤ q * a

/-- The translations of the equations of a list, in the order of the list; the
flag goes from one translation to the next. -/
def graphite_translate_clast_equations (tg : Target) :
    List clast_equation → ivs_params → Bool → Option (List tree × Bool)
  | [], _, gloog_error => some ([], gloog_error)
  | cleq :: rest, ip, gloog_error =>
    match graphite_translate_clast_equation tg cleq ip gloog_error with
    | none => none
    | some (c, gloog_error) =>
      match graphite_translate_clast_equations tg rest ip gloog_error with
      | none => none
      | some (cs, gloog_error) => some (c :: cs, gloog_error)

/-- The left-nested conjunction `((c0 AND c1) AND c2) ... AND c(n-1)` as the
spec words it. -/
def guard_conjunction (c0 : tree) (cs : List tree) : tree :=
  cs.foldl (fun acc c => tree.build2 .TRUTH_AND_EXPR boolean_type_node acc c) c0

/-- The number of records a table holds for a name. -/
def htab_bindings (index_table : htab) (name : String) : Nat :=
  index_table.countP (fun elt => decide (elt.name = name))

/-- The invariant of a hash table keyed by name: no two records have the same
name. -/
def htab_unique_names (index_table : htab) : Prop :=
  (index_table.map (fun elt => elt.name)).Nodup

instance (index_table : htab) : Decidable (htab_unique_names index_table) := by
  unfold htab_unique_names; exact inferInstance

/-- The conditions handed to `set_ifsese_condition`, in the order of the
requests recorded in the control-flow graph. -/
def set_ifsese_conditions : List cfg_event → List tree
  | [] => []
  | .ifsese_condition cond :: rest => cond :: set_ifsese_conditions rest
  | _ :: rest => set_ifsese_conditions rest

/-! ## The dependence test with its queries -/

/-- The inner loop over `j` of `dependency_in_loop_p` (lines 814-826) for a
given `pbb1`, with the calls of `dependency_between_pbbs_p` it makes, in the
order of the calls, next to its result. -/
def dependency_in_loop_p_inner_queries (co : Collaborators) (bb_pbb_mapping : List bb_pbb_def)
    (level pbb1 : Nat) : List Nat → Bool × List (Nat × Nat)
  | [] => (false, [])
  | bb :: rest =>
    match find_pbb_via_hash bb_pbb_mapping bb with
    | none => dependency_in_loop_p_inner_queries co bb_pbb_mapping level pbb1 rest
    | some pbb2 =>
      if co.dependency_between_pbbs_p pbb1 pbb2 level then (true, [(pbb1, pbb2)])
      else
        let r := dependency_in_loop_p_inner_queries co bb_pbb_mapping level pbb1 rest
        (r.1, (pbb1, pbb2) :: r.2)

/-- The outer loop over `i` of `dependency_in_loop_p` (lines 807-827), with the
calls of `dependency_between_pbbs_p` it makes next to its result. -/
def dependency_in_loop_p_outer_queries (co : Collaborators) (bb_pbb_mapping : List bb_pbb_def)
    (level : Nat) (bbs : List Nat) : List Nat → Bool × List (Nat × Nat)
  | [] => (false, [])
  | bb :: rest =>
    match find_pbb_via_hash bb_pbb_mapping bb with
    | none => dependency_in_loop_p_outer_queries co bb_pbb_mapping level bbs rest
    | some pbb1 =>
      let r := dependency_in_loop_p_inner_queries co bb_pbb_mapping level pbb1 bbs
      if r.1 then (true, r.2)
      else
        let r2 := dependency_in_loop_p_outer_queries co bb_pbb_mapping level bbs rest
        (r2.1, r.2 ++ r2.2)

/-- Embedding of `dependency_in_loop_p` (lines 801-832) that also returns the
calls of `dependency_between_pbbs_p`, as pairs `(pbb1, pbb2)` in the order of
the calls. -/
def dependency_in_loop_p_queries (co : Collaborators) (bbs : List Nat)
    (bb_pbb_mapping : List bb_pbb_def) (level : Nat) : Bool × List (Nat × Nat) :=
  dependency_in_loop_p_outer_queries co bb_pbb_mapping level bbs bbs

/-- The statement instances of the blocks of a loop, in the order of the
blocks; a block without a statement instance gives none. -/
def mapped_statements (bb_pbb_mapping : List bb_pbb_def) : List Nat → List Nat
  | [] => []
  | bb :: rest =>
    match find_pbb_via_hash bb_pbb_mapping bb with
    | none => mapped_statements bb_pbb_mapping rest
    | some pbb => pbb :: mapped_statements bb_pbb_mapping rest

/-- The ordered pairs of the spec in row-major order: every element of the
second list as first component, in order, each paired with every element of
the first list, in order. -/
def row_major_pairs (all : List Nat) : List Nat → List (Nat × Nat)
  | [] => []
  | p :: rest => all.map (fun q => (p, q)) ++ row_major_pairs all rest

/-- The elements of a list up to and including the first one that satisfies
`p`; the whole list when none does. -/
def through_first {α : Type} (p : α → Bool) : List α → List α
  | [] => []
  | x :: rest => if p x then [x] else x :: through_first p rest

/-! ## The value of an affine expression -/

mutual
/-- The mathematical value of an affine expression when the variable `v` has the
value `env v`: `val * v` for a term, the sum, minimum or maximum of the elements
for a reduction (of no element: `0`), and the floored, ceiled or exact quotient
or the remainder for a binary operation. -/
def clast_expr_value (env : String → Int) : clast_expr → Int
  | .clast_expr_term none val => val
  | .clast_expr_term (some var) val => val * env var
  | .clast_expr_red rtype elts => clast_expr_value_red env rtype elts
  | .clast_expr_bin .clast_bin_fdiv lhs rhs => Int.fdiv (clast_expr_value env lhs) rhs
  | .clast_expr_bin .clast_bin_cdiv lhs rhs => -(Int.fdiv (-(clast_expr_value env lhs)) rhs)
  | .clast_expr_bin .clast_bin_div lhs rhs => Int.tdiv (clast_expr_value env lhs) rhs
  | .clast_expr_bin .clast_bin_mod lhs rhs => Int.tmod (clast_expr_value env lhs) rhs
/-- The value of a reduction over the elements of a list. -/
def clast_expr_value_red (env : String → Int) (rtype : clast_red_type) :
    List clast_expr → Int
  | [] => 0
  | e :: rest =>
    match rest with
    | [] => clast_expr_value env e
    | _ :: _ =>
      match rtype with
      | .clast_red_sum => clast_expr_value env e + clast_expr_value_red env rtype rest
      | .clast_red_min => min (clast_expr_value env e) (clast_expr_value_red env rtype rest)
      | .clast_red_max => max (clast_expr_value env e) (clast_expr_value_red env rtype rest)
end

/-! ## The order of the walk -/

/-- The user statements of a statement list in left-to-right pre-order: the
body of a loop, guard or block comes before the next sibling of that node. -/
def clast_user_statements : clast_stmt → List Nat
  | .null => []
  | .stmt_root next => clast_user_statements next
  | .stmt_user statement _ next => statement :: clast_user_statements next
  | .stmt_for _ _ _ _ body next => clast_user_statements body ++ clast_user_statements next
  | .stmt_guard _ then_ next => clast_user_statements then_ ++ clast_user_statements next
  | .stmt_block body next => clast_user_statements body ++ clast_user_statements next

/-- The statements copied into the control-flow graph, in the order of the
copies. -/
def copied_statements : List cfg_event → List Nat
  | [] => []
  | .copy_bb pbb _ _ _ :: rest => pbb :: copied_statements rest
  | _ :: rest => copied_statements rest

/-! ## Example inputs -/

/-- Example collaborators: every level ranges over `[0, 99]`, no block is the
entry block, the loop at depth `d` has number `d`, no dependence is reported,
and `flag_loop_parallelize_all` is on. -/
def example_collaborators : Collaborators where
  compute_bounds_for_level := fun _ _ => (0, 99)
  GBB_BB_is_entry_block := fun _ => false
  gbb_loop_at_index := fun _ depth => depth
  dependency_between_pbbs_p := fun _ _ _ => false
  flag_loop_parallelize_all := true

/-- Example tables: the parameters `N` (unsigned 32-bit, SSA version 1) and `M`
(signed 64-bit, SSA version 2), no induction variable yet. -/
def example_ip : ivs_params where
  params := some [.ssa_name (.integer 32 true) 1, .ssa_name (.integer 64 false) 2]
  newivs := some []
  newivs_index := some []
  params_index := some [new_clast_name_index "N" 0 0, new_clast_name_index "M" 1 1]

/-- Example state: the flag clear, the example tables, nothing done yet on the
control-flow graph, which has one loop. -/
def example_state : gloog_state where
  gloog_error := false
  ip := example_ip
  bb_pbb_mapping := []
  cfg := []
  next_id := 100
  number_of_loops := 1

/-- Example loop `for (i = 0; i <= UB; i++) S7;` with the given upper bound. -/
def example_for (UB : clast_expr) : clast_for where
  iterator := "i"
  LB := .clast_expr_term none 0
  UB := UB
  stride := 1
  body := .stmt_user 7 [.clast_expr_term (some "i") 1] .null

/-- Example bound `N + (-1)`. -/
def example_N_minus_1 : clast_expr :=
  .clast_expr_red .clast_red_sum [.clast_expr_term (some "N") 1, .clast_expr_term none (-1)]

/-- The guard of the example loop with upper bound `99`: `0 <= 99` in the signed
16-bit type. -/
def example_guard_99 : loop_guard where
  exit_edge := 100
  type := .integer 16 false
  lb := .integer_cst (.integer 16 false) 0
  ub := .integer_cst (.integer 16 false) 99
  cond_expr :=
    .build2 .LE_EXPR (.integer 1 true) (.integer_cst (.integer 16 false) 0)
      (.integer_cst (.integer 16 false) 99)

/-- The guard of the example loop with upper bound `M`: `0 <= M` in the signed
64-bit type, which is the type of `M`. -/
def example_guard_M : loop_guard where
  exit_edge := 100
  type := .integer 64 false
  lb := .integer_cst (.integer 64 false) 0
  ub := .ssa_name (.integer 64 false) 2
  cond_expr :=
    .build2 .LE_EXPR (.integer 1 true) (.integer_cst (.integer 64 false) 0)
      (.ssa_name (.integer 64 false) 2)

/-- The guard of the example loop with upper bound `N`: the bound is `N`
converted from its unsigned 32-bit type to the signed 64-bit type, and the
condition is `0 < (converted N) + 1`. -/
def example_guard_N : loop_guard where
  exit_edge := 100
  type := .integer 64 false
  lb := .integer_cst (.integer 64 false) 0
  ub := .build1 .NOP_EXPR (.integer 64 false) (.ssa_name (.integer 32 true) 1)
  cond_expr :=
    .build2 .LT_EXPR (.integer 1 true) (.integer_cst (.integer 64 false) 0)
      (.build2 .PLUS_EXPR (.integer 64 false)
        (.build1 .NOP_EXPR (.integer 64 false) (.ssa_name (.integer 32 true) 1))
        (.integer_cst (.integer 64 false) 1))

/-- The guard of the example loop with upper bound `N + (-1)`:
`0 < ((converted N) + (-1)) + 1` in the signed 64-bit type. -/
def example_guard_N_minus_1 : loop_guard where
  exit_edge := 100
  type := .integer 64 false
  lb := .integer_cst (.integer 64 false) 0
  ub :=
    .build2 .PLUS_EXPR (.integer 64 false)
      (.build1 .NOP_EXPR (.integer 64 false) (.ssa_name (.integer 32 true) 1))
      (.integer_cst (.integer 64 false) (-1))
  cond_expr :=
    .build2 .LT_EXPR (.integer 1 true) (.integer_cst (.integer 64 false) 0)
      (.build2 .PLUS_EXPR (.integer 64 false)
        (.build2 .PLUS_EXPR (.integer 64 false)
          (.build1 .NOP_EXPR (.integer 64 false) (.ssa_name (.integer 32 true) 1))
          (.integer_cst (.integer 64 false) (-1)))
        (.integer_cst (.integer 64 false) 1))

/-- Example statement list: a root followed by the example loop with the given
upper bound. -/
def example_stmt (UB : clast_expr) : clast_stmt :=
  .stmt_root (.stmt_for "i" (.clast_expr_term none 0) UB 1
    (.stmt_user 7 [.clast_expr_term (some "i") 1] .null) .null)

/-- Example SCoP: the parameters `N` and `M` of the example tables and the
example statement list with the given upper bound. -/
def example_scop (UB : clast_expr) : scop where
  params := example_ip.params
  parameters := ["N", "M"]
  stmt := example_stmt UB
  context_loop := none

/-- Example equation `N >= 0`. -/
def example_equation_N_ge_0 : clast_equation where
  LHS := .clast_expr_term (some "N") 1
  RHS := .clast_expr_term none 0
  sign := 1

/-- Example equation `M <= 5`. -/
def example_equation_M_le_5 : clast_equation where
  LHS := .clast_expr_term (some "M") 1
  RHS := .clast_expr_term none 5
  sign := -1

/-- Example equation `N = M`. -/
def example_equation_N_eq_M : clast_equation where
  LHS := .clast_expr_term (some "N") 1
  RHS := .clast_expr_term (some "M") 1
  sign := 0

/-- The collaborators of the example with a dependence from statement 8 to
statement 7 and no other. -/
def example_dependence : Collaborators :=
  { example_collaborators with
    dependency_between_pbbs_p := fun pbb1 pbb2 _ => pbb1 == 8 && pbb2 == 7 }

/-- The collaborators of the example with a dependence of every statement on
itself and no other. -/
def example_self_dependence : Collaborators :=
  { example_collaborators with
    dependency_between_pbbs_p := fun pbb1 pbb2 _ => pbb1 == pbb2 }

/-- A map in which block 1 holds statement 7 and block 3 holds statement 8. -/
def example_mapping : List bb_pbb_def :=
  [{ bb := 1, pbb := 7 }, { bb := 3, pbb := 8 }]

/-- The collaborators of the example with `flag_loop_parallelize_all` clear. -/
def example_sequential : Collaborators :=
  { example_collaborators with flag_loop_parallelize_all := false }

/-- The translation of the body of the example loop, as handed to
`translate_clast_for_loop`. -/
def example_translate_body (co : Collaborators) (loop : Option Nat) (next_e level : Nat)
    (st : gloog_state) : Option (Nat × gloog_state) :=
  translate_clast x86_64 co loop (example_for (.clast_expr_term none 99)).body next_e level st

/-- The call of `translate_clast_for_loop` for the example loop with upper bound
`99`, bounds of the signed 32-bit type, on edge 0 at level 0 in the example
state. -/
def example_for_loop (co : Collaborators) : Option (Nat × gloog_state) :=
  translate_clast_for_loop co (example_translate_body co) none
    (example_for (.clast_expr_term none 99)) 0 0 (.integer 32 false)
    (.integer_cst (.integer 32 false) 0) (.integer_cst (.integer 32 false) 99) example_state

/-- Example statement list: the loop `for (i = 0; i <= 99; i++)` around the
statement 7 and a guard `N >= 0` around the statement 8, followed by a block
that holds the statement 9, followed by the statement 10. -/
def example_nest : clast_stmt :=
  .stmt_root (.stmt_for "i" (.clast_expr_term none 0) (.clast_expr_term none 99) 1
    (.stmt_user 7 [.clast_expr_term (some "i") 1]
      (.stmt_guard [example_equation_N_ge_0]
        (.stmt_user 8 [.clast_expr_term (some "i") 1] .null) .null))
    (.stmt_block (.stmt_user 9 [] .null) (.stmt_user 10 [] .null)))

/-! ## Sequences of new loops and the levels of the loops -/

/-- The arguments of one call of `graphite_create_new_loop`. -/
structure new_loop_call where
  entry_edge : Nat
  stmt : clast_for
  outer : Option Nat
  type : GccType
  lb : tree
  ub : tree
  level : Nat

/-- A sequence of calls of `graphite_create_new_loop`, each one on the state
left by the one before; `none` when a call does not return. -/
def graphite_create_new_loops : List new_loop_call → gloog_state → Option gloog_state
  | [], st => some st
  | c :: rest, st =>
    match graphite_create_new_loop c.entry_edge c.stmt c.outer c.type c.lb c.ub c.level st with
    | none => none
    | some (_, st) => graphite_create_new_loops rest st

/-- The loops of a statement list in left-to-right pre-order, each with the
number of loops around it added to `level`. -/
def clast_for_levels : Nat → clast_stmt → List (String × Nat)
  | _, .null => []
  | level, .stmt_root next => clast_for_levels level next
  | level, .stmt_user _ _ next => clast_for_levels level next
  | level, .stmt_for iterator _ _ _ body next =>
    (iterator, level) :: (clast_for_levels (level + 1) body ++ clast_for_levels level next)
  | level, .stmt_guard _ then_ next =>
    clast_for_levels level then_ ++ clast_for_levels level next
  | level, .stmt_block body next =>
    clast_for_levels level body ++ clast_for_levels level next

/-- The level recorded for a name after the loops of a list have recorded
theirs, in the order of the list: that of the last loop of that name, and
`before` when the list has none. -/
def level_after (name : String) : List (String × Nat) → Int → Int
  | [], before => before
  | (iterator, level) :: rest, before =>
    level_after name rest (if iterator = name then (level : Int) else before)

/-- Two calls of `graphite_create_new_loop` for loops of iterator `i`, with a
call for a loop of iterator `j` in between. -/
def example_new_loop_calls : List new_loop_call :=
  [{ entry_edge := 0, stmt := example_for (.clast_expr_term none 99), outer := none,
     type := .integer 32 false, lb := .integer_cst (.integer 32 false) 0,
     ub := .integer_cst (.integer 32 false) 99, level := 0 },
   { entry_edge := 1,
     stmt := { example_for (.clast_expr_term none 99) with iterator := "j" }, outer := some 1,
     type := .integer 64 false, lb := .integer_cst (.integer 64 false) 0,
     ub := .integer_cst (.integer 64 false) 99, level := 1 },
   { entry_edge := 2, stmt := example_for (.clast_expr_term none 99), outer := none,
     type := .integer 16 false, lb := .integer_cst (.integer 16 false) 0,
     ub := .integer_cst (.integer 16 false) 99, level := 0 }]

/-- Example statement list: a loop `i` around the statement 7, a guarded loop
`j` around the statement 8 and a block with a loop `k` around the statement 9;
then a loop `m` around the statement 10. -/
def example_loops : clast_stmt :=
  .stmt_root
    (.stmt_for "i" (.clast_expr_term none 0) (.clast_expr_term none 99) 1
      (.stmt_user 7 [.clast_expr_term (some "i") 1]
        (.stmt_guard [example_equation_N_ge_0]
          (.stmt_for "j" (.clast_expr_term none 0) (.clast_expr_term none 9) 1
            (.stmt_user 8 [.clast_expr_term (some "i") 1, .clast_expr_term (some "j") 1] .null)
            .null)
          (.stmt_block
            (.stmt_for "k" (.clast_expr_term none 0) (.clast_expr_term none 9) 1
              (.stmt_user 9 [.clast_expr_term (some "i") 1, .clast_expr_term (some "k") 1]
                .null)
              .null)
            .null)))
      (.stmt_for "m" (.clast_expr_term none 0) (.clast_expr_term none 99) 1
        (.stmt_user 10 [.clast_expr_term (some "m") 1] .null) .null))

/-! ## An upper bound at the maximum of its type -/

/-- Example bound `M + 1`. -/
def example_M_plus_1 : clast_expr :=
  .clast_expr_red .clast_red_sum [.clast_expr_term (some "M") 1, .clast_expr_term none 1]

/-- The guard of the example loop with upper bound `M + 1`:
`0 < (M + 1) + 1` in the signed 64-bit type. -/
def example_guard_M_plus_1 : loop_guard where
  exit_edge := 100
  type := .integer 64 false
  lb := .integer_cst (.integer 64 false) 0
  ub :=
    .build2 .PLUS_EXPR (.integer 64 false) (.ssa_name (.integer 64 false) 2)
      (.integer_cst (.integer 64 false) 1)
  cond_expr :=
    .build2 .LT_EXPR (.integer 1 true) (.integer_cst (.integer 64 false) 0)
      (.build2 .PLUS_EXPR (.integer 64 false)
        (.build2 .PLUS_EXPR (.integer 64 false) (.ssa_name (.integer 64 false) 2)
          (.integer_cst (.integer 64 false) 1))
        (.integer_cst (.integer 64 false) 1))

/-! ## Expressions whose type holds their values -/

mutual
/-- The expressions without a scaled variable, a negative literal, a sum of
several elements or a division by a literal that is not positive: a variable
with coefficient `1`, a literal that is not negative, a reduction of such
expressions that is a minimum, a maximum or has a single element, and a binary
operation on such an expression with a positive right-hand side. -/
def clast_expr_is_range_safe : clast_expr → Bool
  | .clast_expr_term none val => decide (0 ≤ val)
  | .clast_expr_term (some _) val => decide (val = 1)
  | .clast_expr_red rtype elts =>
    clast_expr_is_range_safe_list elts
      && (decide (rtype ≠ .clast_red_sum) || decide (elts.length ≤ 1))
  | .clast_expr_bin _ lhs rhs => decide (0 < rhs) && clast_expr_is_range_safe lhs
/-- Every expression of the list is of that kind. -/
def clast_expr_is_range_safe_list : List clast_expr → Bool
  | [] => true
  | e :: rest => clast_expr_is_range_safe e && clast_expr_is_range_safe_list rest
end

/-- The call `max_precision_type (type1, type2)` in which `type1` is unsigned,
`type2` is signed and both have the same precision: the case in which
`max_signed_precision_type` looks at `type2` only and does not double the
precision. -/
def max_precision_type_is_tie (type1 type2 : GccType) : Bool :=
  TYPE_UNSIGNED type1 && !TYPE_UNSIGNED type2
    && decide (TYPE_PRECISION type1 = TYPE_PRECISION type2)

mutual
/-- No call of `max_precision_type` made by `gcc_type_for_clast_expr` for the
expression, with the flag clear, is of the kind of `max_precision_type_is_tie`. -/
def clast_expr_joins_without_tie (tg : Target) (ip : ivs_params) : clast_expr → Bool
  | .clast_expr_term _ _ => true
  | .clast_expr_red _ elts => clast_expr_joins_without_tie_red tg ip elts
  | .clast_expr_bin _ lhs _ => clast_expr_joins_without_tie tg ip lhs
/-- The same for the elements of a reduction, from the first one on. -/
def clast_expr_joins_without_tie_red (tg : Target) (ip : ivs_params) :
    List clast_expr → Bool
  | [] => true
  | e0 :: rest =>
    clast_expr_joins_without_tie tg ip e0 &&
      match gcc_type_for_clast_expr tg e0 ip false with
      | none => true
      | some (type, _) => clast_expr_joins_without_tie_red_loop tg ip rest type
/-- The same for the elements of a reduction that are left, with the running
type of `gcc_type_for_clast_red`. -/
def clast_expr_joins_without_tie_red_loop (tg : Target) (ip : ivs_params) :
    List clast_expr → GccType → Bool
  | [], _ => true
  | e :: rest, type =>
    clast_expr_joins_without_tie tg ip e &&
      match gcc_type_for_clast_expr tg e ip false with
      | none => true
      | some (t, _) =>
        !max_precision_type_is_tie type t &&
          match max_precision_type tg type t false with
          | none => true
          | some (type, _) => clast_expr_joins_without_tie_red_loop tg ip rest type
end

end Graphite

/-!
# The lock table of libatomic (`libatomic/config/darwin/lock.c`)

The locks are looked at through the indices of the table `locks` on which
`LockLock` and `LockUnlock` are called: a locking function is embedded as the
list of these indices in the order of the calls. Addresses and sizes are
natural numbers.
-/

namespace Libatomic

/-- `PAGE_SIZE`. -/
def PAGE_SIZE : Nat := 4096

/-- `CACHLINE_SIZE`. -/
def CACHLINE_SIZE : Nat := 64

/-- `WATCH_SIZE`. -/
def WATCH_SIZE : Nat := CACHLINE_SIZE

/-- `LOCK_SIZE`: a lock is a `uint32_t` or an `OSSpinLock`, of 4 bytes. -/
def LOCK_SIZE : Nat := 4

/-- `NLOCKS`. -/
def NLOCKS : Nat := PAGE_SIZE / LOCK_SIZE

/-- `__builtin_clz (x)` for a 32-bit `unsigned int` other than zero: the number
of zero bits above the highest set bit. -/
def builtin_clz (x : Nat) : Nat := 32 - Graphite.bit_length x x

/-- Embedding of `addr_hash` (lines 184-196); `x` is a `uint16_t`. -/
def addr_hash (ptr n : Nat) : Nat :=
  let n := if n ≤ CACHLINE_SIZE ∧ n > 0 then 4 * 8 - builtin_clz n - 1 else 7
  let x := (ptr >>> n) % 2 ^ 16
  let x := (x ^^^ n) % 2 ^ 16
  let x := (((x >>> 8) &&& 0xff) ||| ((x <<< 8) &&& 0xff00)) % 2 ^ 16
  x % NLOCKS

/-- Embedding of `libat_lock_1` (lines 198-202): the index that is locked. -/
def libat_lock_1 (ptr : Nat) : List Nat := [addr_hash ptr 1]

/-- Embedding of `libat_unlock_1` (lines 204-208): the index that is unlocked. -/
def libat_unlock_1 (ptr : Nat) : List Nat := [addr_hash ptr 1]

/-- The loop `do ... while (i < n)` of `libat_lock_n` (lines 221-228) from the
values of `h` and `i` at the start of an iteration: the indices locked from
there on. The first argument bounds the number of iterations; `none` is a loop
that has not ended within the bound. -/
def libat_lock_n_loop : Nat → Nat → Nat → Nat → Option (List Nat)
  | 0, _, _, _ => none
  | fuel + 1, h, i, n =>
    let h1 := if h + 1 = NLOCKS then 0 else h + 1
    let i1 := i + WATCH_SIZE
    if i1 < n then (libat_lock_n_loop fuel h1 i1 n).map (fun rest => h :: rest)
    else some [h]

/-- Embedding of `libat_lock_n` (lines 210-229): the indices locked, in order. -/
def libat_lock_n (ptr n : Nat) : Option (List Nat) :=
  let h := addr_hash ptr n
  let n := if n > PAGE_SIZE then PAGE_SIZE else n
  libat_lock_n_loop (PAGE_SIZE / WATCH_SIZE + 1) h 0 n

/-- The loop `do ... while (i < n)` of `libat_unlock_n` (lines 240-247) from the
values of `h` and `i` at the start of an iteration: the indices unlocked from
there on. -/
def libat_unlock_n_loop : Nat → Nat → Nat → Nat → Option (List Nat)
  | 0, _, _, _ => none
  | fuel + 1, h, i, n =>
    let h1 := if h + 1 = NLOCKS then 0 else h + 1
    let i1 := i + WATCH_SIZE
    if i1 < n then (libat_unlock_n_loop fuel h1 i1 n).map (fun rest => h :: rest)
    else some [h]

/-- Embedding of `libat_unlock_n` (lines 231-248): the indices unlocked, in
order. -/
def libat_unlock_n (ptr n : Nat) : Option (List Nat) :=
  let h := addr_hash ptr n
  let n := if n > PAGE_SIZE then PAGE_SIZE else n
  libat_unlock_n_loop (PAGE_SIZE / WATCH_SIZE + 1) h 0 n

/-- The lock index that `addr_hash` computes (lines 192-195) from an address
already shifted right and the number `n` of bits it was shifted by. -/
def lock_index_of_shifted_address (shifted n : Nat) : Nat :=
  let x := shifted % 2 ^ 16
  let x := (x ^^^ n) % 2 ^ 16
  let x := (((x >>> 8) &&& 0xff) ||| ((x <<< 8) &&& 0xff00)) % 2 ^ 16
  x % NLOCKS

end Libatomic

/-!
# Character and string constants in the C pretty-printer (`gcc/c-pretty-print.c`)

The pretty-printer is looked at through the bytes it appends to its output
buffer: a printing function is embedded as the list of these bytes. The
characters of the target are those of ASCII (`TARGET_NEWLINE` and the like, from
`defaults.h`), as are the printable characters of `ISPRINT`.
-/

namespace CPrettyPrint

/-- `TARGET_NEWLINE`. -/
def TARGET_NEWLINE : Int := 10

/-- `TARGET_TAB`. -/
def TARGET_TAB : Int := 9

/-- `TARGET_VT`. -/
def TARGET_VT : Int := 11

/-- `TARGET_BS`. -/
def TARGET_BS : Int := 8

/-- `TARGET_CR`. -/
def TARGET_CR : Int := 13

/-- `TARGET_FF`. -/
def TARGET_FF : Int := 12

/-- `TARGET_BELL`. -/
def TARGET_BELL : Int := 7

/-- `ISPRINT (c)`: the table of character classes is read at the low 8 bits of
`c`; the printable characters are those from the space to the tilde. -/
def ISPRINT (c : Int) : Bool := decide (32 ≤ c % 256 ∧ c % 256 ≤ 126)

/-- `pp_character (ppi, c)`: the byte appended, `c` converted to `char`. -/
def pp_character (c : Int) : List Nat := [(c % 256).toNat]

/-- The octal digits of `n`, the most significant first, in front of `acc`; the
first argument bounds the number of digits. -/
def octal_digits : Nat → Nat → List Nat → List Nat
  | 0, _, acc => acc
  | fuel + 1, n, acc =>
    if n / 8 = 0 then (48 + n % 8) :: acc
    else octal_digits fuel (n / 8) ((48 + n % 8) :: acc)

/-- `pp_scalar (ppi, "\\%03o", (unsigned) c)`: a backslash and the octal digits
of `c` converted to a 32-bit `unsigned`, at least three of them, with zeros in
front when there are fewer. -/
def pp_scalar_octal (c : Int) : List Nat :=
  let digits := octal_digits 11 (c % 2 ^ 32).toNat []
  92 :: (List.replicate (3 - digits.length) 48 ++ digits)

/-- Embedding of `pp_c_char` (lines 652-695); the bytes 92, 39 and 34 are the
backslash, the single quote and the double quote. -/
def pp_c_char (c : Int) : List Nat :=
  if c = TARGET_NEWLINE then [92, 110]
  else if c = TARGET_TAB then [92, 116]
  else if c = TARGET_VT then [92, 118]
  else if c = TARGET_BS then [92, 98]
  else if c = TARGET_CR then [92, 114]
  else if c = TARGET_FF then [92, 102]
  else if c = TARGET_BELL then [92, 97]
  else if c = 92 then [92, 92]
  else if c = 39 then [92, 39]
  else if c = 34 then [92, 34]
  else if ISPRINT c then pp_character c
  else pp_scalar_octal c

/-- The value of `p[i]` as an `int`, for the byte `b` of the string: the byte
itself when `char` is unsigned on the host, and the byte less 256 from 128 on
when `char` is signed. -/
def char_value (char_is_signed : Bool) (b : Nat) : Int :=
  if char_is_signed && decide (128 ≤ b % 256) then ((b % 256 : Nat) : Int) - 256
  else ((b % 256 : Nat) : Int)

/-- The loop `for (i = 0; i < n; ++i) pp_c_char (ppi, p[i]);` of
`pp_c_string_literal` (lines 705-706), with the number of iterations left and
the bytes from `p[i]` on. -/
def pp_c_string_literal_loop (char_is_signed : Bool) : Nat → List Nat → List Nat
  | 0, _ => []
  | _ + 1, [] => []
  | n + 1, b :: rest =>
    pp_c_char (char_value char_is_signed b) ++ pp_c_string_literal_loop char_is_signed n rest

/-- Embedding of `pp_c_string_literal` (lines 697-708) for the string constant
whose bytes, `TREE_STRING_LENGTH` of them, are `s`. -/
def pp_c_string_literal (char_is_signed : Bool) (s : List Nat) : List Nat :=
  let n : Int := (s.length : Int) - 1
  [34] ++ pp_c_string_literal_loop char_is_signed n.toNat s ++ [34]

/-- Whether a text read from the left has a double quote that is not the
character after a backslash that starts an escape; the first argument tells
that the character before was such a backslash. -/
def has_unescaped_doublequote : Bool → List Nat → Bool
  | _, [] => false
  | true, _ :: rest => has_unescaped_doublequote false rest
  | false, b :: rest =>
    if b = 92 then has_unescaped_doublequote true rest
    else if b = 34 then true
    else has_unescaped_doublequote false rest

end CPrettyPrint

namespace Graphite

/-! # Theorems -/

/-! ## Type inference engine -/

/-- C1: on the 64-bit target, `gcc_type_for_interval (-200, 100)` returns the
signed 8-bit type without raising the flag, although both bounds have at most
`BITS_PER_WORD` bits and `-200 <= 100`; the bound `-200` of the interval is not
a value of that type, whose range is `[-128, 127]`. -/
theorem gcc_type_for_interval_misses_lower_bound :
    (-200 : Int) ≤ 100 ∧
    mpz_sizeinbase (-200) ≤ x86_64.BITS_PER_WORD ∧
    mpz_sizeinbase 100 ≤ x86_64.BITS_PER_WORD ∧
    gcc_type_for_interval x86_64 (-200) 100 false = some (.integer 8 false, false) ∧
    TYPE_MIN_VALUE (.integer 8 false) = -128 ∧
    ¬ representable (.integer 8 false) (-200) := by
  decide

/-- C2: on the 64-bit target, `gcc_type_for_value (-129)` returns the signed
8-bit type without raising the flag, although `-129` has 8 bits; `-129` is
below the minimum `-128` of that type. -/
theorem gcc_type_for_value_misses_negative_value :
    mpz_sizeinbase (-129) ≤ x86_64.BITS_PER_WORD ∧
    gcc_type_for_value x86_64 (-129) false = some (.integer 8 false, false) ∧
    ¬ (TYPE_MIN_VALUE (.integer 8 false) ≤ -129 ∧ -129 ≤ TYPE_MAX_VALUE (.integer 8 false)) := by
  decide

/-- C3: on the 64-bit target, `max_precision_type` of the unsigned 32-bit type
and the signed 32-bit type (in this order) returns the signed 32-bit type
without raising the flag; the value `2^32 - 1` of the first argument is not
representable in it. With the arguments swapped the precision is doubled and
the signed 64-bit type is returned. -/
theorem max_precision_type_loses_unsigned_range :
    max_precision_type x86_64 (.integer 32 true) (.integer 32 false) false
      = some (.integer 32 false, false) ∧
    representable (.integer 32 true) (2 ^ 32 - 1) ∧
    ¬ representable (.integer 32 false) (2 ^ 32 - 1) ∧
    max_precision_type x86_64 (.integer 32 false) (.integer 32 true) false
      = some (.integer 64 false, false) := by
  decide

/-- C9: when the larger bit-length of the bounds (in `gcc_type_for_interval`) or
the chosen precision (in `max_signed_precision_type`) exceeds `BITS_PER_WORD`,
the function returns `integer_type_node`, a signed type, with the flag set, and
does not stop; when the precision is within `BITS_PER_WORD` and the type of the
mode found for it is built, the function returns that type and the flag it was
given. -/
theorem precision_overflow_sets_gloog_error (tg : Target) (v1 v2 : Int)
    (type1 type2 : GccType) (gloog_error : Bool) :
    TYPE_UNSIGNED (integer_type_node tg) = false ∧
    (max (mpz_sizeinbase v1) (mpz_sizeinbase v2) > tg.BITS_PER_WORD →
      gcc_type_for_interval tg v1 v2 gloog_error = some (integer_type_node tg, true)) ∧
    (max_signed_precision type1 type2 > tg.BITS_PER_WORD →
      max_signed_precision_type tg type1 type2 gloog_error
        = some (integer_type_node tg, true)) ∧
    (∀ m unsigned_p, max (mpz_sizeinbase v1) (mpz_sizeinbase v2) ≤ tg.BITS_PER_WORD →
      smallest_mode_for_size tg.int_mode_precisions
        (max (mpz_sizeinbase v1) (mpz_sizeinbase v2)) = some m →
      unsigned_p = (if v1 ≤ v2 then decide (0 ≤ v1) else decide (0 ≤ v2)) →
      tg.nonstandard_type_built m unsigned_p = true →
      gcc_type_for_interval tg v1 v2 gloog_error
        = some (.integer m unsigned_p, gloog_error)) ∧
    (∀ m, max_signed_precision type1 type2 ≤ tg.BITS_PER_WORD →
      smallest_mode_for_size tg.int_mode_precisions (max_signed_precision type1 type2)
        = some m →
      tg.nonstandard_type_built m false = true →
      max_signed_precision_type tg type1 type2 gloog_error
        = some (.integer m false, gloog_error)) := by
  refine ⟨rfl, ?_, ?_, ?_, ?_⟩
  · intro h
    simp [gcc_type_for_interval, h]
  · intro h
    simp [max_signed_precision_type, h]
  · intro m u hle hm hu hb
    subst hu
    have hnot : ¬ (tg.BITS_PER_WORD < max (mpz_sizeinbase v1) (mpz_sizeinbase v2)) :=
      Nat.not_lt.mpr hle
    simp only [gcc_type_for_interval, gt_iff_lt, hnot, if_false, hm,
      build_nonstandard_integer_type, hb, if_true]
  · intro m hle hm hb
    have hnot : ¬ (tg.BITS_PER_WORD < max_signed_precision type1 type2) :=
      Nat.not_lt.mpr hle
    simp only [max_signed_precision_type, gt_iff_lt, hnot, if_false, hm,
      build_nonstandard_integer_type, hb, if_true]

/-- Witness for C9 on the 64-bit target: the interval `[0, 2^64]` and the pair
of an unsigned 64-bit and a signed 8-bit type exceed the word; the interval
`[-5, 100]` and the pair of two signed 32-bit types do not. -/
theorem precision_overflow_sets_gloog_error_witness :
    gcc_type_for_interval x86_64 0 (2 ^ 64) false = some (integer_type_node x86_64, true) ∧
    max_signed_precision_type x86_64 (.integer 64 true) (.integer 8 false) false
      = some (integer_type_node x86_64, true) ∧
    gcc_type_for_interval x86_64 (-5) 100 false = some (.integer 8 false, false) ∧
    max_signed_precision_type x86_64 (.integer 32 false) (.integer 32 false) false
      = some (.integer 32 false, false) :=
  ⟨(precision_overflow_sets_gloog_error x86_64 0 (2 ^ 64) (.integer 64 true)
      (.integer 8 false) false).2.1 (by decide),
   (precision_overflow_sets_gloog_error x86_64 0 (2 ^ 64) (.integer 64 true)
      (.integer 8 false) false).2.2.1 (by decide),
   (precision_overflow_sets_gloog_error x86_64 (-5) 100 (.integer 32 false)
      (.integer 32 false) false).2.2.2.1 8 false (by decide) (by decide) (by decide) rfl,
   (precision_overflow_sets_gloog_error x86_64 (-5) 100 (.integer 32 false)
      (.integer 32 false) false).2.2.2.2 32 (by decide) (by decide) rfl⟩


theorem two_mul_half_pow_le (p : Nat) : 2 * (((2 ^ p / 2 : Nat) : Int)) ≤ ((2 ^ p : Nat) : Int) := by
  have : 2 * (2 ^ p / 2) ≤ 2 ^ p := Nat.mul_div_le (2 ^ p) 2
  exact_mod_cast this

theorem wrap_of_representable (type : GccType) (v : Int) (h : representable type v) :
    wrap type v = v := by
  unfold representable at h
  cases type with
  | integer p u =>
    cases u with
    | true =>
      simp only [TYPE_MIN_VALUE, TYPE_MAX_VALUE] at h
      simp only [wrap, TYPE_UNSIGNED, TYPE_PRECISION, if_true]
      exact Int.emod_eq_of_lt h.1 (by omega)
    | false =>
      simp only [TYPE_MIN_VALUE, TYPE_MAX_VALUE] at h
      have h2 := two_mul_half_pow_le p
      simp only [wrap, TYPE_UNSIGNED, TYPE_PRECISION]
      rw [if_neg (by simp), Int.emod_eq_of_lt (by omega) (by omega)]
      omega
  | pointer p =>
    simp only [TYPE_MIN_VALUE, TYPE_MAX_VALUE] at h
    simp only [wrap, TYPE_UNSIGNED, TYPE_PRECISION, if_true]
    exact Int.emod_eq_of_lt h.1 (by omega)

theorem wrap_add_wrap (type : GccType) (a b : Int) :
    wrap type (a + wrap type b) = wrap type (a + b) := by
  unfold wrap
  generalize ((2 ^ TYPE_PRECISION type : Nat) : Int) = m
  generalize ((2 ^ TYPE_PRECISION type / 2 : Nat) : Int) = h
  by_cases hu : TYPE_UNSIGNED type = true
  · simp only [hu, if_true]
    exact Int.add_emod_emod _ _ _
  · simp only [hu]
    simp only [Bool.false_eq_true, if_false]
    have e1 : a + ((b + h) % m - h) + h = a + (b + h) % m := by ring
    rw [e1, Int.add_emod_emod, add_assoc]

theorem tree_value_converted_one (tg : Target) (env : Nat → Int) (type : GccType) :
    tree_value env (fold_convert type (integer_one_node tg)) = some (wrap type 1) := by
  unfold fold_convert integer_one_node
  by_cases h : integer_type_node tg = type
  · simp [TREE_TYPE, h, tree_value]
  · simp [TREE_TYPE, h, tree_value]

theorem loop_guard_cond_expr_value (tg : Target) (env : Nat → Int) (type : GccType)
    (lb ub : tree) (a b : Int) (hnp : POINTER_TYPE_P type = false)
    (hlb : tree_value env lb = some a) (hub : tree_value env ub = some b) :
    tree_value env (loop_guard_cond_expr tg type lb ub)
      = some (if TREE_CODE ub = .INTEGER_CST ∨ TREE_CODE ub = .SSA_NAME then
                (if a ≤ b then 1 else 0)
              else (if a < wrap type (b + 1) then 1 else 0)) := by
  unfold loop_guard_cond_expr
  by_cases hc : TREE_CODE ub = .INTEGER_CST ∨ TREE_CODE ub = .SSA_NAME
  · have hc2 : (decide (TREE_CODE ub = .INTEGER_CST) || decide (TREE_CODE ub = .SSA_NAME)) = true := by
      simpa using hc
    rw [if_pos hc2, if_pos hc]
    simp [fold_build2, tree_value, hlb, hub]
  · have hc2 : ¬ ((decide (TREE_CODE ub = .INTEGER_CST) || decide (TREE_CODE ub = .SSA_NAME)) = true) := by
      simpa using hc
    rw [if_neg hc2, if_neg hc]
    simp only [hnp, Bool.false_eq_true, if_false, fold_build2, tree_value, hlb, hub,
      tree_value_converted_one, wrap_add_wrap]

theorem max_signed_precision_type_signed (tg : Target) (type1 type2 type : GccType)
    (e e' : Bool) (h : max_signed_precision_type tg type1 type2 e = some (type, e')) :
    ∃ n, type = .integer n false := by
  unfold max_signed_precision_type at h
  simp only [build_nonstandard_integer_type] at h
  split at h
  · simp only [Option.some.injEq, Prod.mk.injEq] at h
    exact ⟨_, h.1.symm⟩
  · split at h
    · exact absurd h (by simp)
    · split at h
      · simp only [Option.some.injEq, Prod.mk.injEq] at h
        exact ⟨_, h.1.symm⟩
      · rename_i heq
        simp only [Option.some.injEq, Prod.mk.injEq] at h
        split at heq
        · simp only [Option.some.injEq] at heq
          exact ⟨_, by rw [← h.1, ← heq]⟩
        · exact absurd heq (by simp)

theorem graphite_create_new_loop_guard_inv (tg : Target) (co : Collaborators)
    (entry_edge : Nat) (stmt : clast_for) (level : Nat) (st st' : gloog_state) (g : loop_guard)
    (h : graphite_create_new_loop_guard tg co entry_edge stmt level st = some (g, st')) :
    ∃ lb_type ub_type e1 e2 e3 e4 e5,
      gcc_type_for_clast_expr tg stmt.LB st.ip st.gloog_error = some (lb_type, e1) ∧
      gcc_type_for_clast_expr tg stmt.UB st.ip e1 = some (ub_type, e2) ∧
      gcc_type_for_iv_of_clast_loop tg co stmt level lb_type ub_type e2 = some (g.type, e3) ∧
      clast_to_gcc_expression tg g.type stmt.LB st.ip e3 = some (g.lb, e4) ∧
      clast_to_gcc_expression tg g.type stmt.UB st.ip e4 = some (g.ub, e5) ∧
      g.cond_expr = loop_guard_cond_expr tg g.type g.lb g.ub ∧
      g.exit_edge = st.next_id ∧
      st' = { st with gloog_error := e5,
                      cfg := st.cfg ++ [.if_region entry_edge g.cond_expr st.next_id],
                      next_id := st.next_id + 2 } := by
  unfold graphite_create_new_loop_guard at h
  split at h
  · exact absurd h (by simp)
  · rename_i lb_type e1 h1
    split at h
    · exact absurd h (by simp)
    · rename_i ub_type e2 h2
      split at h
      · exact absurd h (by simp)
      · rename_i type e3 h3
        split at h
        · exact absurd h (by simp)
        · rename_i lb e4 h4
          split at h
          · exact absurd h (by simp)
          · rename_i ub e5 h5
            simp only [create_empty_if_region_on_edge, Option.some.injEq, Prod.mk.injEq] at h
            obtain ⟨hg, hst⟩ := h
            subst hg
            exact ⟨lb_type, ub_type, e1, e2, e3, e4, e5, h1, h2, h3, h4, h5, rfl, rfl, hst.symm⟩

theorem gcc_type_for_iv_of_clast_loop_signed (tg : Target) (co : Collaborators)
    (stmt : clast_for) (level : Nat) (lb_type ub_type type : GccType) (e e' : Bool)
    (h : gcc_type_for_iv_of_clast_loop tg co stmt level lb_type ub_type e = some (type, e')) :
    ∃ n, type = .integer n false := by
  unfold gcc_type_for_iv_of_clast_loop at h
  split at h
  · exact absurd h (by simp)
  · exact absurd h (by simp)
  · split at h
    · exact absurd h (by simp)
    · split at h
      · exact absurd h (by simp)
      · exact max_signed_precision_type_signed _ _ _ _ _ _ h

theorem graphite_create_new_loop_guard_type (tg : Target) (co : Collaborators)
    (entry_edge : Nat) (stmt : clast_for) (level : Nat) (st st' : gloog_state) (g : loop_guard)
    (h : graphite_create_new_loop_guard tg co entry_edge stmt level st = some (g, st')) :
    ∃ n, g.type = .integer n false := by
  obtain ⟨_, _, _, _, _, _, _, _, _, h3, _⟩ := graphite_create_new_loop_guard_inv _ _ _ _ _ _ _ _ h
  exact gcc_type_for_iv_of_clast_loop_signed _ _ _ _ _ _ _ _ _ h3

/-! ## Loop guards -/

/-- Counterexample for C5: the guard that `graphite_create_new_loop_guard`
returns for the example loop with upper bound `N + (-1)`, where `N` is the
unsigned 32-bit parameter, is built in the signed 64-bit type. For `N = 0` the
value of its upper bound is `-1`, not the maximum of an unsigned type, and the
value of `lb <= ub` is `0` (false), as is the value of the condition
`lb < ub + 1` of the guard. -/
theorem loop_guard_of_parameter_minus_one_is_signed :
    (graphite_create_new_loop_guard x86_64 example_collaborators 100
        (example_for example_N_minus_1) 0 example_state).map Prod.fst
      = some example_guard_N_minus_1 ∧
    TYPE_UNSIGNED example_guard_N_minus_1.type = false ∧
    tree_value (fun _ => 0) example_guard_N_minus_1.ub = some (-1) ∧
    tree_value (fun _ => 0) example_guard_N_minus_1.cond_expr = some 0 ∧
    tree_value (fun _ => 0)
      (fold_build2 .LE_EXPR boolean_type_node example_guard_N_minus_1.lb
        example_guard_N_minus_1.ub) = some 0 := by
  decide

/-- C5, amended: a guard that `graphite_create_new_loop_guard` returns is built
in a signed `k`-bit type. When its translated upper bound is not a constant or
an SSA name and has the maximum `2^(k-1) - 1` of that type as its value, the
condition of the guard is `lb < ub + 1`, its value is `0` (false) for every
value of `lb` in the type, and the value of `lb <= ub` is `1` (true). -/
theorem strict_guard_false_at_signed_max (tg : Target) (co : Collaborators) (entry_edge : Nat)
    (stmt : clast_for) (level : Nat) (st : gloog_state) (g : loop_guard)
    (env : Nat → Int) (a : Int)
    (h : (graphite_create_new_loop_guard tg co entry_edge stmt level st).map Prod.fst = some g)
    (hcst : TREE_CODE g.ub ≠ .INTEGER_CST) (hssa : TREE_CODE g.ub ≠ .SSA_NAME)
    (hlb : tree_value env g.lb = some a) (ha : representable g.type a)
    (hub : tree_value env g.ub = some (TYPE_MAX_VALUE g.type)) :
    (∃ k, g.type = .integer k false ∧
      TYPE_MAX_VALUE g.type = ((2 ^ (k - 1) : Nat) : Int) - 1) ∧
    TYPE_UNSIGNED g.type = false ∧
    g.cond_expr = fold_build2 .LT_EXPR boolean_type_node g.lb
      (fold_build2 .PLUS_EXPR g.type g.ub (fold_convert g.type (integer_one_node tg))) ∧
    tree_value env g.cond_expr = some 0 ∧
    tree_value env (fold_build2 .LE_EXPR boolean_type_node g.lb g.ub) = some 1 := by
  obtain ⟨⟨g', st'⟩, h', hg⟩ := Option.map_eq_some'.mp h
  simp only at hg
  subst hg
  obtain ⟨k, hk⟩ := graphite_create_new_loop_guard_type _ _ _ _ _ _ _ _ h'
  obtain ⟨_, _, _, _, _, _, _, _, _, _, _, _, hc, _, _⟩ :=
    graphite_create_new_loop_guard_inv _ _ _ _ _ _ _ _ h'
  have hne : ¬ (TREE_CODE g'.ub = .INTEGER_CST ∨ TREE_CODE g'.ub = .SSA_NAME) := by
    rintro (h1 | h1)
    · exact hcst h1
    · exact hssa h1
  have hnp : POINTER_TYPE_P g'.type = false := by rw [hk]; rfl
  rw [hk] at ha hub
  simp only [representable, TYPE_MIN_VALUE, TYPE_MAX_VALUE] at ha
  have hpos : 1 ≤ 2 ^ k / 2 := by
    have : (0 : Int) < ((2 ^ k / 2 : Nat) : Int) := by omega
    exact_mod_cast this
  have hk1 : 1 ≤ k := by
    rcases Nat.eq_zero_or_pos k with h0 | h0
    · subst h0; simp at hpos
    · exact h0
  have hhalf : 2 ^ k / 2 = 2 ^ (k - 1) := by
    have e : 2 ^ k = 2 ^ (k - 1) * 2 := by
      rw [← pow_succ]; congr 1; omega
    rw [e, Nat.mul_div_cancel _ (by decide : 0 < 2)]
  have hfull : ((2 ^ k : Nat) : Int) = 2 * ((2 ^ k / 2 : Nat) : Int) := by
    have e : 2 ^ k = 2 * (2 ^ k / 2) := by
      rw [hhalf, Nat.mul_comm, ← pow_succ]; congr 1; omega
    exact_mod_cast e
  refine ⟨⟨k, hk, ?_⟩, by rw [hk]; rfl, ?_, ?_, ?_⟩
  · rw [hk]; simp only [TYPE_MAX_VALUE, hhalf]
  · rw [hc, loop_guard_cond_expr]
    have hc2 : ¬ ((decide (TREE_CODE g'.ub = .INTEGER_CST)
        || decide (TREE_CODE g'.ub = .SSA_NAME)) = true) := by simpa using hne
    rw [if_neg hc2]
    simp only [hnp, Bool.false_eq_true, if_false]
  · rw [hc, loop_guard_cond_expr_value tg env g'.type g'.lb g'.ub a _ hnp hlb hub,
      if_neg hne]
    have hw : wrap g'.type (TYPE_MAX_VALUE (.integer k false) + 1)
        = -(((2 ^ k / 2 : Nat) : Int)) := by
      rw [hk]
      simp only [wrap, TYPE_UNSIGNED, TYPE_PRECISION, TYPE_MAX_VALUE, Bool.false_eq_true,
        if_false, hfull]
      have e : ((2 ^ k / 2 : Nat) : Int) - 1 + 1 + ((2 ^ k / 2 : Nat) : Int)
          = 2 * ((2 ^ k / 2 : Nat) : Int) := by ring
      rw [e, Int.emod_self]
      ring
    rw [hw]
    have h0 : ¬ a < -(((2 ^ k / 2 : Nat) : Int)) := by omega
    rw [if_neg h0]
  · simp only [fold_build2, tree_value, hlb, hub, TYPE_MAX_VALUE]
    rw [if_pos ha.2]

/-- Witness for C5, amended: the example loop with upper bound `M + 1`, where
`M` is the signed 64-bit parameter, for `M = 2^63 - 2`: the upper bound has the
maximum `2^63 - 1` of the type as its value. -/
theorem strict_guard_false_at_signed_max_witness :
    (graphite_create_new_loop_guard x86_64 example_collaborators 100
        (example_for example_M_plus_1) 0 example_state).map Prod.fst
      = some example_guard_M_plus_1 ∧
    tree_value (fun _ => 2 ^ 63 - 2) example_guard_M_plus_1.ub = some (2 ^ 63 - 1) ∧
    tree_value (fun _ => 2 ^ 63 - 2) example_guard_M_plus_1.cond_expr = some 0 ∧
    tree_value (fun _ => 2 ^ 63 - 2)
      (fold_build2 .LE_EXPR boolean_type_node example_guard_M_plus_1.lb
        example_guard_M_plus_1.ub) = some 1 :=
  ⟨by decide, by decide,
   (strict_guard_false_at_signed_max x86_64 example_collaborators 100
      (example_for example_M_plus_1) 0 example_state example_guard_M_plus_1
      (fun _ => 2 ^ 63 - 2) 0 (by decide) (by decide) (by decide) (by decide) (by decide)
      (by decide)).2.2.2⟩

/-- C6: when the bounds translated by `graphite_create_new_loop_guard` have the
values `a` and `b` of the induction-variable type and `b + 1` is a value of
that type too, the condition of the guard, in either of its two forms, has the
value `1` (true) when `a <= b` and `0` (false) when `a > b`. -/
theorem loop_guard_true_iff_lb_le_ub (tg : Target) (co : Collaborators) (entry_edge : Nat)
    (stmt : clast_for) (level : Nat) (st : gloog_state) (g : loop_guard)
    (env : Nat → Int) (a b : Int)
    (h : (graphite_create_new_loop_guard tg co entry_edge stmt level st).map Prod.fst = some g)
    (hlb : tree_value env g.lb = some a) (hub : tree_value env g.ub = some b)
    (_ha : representable g.type a) (_hb : representable g.type b)
    (hb1 : representable g.type (b + 1)) :
    (g.cond_expr = fold_build2 .LE_EXPR boolean_type_node g.lb g.ub ∨
     g.cond_expr = fold_build2 .LT_EXPR boolean_type_node g.lb
        (fold_build2 .PLUS_EXPR g.type g.ub (fold_convert g.type (integer_one_node tg)))) ∧
    tree_value env g.cond_expr = some (if a ≤ b then 1 else 0) := by
  obtain ⟨⟨g', st'⟩, h', hg⟩ := Option.map_eq_some'.mp h
  simp only at hg
  subst hg
  obtain ⟨n, hn⟩ := graphite_create_new_loop_guard_type _ _ _ _ _ _ _ _ h'
  obtain ⟨_, _, _, _, _, _, _, _, _, _, _, _, hcond, _, _⟩ :=
    graphite_create_new_loop_guard_inv _ _ _ _ _ _ _ _ h'
  have hnp : POINTER_TYPE_P g'.type = false := by rw [hn]; rfl
  refine ⟨?_, ?_⟩
  · rw [hcond]
    unfold loop_guard_cond_expr
    split
    · exact Or.inl rfl
    · right
      simp [hnp]
  · rw [hcond, loop_guard_cond_expr_value tg env _ _ _ a b hnp hlb hub,
      wrap_of_representable _ _ hb1]
    split
    · rfl
    · by_cases hab : a ≤ b
      · rw [if_pos hab, if_pos (by omega)]
      · rw [if_neg hab, if_neg (by omega)]

theorem clast_to_gcc_expression_red_loop_code (tg : Target) (type operand_type : GccType)
    (op : tree_code) (e : clast_expr) (rest : List clast_expr) (res : tree) (ip : ivs_params)
    (err err' : Bool) (r : tree)
    (h : clast_to_gcc_expression_red_loop tg type operand_type op (e :: rest) res ip err
      = some (r, err')) :
    TREE_CODE r = op := by
  induction rest generalizing e res err with
  | nil =>
    rw [clast_to_gcc_expression_red_loop] at h
    split at h
    · exact absurd h (by simp)
    · rw [clast_to_gcc_expression_red_loop] at h
      simp only [Option.some.injEq, Prod.mk.injEq] at h
      rw [← h.1]
      rfl
  | cons e2 rest ih =>
    rw [clast_to_gcc_expression_red_loop] at h
    split at h
    · exact absurd h (by simp)
    · exact ih _ _ _ h

theorem clast_to_gcc_expression_compound_code (tg : Target) :
    ∀ (e : clast_expr) (type : GccType) (ip : ivs_params) (err err' : Bool) (r : tree),
      POINTER_TYPE_P type = false → clast_expr_is_bare_term e = false →
      clast_to_gcc_expression tg type e ip err = some (r, err') →
      TREE_CODE r ≠ .INTEGER_CST ∧ TREE_CODE r ≠ .SSA_NAME
  | .clast_expr_term none val, type, ip, err, err', r, _, hb, _ => by
    simp [clast_expr_is_bare_term] at hb
  | .clast_expr_term (some var) val, type, ip, err, err', r, hnp, hb, h => by
    simp only [clast_expr_is_bare_term, decide_eq_false_iff_not] at hb
    rw [clast_to_gcc_expression] at h
    split at h
    · exact absurd h (by simp)
    · simp only [hb, if_false, hnp, Bool.not_false, if_true] at h
      split at h
      · simp only [Option.some.injEq, Prod.mk.injEq] at h
        rw [← h.1]
        simp [fold_build1, TREE_CODE]
      · simp only [Option.some.injEq, Prod.mk.injEq] at h
        rw [← h.1]
        simp [fold_build2, TREE_CODE]
  | .clast_expr_red rtype [], type, ip, err, err', r, _, _, h => by
    cases rtype <;>
    · rw [clast_to_gcc_expression, clast_to_gcc_expression_red] at h
      exact absurd h (by simp)
  | .clast_expr_red rtype [e0], type, ip, err, err', r, hnp, hb, h => by
    simp only [clast_expr_is_bare_term, clast_expr_is_bare_term_single] at hb
    have ih := clast_to_gcc_expression_compound_code tg e0 type ip err
    cases rtype <;>
    · rw [clast_to_gcc_expression, clast_to_gcc_expression_red] at h
      split at h
      · exact absurd h (by simp)
      · rename_i res err1 h0
        rw [clast_to_gcc_expression_red_loop] at h
        simp only [Option.some.injEq, Prod.mk.injEq] at h
        rw [← h.1]
        exact ih err1 res hnp hb h0
  | .clast_expr_red rtype (e0 :: e1 :: rest), type, ip, err, err', r, hnp, _, h => by
    cases rtype <;>
    · rw [clast_to_gcc_expression, clast_to_gcc_expression_red] at h
      split at h
      · exact absurd h (by simp)
      · have hc := clast_to_gcc_expression_red_loop_code _ _ _ _ _ _ _ _ _ _ _ h
        rw [hc]
        simp [hnp]
  | .clast_expr_bin btype lhs rhs, type, ip, err, err', r, _, _, h => by
    rw [clast_to_gcc_expression] at h
    split at h
    · exact absurd h (by simp)
    · cases btype <;>
      · simp only [Option.some.injEq, Prod.mk.injEq] at h
        rw [← h.1]
        simp [fold_build2, TREE_CODE]

theorem loop_guard_cond_expr_le (tg : Target) (type : GccType) (lb ub : tree)
    (h : TREE_CODE ub = .INTEGER_CST ∨ TREE_CODE ub = .SSA_NAME) :
    loop_guard_cond_expr tg type lb ub = fold_build2 .LE_EXPR boolean_type_node lb ub := by
  unfold loop_guard_cond_expr
  have hc2 : (decide (TREE_CODE ub = .INTEGER_CST) || decide (TREE_CODE ub = .SSA_NAME))
      = true := by simpa using h
  rw [if_pos hc2]

theorem loop_guard_cond_expr_lt (tg : Target) (type : GccType) (lb ub : tree)
    (hnp : POINTER_TYPE_P type = false)
    (hcst : TREE_CODE ub ≠ .INTEGER_CST) (hssa : TREE_CODE ub ≠ .SSA_NAME) :
    loop_guard_cond_expr tg type lb ub
      = fold_build2 .LT_EXPR boolean_type_node lb
          (fold_build2 .PLUS_EXPR type ub (fold_convert type (integer_one_node tg))) := by
  unfold loop_guard_cond_expr
  have hc2 : ¬ ((decide (TREE_CODE ub = .INTEGER_CST) || decide (TREE_CODE ub = .SSA_NAME))
      = true) := by simp [hcst, hssa]
  rw [if_neg hc2]
  simp [hnp]

/-- C4 (as amended): when the upper bound of a ForLoop is a Term with
coefficient 1 whose variable is bound to an SSA name, the guard condition is
`lb <= ub` if the type of that name is the induction-variable type of the loop;
if the name has another type, the translated bound is a conversion of the name
and the guard condition is `lb < ub + 1`. -/
theorem loop_guard_of_variable_upper_bound (tg : Target) (co : Collaborators)
    (entry_edge : Nat) (stmt : clast_for) (level : Nat) (st : gloog_state) (g : loop_guard)
    (var : String) (vtype : GccType) (version : Nat)
    (h : (graphite_create_new_loop_guard tg co entry_edge stmt level st).map Prod.fst = some g)
    (hub : stmt.UB = .clast_expr_term (some var) 1)
    (hname : clast_name_to_gcc var st.ip = some (.ssa_name vtype version)) :
    (vtype = g.type →
      g.ub = .ssa_name vtype version ∧
      g.cond_expr = fold_build2 .LE_EXPR boolean_type_node g.lb g.ub) ∧
    (vtype ≠ g.type →
      TREE_CODE g.ub = .NOP_EXPR ∧
      g.cond_expr = fold_build2 .LT_EXPR boolean_type_node g.lb
        (fold_build2 .PLUS_EXPR g.type g.ub (fold_convert g.type (integer_one_node tg)))) := by
  obtain ⟨⟨g', st'⟩, h', hg⟩ := Option.map_eq_some'.mp h
  simp only at hg
  subst hg
  obtain ⟨n, hn⟩ := graphite_create_new_loop_guard_type _ _ _ _ _ _ _ _ h'
  obtain ⟨_, _, _, _, _, e4, e5, _, _, _, _, hubt, hcond, _, _⟩ :=
    graphite_create_new_loop_guard_inv _ _ _ _ _ _ _ _ h'
  have hnp : POINTER_TYPE_P g'.type = false := by rw [hn]; rfl
  rw [hub, clast_to_gcc_expression, hname] at hubt
  simp only [if_true, Option.some.injEq, Prod.mk.injEq, TREE_TYPE, hnp] at hubt
  refine ⟨?_, ?_⟩
  · intro hty
    have hu : g'.ub = .ssa_name vtype version := by
      rw [← hubt.1, hty]
      simp [hnp, fold_convert, TREE_TYPE]
    refine ⟨hu, ?_⟩
    rw [hcond]
    exact loop_guard_cond_expr_le _ _ _ _ (Or.inr (by rw [hu]; rfl))
  · intro hty
    have hu : TREE_CODE g'.ub = .NOP_EXPR := by
      rw [← hubt.1]
      cases vtype with
      | integer p u =>
        simp [POINTER_TYPE_P, fold_convert, TREE_TYPE, hty, TREE_CODE]
      | pointer p =>
        simp [POINTER_TYPE_P, fold_convert, TREE_TYPE, sizetype, hn, TREE_CODE]
    refine ⟨hu, ?_⟩
    rw [hcond]
    exact loop_guard_cond_expr_lt _ _ _ _ hnp (by rw [hu]; decide) (by rw [hu]; decide)

/-- Counterexample to C4 as stated: the upper bound is the simple reference
`N`, a parameter of unsigned 32-bit type; the induction variable gets the
signed 64-bit type, the translated bound is a conversion of `N`, and the guard
condition is `0 < (converted N) + 1`, an `LT_EXPR`, not `lb <= ub`. -/
theorem loop_guard_of_converted_parameter_is_strict :
    clast_name_to_gcc "N" example_state.ip = some (.ssa_name (.integer 32 true) 1) ∧
    (graphite_create_new_loop_guard x86_64 example_collaborators 100
        (example_for (.clast_expr_term (some "N") 1)) 0 example_state).map Prod.fst
      = some example_guard_N ∧
    TREE_CODE example_guard_N.cond_expr = .LT_EXPR ∧
    example_guard_N.cond_expr
      ≠ fold_build2 .LE_EXPR boolean_type_node example_guard_N.lb example_guard_N.ub := by
  decide

/-- Witness for C4 (as amended): the parameter `M` has the signed 64-bit type of
the induction variable and gives `0 <= M`; the parameter `N` has the unsigned
32-bit type and gives a conversion and the strict form. -/
theorem loop_guard_of_variable_upper_bound_witness :
    (graphite_create_new_loop_guard x86_64 example_collaborators 100
        (example_for (.clast_expr_term (some "M") 1)) 0 example_state).map Prod.fst
      = some example_guard_M ∧
    example_guard_M.cond_expr
      = fold_build2 .LE_EXPR boolean_type_node example_guard_M.lb example_guard_M.ub ∧
    (graphite_create_new_loop_guard x86_64 example_collaborators 100
        (example_for (.clast_expr_term (some "N") 1)) 0 example_state).map Prod.fst
      = some example_guard_N ∧
    TREE_CODE example_guard_N.ub = .NOP_EXPR :=
  ⟨by decide,
   ((loop_guard_of_variable_upper_bound x86_64 example_collaborators 100
      (example_for (.clast_expr_term (some "M") 1)) 0 example_state example_guard_M
      "M" (.integer 64 false) 2 (by decide) rfl (by decide)).1 rfl).2,
   by decide,
   ((loop_guard_of_variable_upper_bound x86_64 example_collaborators 100
      (example_for (.clast_expr_term (some "N") 1)) 0 example_state example_guard_N
      "N" (.integer 32 true) 1 (by decide) rfl (by decide)).2 (by decide)).1⟩

/-- Witness for C6: the loop `for (i = 0; i <= N + (-1); i++)` with `N = 10`; the
bounds have the values `0` and `9` in the signed 64-bit type and the guard
`0 < (N + (-1)) + 1` has the value `1`. -/
theorem loop_guard_true_iff_lb_le_ub_witness :
    (graphite_create_new_loop_guard x86_64 example_collaborators 100
        (example_for example_N_minus_1) 0 example_state).map Prod.fst
      = some example_guard_N_minus_1 ∧
    tree_value (fun _ => 10) example_guard_N_minus_1.lb = some 0 ∧
    tree_value (fun _ => 10) example_guard_N_minus_1.ub = some 9 ∧
    tree_value (fun _ => 10) example_guard_N_minus_1.cond_expr
      = some (if (0 : Int) ≤ 9 then 1 else 0) :=
  ⟨by decide, by decide, by decide,
   (loop_guard_true_iff_lb_le_ub x86_64 example_collaborators 100
      (example_for example_N_minus_1) 0 example_state example_guard_N_minus_1
      (fun _ => 10) 0 9 (by decide) (by decide) (by decide) (by decide) (by decide)
      (by decide)).2⟩

/-- C7: when the upper bound of a ForLoop is a Term without a variable, the
translated bound is that constant in the induction-variable type and the guard
condition is `lb <= ub`, an `LE_EXPR` and not an `LT_EXPR`. -/
theorem loop_guard_of_constant_upper_bound (tg : Target) (co : Collaborators)
    (entry_edge : Nat) (stmt : clast_for) (level : Nat) (st : gloog_state) (g : loop_guard)
    (val : Int)
    (h : (graphite_create_new_loop_guard tg co entry_edge stmt level st).map Prod.fst = some g)
    (hub : stmt.UB = .clast_expr_term none val) :
    g.ub = gmp_cst_to_tree g.type val ∧
    g.cond_expr = fold_build2 .LE_EXPR boolean_type_node g.lb g.ub ∧
    TREE_CODE g.cond_expr = .LE_EXPR ∧ TREE_CODE g.cond_expr ≠ .LT_EXPR := by
  obtain ⟨⟨g', st'⟩, h', hg⟩ := Option.map_eq_some'.mp h
  simp only at hg
  subst hg
  obtain ⟨_, _, _, _, _, e4, e5, _, _, _, _, hubt, hcond, _, _⟩ :=
    graphite_create_new_loop_guard_inv _ _ _ _ _ _ _ _ h'
  rw [hub, clast_to_gcc_expression] at hubt
  simp only [Option.some.injEq, Prod.mk.injEq] at hubt
  have hc : g'.cond_expr = fold_build2 .LE_EXPR boolean_type_node g'.lb g'.ub := by
    rw [hcond]
    exact loop_guard_cond_expr_le _ _ _ _ (Or.inl (by rw [← hubt.1]; rfl))
  refine ⟨hubt.1.symm, hc, ?_, ?_⟩
  · rw [hc]; rfl
  · rw [hc]; simp [fold_build2, TREE_CODE]

/-- Witness for C7: the loop `for (i = 0; i <= 99; i++)`; its guard is
`0 <= 99` in the signed 16-bit type. -/
theorem loop_guard_of_constant_upper_bound_witness :
    (graphite_create_new_loop_guard x86_64 example_collaborators 100
        (example_for (.clast_expr_term none 99)) 0 example_state).map Prod.fst
      = some example_guard_99 ∧
    example_guard_99.cond_expr
      = fold_build2 .LE_EXPR boolean_type_node example_guard_99.lb example_guard_99.ub :=
  ⟨by decide,
   (loop_guard_of_constant_upper_bound x86_64 example_collaborators 100
      (example_for (.clast_expr_term none 99)) 0 example_state example_guard_99
      99 (by decide) rfl).2.1⟩

/-- Counterexample to C8 as stated: the upper bound is the one-element
reduction `min (99)`, which is a Reduction and not a Term, so neither a literal
constant nor a simple variable reference; its translation is the constant `99`
and the guard condition is `0 <= 99`, an `LE_EXPR`, not `lb < ub + 1`. -/
theorem loop_guard_of_single_element_reduction_is_le :
    (∀ var val, clast_expr.clast_expr_red .clast_red_min [.clast_expr_term none 99]
      ≠ .clast_expr_term var val) ∧
    (graphite_create_new_loop_guard x86_64 example_collaborators 100
        (example_for (.clast_expr_red .clast_red_min [.clast_expr_term none 99])) 0
        example_state).map Prod.fst = some example_guard_99 ∧
    TREE_CODE example_guard_99.cond_expr = .LE_EXPR :=
  ⟨fun _ _ h => (by cases h), by decide, by decide⟩

/-- C8 (as amended): whenever the translated upper bound of a ForLoop is
neither an integer constant nor an SSA name, the guard condition is
`lb < ub + 1`, with the sum in the induction-variable type; and, operator nodes
being kept as they are built, the translated bound is of that kind for every
upper-bound expression that is not a bare term (not a constant, not a variable
with coefficient 1, and not a one-element reduction around one of these). -/
theorem loop_guard_of_compound_upper_bound (tg : Target) (co : Collaborators)
    (entry_edge : Nat) (stmt : clast_for) (level : Nat) (st : gloog_state) (g : loop_guard)
    (h : (graphite_create_new_loop_guard tg co entry_edge stmt level st).map Prod.fst
      = some g) :
    (TREE_CODE g.ub ≠ .INTEGER_CST → TREE_CODE g.ub ≠ .SSA_NAME →
      g.cond_expr = fold_build2 .LT_EXPR boolean_type_node g.lb
        (fold_build2 .PLUS_EXPR g.type g.ub (fold_convert g.type (integer_one_node tg)))) ∧
    (clast_expr_is_bare_term stmt.UB = false →
      TREE_CODE g.ub ≠ .INTEGER_CST ∧ TREE_CODE g.ub ≠ .SSA_NAME) := by
  obtain ⟨⟨g', st'⟩, h', hg⟩ := Option.map_eq_some'.mp h
  simp only at hg
  subst hg
  obtain ⟨n, hn⟩ := graphite_create_new_loop_guard_type _ _ _ _ _ _ _ _ h'
  obtain ⟨_, _, _, _, _, e4, e5, _, _, _, _, hubt, hcond, _, _⟩ :=
    graphite_create_new_loop_guard_inv _ _ _ _ _ _ _ _ h'
  have hnp : POINTER_TYPE_P g'.type = false := by rw [hn]; rfl
  refine ⟨?_, ?_⟩
  · intro hcst hssa
    rw [hcond]
    exact loop_guard_cond_expr_lt _ _ _ _ hnp hcst hssa
  · intro hub
    exact clast_to_gcc_expression_compound_code tg _ _ _ _ _ _ hnp hub hubt

/-- Witness for C8 (as amended): the loop `for (i = 0; i <= N + (-1); i++)`; the
bound is not a bare term, its translation is a `PLUS_EXPR`, and the guard is
`0 < (N + (-1)) + 1` in the signed 64-bit type. -/
theorem loop_guard_of_compound_upper_bound_witness :
    (graphite_create_new_loop_guard x86_64 example_collaborators 100
        (example_for example_N_minus_1) 0 example_state).map Prod.fst
      = some example_guard_N_minus_1 ∧
    clast_expr_is_bare_term example_N_minus_1 = false ∧
    (TREE_CODE example_guard_N_minus_1.ub ≠ .INTEGER_CST ∧
      TREE_CODE example_guard_N_minus_1.ub ≠ .SSA_NAME) ∧
    example_guard_N_minus_1.cond_expr
      = fold_build2 .LT_EXPR boolean_type_node example_guard_N_minus_1.lb
          (fold_build2 .PLUS_EXPR example_guard_N_minus_1.type example_guard_N_minus_1.ub
            (fold_convert example_guard_N_minus_1.type (integer_one_node x86_64))) :=
  ⟨by decide, by decide,
   (loop_guard_of_compound_upper_bound x86_64 example_collaborators 100
      (example_for example_N_minus_1) 0 example_state example_guard_N_minus_1
      (by decide)).2 (by decide),
   (loop_guard_of_compound_upper_bound x86_64 example_collaborators 100
      (example_for example_N_minus_1) 0 example_state example_guard_N_minus_1
      (by decide)).1 (by decide) (by decide)⟩

/-! ## The error flag is never cleared -/

theorem max_signed_precision_type_flag (tg : Target) (type1 type2 type : GccType)
    (e e' : Bool) (h : max_signed_precision_type tg type1 type2 e = some (type, e'))
    (he : e = true) : e' = true := by
  simp only [max_signed_precision_type] at h
  split at h
  · simp only [Option.some.injEq, Prod.mk.injEq] at h
    exact h.2.symm
  · split at h
    · exact absurd h (by simp)
    · split at h
      · simp only [Option.some.injEq, Prod.mk.injEq] at h
        exact h.2.symm
      · simp only [Option.some.injEq, Prod.mk.injEq] at h
        rw [← h.2]; exact he

theorem max_precision_type_flag (tg : Target) (type1 type2 type : GccType)
    (e e' : Bool) (h : max_precision_type tg type1 type2 e = some (type, e'))
    (he : e = true) : e' = true := by
  unfold max_precision_type at h
  split at h
  · simp only [Option.some.injEq, Prod.mk.injEq] at h
    rw [← h.2]; exact he
  · split at h
    · simp only [Option.some.injEq, Prod.mk.injEq] at h
      rw [← h.2]; exact he
    · split at h
      · exact max_signed_precision_type_flag _ _ _ _ _ _ h he
      · simp only [Option.some.injEq, Prod.mk.injEq] at h
        rw [← h.2]; exact he

theorem gcc_type_for_interval_flag (tg : Target) (v1 v2 : Int) (type : GccType)
    (e e' : Bool) (h : gcc_type_for_interval tg v1 v2 e = some (type, e'))
    (he : e = true) : e' = true := by
  simp only [gcc_type_for_interval] at h
  generalize (if v1 ≤ v2 then decide (0 ≤ v1) else decide (0 ≤ v2)) = u at h
  split at h
  · simp only [Option.some.injEq, Prod.mk.injEq] at h
    exact h.2.symm
  · split at h
    · exact absurd h (by simp)
    · split at h
      · simp only [Option.some.injEq, Prod.mk.injEq] at h
        exact h.2.symm
      · simp only [Option.some.injEq, Prod.mk.injEq] at h
        rw [← h.2]; exact he

mutual
theorem gcc_type_for_clast_expr_flag (tg : Target) :
    ∀ (x : clast_expr) (ip : ivs_params) (e e' : Bool) (type : GccType),
      gcc_type_for_clast_expr tg x ip e = some (type, e') → e = true → e' = true
  | .clast_expr_term none val, ip, e, e', type, h, he => by
    rw [gcc_type_for_clast_expr, gcc_type_for_clast_term] at h
    exact gcc_type_for_interval_flag _ _ _ _ _ _ h he
  | .clast_expr_term (some var) val, ip, e, e', type, h, he => by
    rw [gcc_type_for_clast_expr, gcc_type_for_clast_term] at h
    split at h
    · exact absurd h (by simp)
    · simp only [Option.some.injEq, Prod.mk.injEq] at h
      rw [← h.2]; exact he
  | .clast_expr_red rtype elts, ip, e, e', type, h, he => by
    rw [gcc_type_for_clast_expr] at h
    exact gcc_type_for_clast_red_flag tg elts ip e e' type h he
  | .clast_expr_bin btype lhs rhs, ip, e, e', type, h, he => by
    rw [gcc_type_for_clast_expr] at h
    split at h
    · exact absurd h (by simp)
    · rename_i l e1 h1
      have he1 := gcc_type_for_clast_expr_flag tg lhs ip e e1 l h1 he
      split at h
      · exact absurd h (by simp)
      · rename_i r e2 h2
        have he2 := gcc_type_for_interval_flag _ _ _ _ _ _ h2 he1
        exact max_signed_precision_type_flag _ _ _ _ _ _ h he2
theorem gcc_type_for_clast_red_flag (tg : Target) :
    ∀ (elts : List clast_expr) (ip : ivs_params) (e e' : Bool) (type : GccType),
      gcc_type_for_clast_red tg elts ip e = some (type, e') → e = true → e' = true
  | [], ip, e, e', type, h, he => by
    rw [gcc_type_for_clast_red] at h
    exact absurd h (by simp)
  | x :: rest, ip, e, e', type, h, he => by
    rw [gcc_type_for_clast_red] at h
    split at h
    · exact absurd h (by simp)
    · rename_i t e1 h1
      have he1 := gcc_type_for_clast_expr_flag tg x ip e e1 t h1 he
      exact gcc_type_for_clast_red_loop_flag tg rest t ip e1 e' type h he1
theorem gcc_type_for_clast_red_loop_flag (tg : Target) :
    ∀ (elts : List clast_expr) (t : GccType) (ip : ivs_params) (e e' : Bool) (type : GccType),
      gcc_type_for_clast_red_loop tg elts t ip e = some (type, e') → e = true → e' = true
  | [], t, ip, e, e', type, h, he => by
    rw [gcc_type_for_clast_red_loop] at h
    simp only [Option.some.injEq, Prod.mk.injEq] at h
    rw [← h.2]; exact he
  | x :: rest, t, ip, e, e', type, h, he => by
    rw [gcc_type_for_clast_red_loop] at h
    split at h
    · exact absurd h (by simp)
    · rename_i t1 e1 h1
      have he1 := gcc_type_for_clast_expr_flag tg x ip e e1 t1 h1 he
      split at h
      · exact absurd h (by simp)
      · rename_i t2 e2 h2
        have he2 := max_precision_type_flag _ _ _ _ _ _ h2 he1
        exact gcc_type_for_clast_red_loop_flag tg rest t2 ip e2 e' type h he2
end

mutual
theorem clast_to_gcc_expression_flag (tg : Target) :
    ∀ (x : clast_expr) (type : GccType) (ip : ivs_params) (e e' : Bool) (r : tree),
      clast_to_gcc_expression tg type x ip e = some (r, e') → e = true → e' = true
  | .clast_expr_term none val, type, ip, e, e', r, h, he => by
    rw [clast_to_gcc_expression] at h
    simp only [Option.some.injEq, Prod.mk.injEq] at h
    rw [← h.2]; exact he
  | .clast_expr_term (some var) val, type, ip, e, e', r, h, he => by
    rw [clast_to_gcc_expression] at h
    split at h
    · exact absurd h (by simp)
    · simp only at h
      split at h
      · simp only [Option.some.injEq, Prod.mk.injEq] at h
        rw [← h.2]; exact he
      · split at h
        · simp only [Option.some.injEq, Prod.mk.injEq] at h
          rw [← h.2]; exact he
        · split at h
          · simp only [Option.some.injEq, Prod.mk.injEq] at h
            rw [← h.2]; exact he
          · simp only [Option.some.injEq, Prod.mk.injEq] at h
            exact h.2.symm
  | .clast_expr_red .clast_red_sum elts, type, ip, e, e', r, h, he => by
    rw [clast_to_gcc_expression] at h
    exact clast_to_gcc_expression_red_flag tg elts type _ ip e e' r h he
  | .clast_expr_red .clast_red_min elts, type, ip, e, e', r, h, he => by
    rw [clast_to_gcc_expression] at h
    exact clast_to_gcc_expression_red_flag tg elts type _ ip e e' r h he
  | .clast_expr_red .clast_red_max elts, type, ip, e, e', r, h, he => by
    rw [clast_to_gcc_expression] at h
    exact clast_to_gcc_expression_red_flag tg elts type _ ip e e' r h he
  | .clast_expr_bin btype lhs rhs, type, ip, e, e', r, h, he => by
    rw [clast_to_gcc_expression] at h
    split at h
    · exact absurd h (by simp)
    · rename_i tl e1 h1
      have he1 := clast_to_gcc_expression_flag tg lhs type ip e e1 tl h1 he
      cases btype <;>
      · simp only [Option.some.injEq, Prod.mk.injEq] at h
        rw [← h.2]; exact he1
theorem clast_to_gcc_expression_red_flag (tg : Target) :
    ∀ (elts : List clast_expr) (type : GccType) (op : tree_code) (ip : ivs_params)
      (e e' : Bool) (r : tree),
      clast_to_gcc_expression_red tg type op elts ip e = some (r, e') → e = true → e' = true
  | [], type, op, ip, e, e', r, h, he => by
    rw [clast_to_gcc_expression_red] at h
    exact absurd h (by simp)
  | x :: rest, type, op, ip, e, e', r, h, he => by
    rw [clast_to_gcc_expression_red] at h
    split at h
    · exact absurd h (by simp)
    · rename_i res e1 h1
      have he1 := clast_to_gcc_expression_flag tg x type ip e e1 res h1 he
      exact clast_to_gcc_expression_red_loop_flag tg rest type _ op res ip e1 e' r h he1
theorem clast_to_gcc_expression_red_loop_flag (tg : Target) :
    ∀ (elts : List clast_expr) (type operand_type : GccType) (op : tree_code) (res : tree)
      (ip : ivs_params) (e e' : Bool) (r : tree),
      clast_to_gcc_expression_red_loop tg type operand_type op elts res ip e = some (r, e') →
      e = true → e' = true
  | [], type, operand_type, op, res, ip, e, e', r, h, he => by
    rw [clast_to_gcc_expression_red_loop] at h
    simp only [Option.some.injEq, Prod.mk.injEq] at h
    rw [← h.2]; exact he
  | x :: rest, type, operand_type, op, res, ip, e, e', r, h, he => by
    rw [clast_to_gcc_expression_red_loop] at h
    split at h
    · exact absurd h (by simp)
    · rename_i t e1 h1
      have he1 := clast_to_gcc_expression_flag tg x operand_type ip e e1 t h1 he
      exact clast_to_gcc_expression_red_loop_flag tg rest type operand_type op _ ip e1 e' r h he1
end

theorem graphite_translate_clast_equation_flag (tg : Target) (cleq : clast_equation)
    (ip : ivs_params) (e e' : Bool) (r : tree)
    (h : graphite_translate_clast_equation tg cleq ip e = some (r, e')) (he : e = true) :
    e' = true := by
  unfold graphite_translate_clast_equation gcc_type_for_clast_eq at h
  split at h
  · exact absurd h (by simp)
  · rename_i type e3 h3
    split at h3
    · exact absurd h3 (by simp)
    · rename_i l e1 h1
      have he1 := gcc_type_for_clast_expr_flag tg _ _ _ _ _ h1 he
      split at h3
      · exact absurd h3 (by simp)
      · rename_i r2 e2 h2
        have he2 := gcc_type_for_clast_expr_flag tg _ _ _ _ _ h2 he1
        have he3 := max_precision_type_flag _ _ _ _ _ _ h3 he2
        split at h
        · exact absurd h (by simp)
        · rename_i lhs e4 h4
          have he4 := clast_to_gcc_expression_flag tg _ _ _ _ _ _ h4 he3
          split at h
          · exact absurd h (by simp)
          · rename_i rhs e5 h5
            have he5 := clast_to_gcc_expression_flag tg _ _ _ _ _ _ h5 he4
            simp only [Option.some.injEq, Prod.mk.injEq] at h
            rw [← h.2]; exact he5

theorem graphite_create_guard_cond_expr_flag (tg : Target) (eq : List clast_equation) :
    ∀ (cond : Option tree) (ip : ivs_params) (e e' : Bool) (r : Option tree),
      graphite_create_guard_cond_expr tg eq cond ip e = some (r, e') → e = true → e' = true := by
  induction eq with
  | nil =>
    intro cond ip e e' r h he
    rw [graphite_create_guard_cond_expr] at h
    simp only [Option.some.injEq, Prod.mk.injEq] at h
    rw [← h.2]; exact he
  | cons cleq rest ih =>
    intro cond ip e e' r h he
    rw [graphite_create_guard_cond_expr] at h
    split at h
    · exact absurd h (by simp)
    · rename_i t e1 h1
      have he1 := graphite_translate_clast_equation_flag tg _ _ _ _ _ h1 he
      exact ih _ _ _ _ _ h he1

theorem gcc_type_for_iv_of_clast_loop_flag (tg : Target) (co : Collaborators)
    (stmt : clast_for) (level : Nat) (lb_type ub_type type : GccType) (e e' : Bool)
    (h : gcc_type_for_iv_of_clast_loop tg co stmt level lb_type ub_type e = some (type, e'))
    (he : e = true) : e' = true := by
  unfold gcc_type_for_iv_of_clast_loop at h
  split at h
  · exact absurd h (by simp)
  · exact absurd h (by simp)
  · split at h
    · exact absurd h (by simp)
    · rename_i t1 e1 h1
      have he1 : e1 = true := by
        unfold compute_type_for_level at h1
        exact gcc_type_for_interval_flag _ _ _ _ _ _ h1 he
      split at h
      · exact absurd h (by simp)
      · rename_i t2 e2 h2
        have he2 := max_precision_type_flag _ _ _ _ _ _ h2 he1
        exact max_signed_precision_type_flag _ _ _ _ _ _ h he2

theorem build_iv_mapping_flag (tg : Target) (co : Collaborators) (pbb : Nat)
    (subs : List clast_expr) :
    ∀ (depth : Nat) (iv_map : List (Option tree)) (ip : ivs_params) (e e' : Bool)
      (r : List (Option tree)),
      build_iv_mapping tg co pbb subs depth iv_map ip e = some (r, e') → e = true → e' = true := by
  induction subs with
  | nil =>
    intro depth iv_map ip e e' r h he
    rw [build_iv_mapping] at h
    simp only [Option.some.injEq, Prod.mk.injEq] at h
    rw [← h.2]; exact he
  | cons x rest ih =>
    intro depth iv_map ip e e' r h he
    rw [build_iv_mapping] at h
    split at h
    · exact absurd h (by simp)
    · rename_i t e1 h1
      have he1 := gcc_type_for_clast_expr_flag tg _ _ _ _ _ h1 he
      split at h
      · exact absurd h (by simp)
      · rename_i n e2 h2
        have he2 := clast_to_gcc_expression_flag tg _ _ _ _ _ _ h2 he1
        simp only at h
        split at h
        · exact ih _ _ _ _ _ _ h he2
        · exact absurd h (by simp)

theorem graphite_create_new_loop_guard_flag (tg : Target) (co : Collaborators)
    (entry_edge : Nat) (stmt : clast_for) (level : Nat) (st st' : gloog_state) (g : loop_guard)
    (h : graphite_create_new_loop_guard tg co entry_edge stmt level st = some (g, st'))
    (he : st.gloog_error = true) : st'.gloog_error = true := by
  obtain ⟨_, _, e1, e2, e3, e4, e5, h1, h2, h3, h4, h5, _, _, hst⟩ :=
    graphite_create_new_loop_guard_inv _ _ _ _ _ _ _ _ h
  have he1 := gcc_type_for_clast_expr_flag tg _ _ _ _ _ h1 he
  have he2 := gcc_type_for_clast_expr_flag tg _ _ _ _ _ h2 he1
  have he3 := gcc_type_for_iv_of_clast_loop_flag _ _ _ _ _ _ _ _ _ h3 he2
  have he4 := clast_to_gcc_expression_flag tg _ _ _ _ _ _ h4 he3
  have he5 := clast_to_gcc_expression_flag tg _ _ _ _ _ _ h5 he4
  rw [hst]; exact he5

theorem graphite_create_new_guard_flag (tg : Target) (entry_edge : Nat)
    (eq : List clast_equation) (st st' : gloog_state) (r : Nat)
    (h : graphite_create_new_guard tg entry_edge eq st = some (r, st'))
    (he : st.gloog_error = true) : st'.gloog_error = true := by
  unfold graphite_create_new_guard at h
  split at h
  · exact absurd h (by simp)
  · exact absurd h (by simp)
  · rename_i c e1 h1
    have he1 := graphite_create_guard_cond_expr_flag tg _ _ _ _ _ _ h1 he
    simp only [create_empty_if_region_on_edge, Option.some.injEq, Prod.mk.injEq] at h
    rw [← h.2]; exact he1

theorem translate_clast_user_flag (tg : Target) (co : Collaborators) (stmt : clast_user_stmt)
    (next_e : Nat) (st st' : gloog_state) (r : Nat)
    (h : translate_clast_user tg co stmt next_e st = some (r, st'))
    (he : st.gloog_error = true) : st'.gloog_error = true := by
  unfold translate_clast_user at h
  simp only at h
  split at h
  · simp only [Option.some.injEq, Prod.mk.injEq] at h
    rw [← h.2]; exact he
  · split at h
    · exact absurd h (by simp)
    · rename_i m e1 h1
      have he1 := build_iv_mapping_flag tg co _ _ _ _ _ _ _ _ h1 he
      simp only [Option.some.injEq, Prod.mk.injEq] at h
      rw [← h.2]; exact he1

theorem graphite_create_new_loop_flag (entry_edge : Nat) (stmt : clast_for)
    (outer : Option Nat) (type : GccType) (lb ub : tree) (level : Nat)
    (st st' : gloog_state) (r : Nat)
    (h : graphite_create_new_loop entry_edge stmt outer type lb ub level st = some (r, st')) :
    st'.gloog_error = st.gloog_error := by
  unfold graphite_create_new_loop at h
  simp only at h
  split at h
  · exact absurd h (by simp)
  · simp only [Option.some.injEq, Prod.mk.injEq] at h
    rw [← h.2]

theorem translate_clast_for_loop_flag (co : Collaborators)
    (translate_body : Option Nat → Nat → Nat → gloog_state → Option (Nat × gloog_state))
    (hbody : ∀ loop e lvl s r s', translate_body loop e lvl s = some (r, s') →
      s.gloog_error = true → s'.gloog_error = true)
    (context_loop : Option Nat) (stmt : clast_for) (next_e level : Nat)
    (type : GccType) (lb ub : tree) (st st' : gloog_state) (r : Nat)
    (h : translate_clast_for_loop co translate_body context_loop stmt next_e level type lb ub st
      = some (r, st'))
    (he : st.gloog_error = true) : st'.gloog_error = true := by
  unfold translate_clast_for_loop at h
  split at h
  · exact absurd h (by simp)
  · rename_i loop st1 h1
    have he1 : st1.gloog_error = true := by
      rw [graphite_create_new_loop_flag _ _ _ _ _ _ _ _ _ _ h1]; exact he
    simp only at h
    split at h
    · exact absurd h (by simp)
    · rename_i e2 st2 h2
      have he2 : st2.gloog_error = true := hbody _ _ _ _ _ _ h2 he1
      simp only [Option.some.injEq, Prod.mk.injEq] at h
      rw [← h.2]
      split <;> exact he2

theorem translate_clast_for_flag (tg : Target) (co : Collaborators)
    (translate_body : Option Nat → Nat → Nat → gloog_state → Option (Nat × gloog_state))
    (hbody : ∀ loop e lvl s r s', translate_body loop e lvl s = some (r, s') →
      s.gloog_error = true → s'.gloog_error = true)
    (context_loop : Option Nat) (stmt : clast_for) (next_e level : Nat)
    (st st' : gloog_state) (r : Nat)
    (h : translate_clast_for tg co translate_body context_loop stmt next_e level st
      = some (r, st'))
    (he : st.gloog_error = true) : st'.gloog_error = true := by
  unfold translate_clast_for at h
  split at h
  · exact absurd h (by simp)
  · rename_i g st1 h1
    have he1 := graphite_create_new_loop_guard_flag _ _ _ _ _ _ _ _ h1 he
    simp only at h
    split at h
    · exact absurd h (by simp)
    · rename_i e2 st2 h2
      have he2 := translate_clast_for_loop_flag co translate_body hbody _ _ _ _ _ _ _ _ _ _ h2 he1
      simp only [Option.some.injEq, Prod.mk.injEq] at h
      rw [← h.2]; exact he2

theorem translate_clast_guard_flag (tg : Target)
    (translate_then : Nat → gloog_state → Option (Nat × gloog_state))
    (hthen : ∀ e s r s', translate_then e s = some (r, s') →
      s.gloog_error = true → s'.gloog_error = true)
    (eq : List clast_equation) (next_e : Nat) (st st' : gloog_state) (r : Nat)
    (h : translate_clast_guard tg translate_then eq next_e st = some (r, st'))
    (he : st.gloog_error = true) : st'.gloog_error = true := by
  unfold translate_clast_guard at h
  split at h
  · exact absurd h (by simp)
  · rename_i e1 st1 h1
    have he1 := graphite_create_new_guard_flag _ _ _ _ _ _ h1 he
    simp only at h
    split at h
    · exact absurd h (by simp)
    · rename_i e2 st2 h2
      have he2 := hthen _ _ _ _ h2 he1
      simp only [Option.some.injEq, Prod.mk.injEq] at h
      rw [← h.2]; exact he2

theorem translate_clast_flag (tg : Target) (co : Collaborators) (stmt : clast_stmt) :
    ∀ (context_loop : Option Nat) (next_e level : Nat) (st st' : gloog_state) (r : Nat),
      translate_clast tg co context_loop stmt next_e level st = some (r, st') →
      st.gloog_error = true → st'.gloog_error = true := by
  induction stmt with
  | null =>
    intro context_loop next_e level st st' r h he
    rw [translate_clast] at h
    simp only [Option.some.injEq, Prod.mk.injEq] at h
    rw [← h.2]; exact he
  | stmt_root next ih =>
    intro context_loop next_e level st st' r h he
    rw [translate_clast] at h
    exact ih _ _ _ _ _ _ h he
  | stmt_user statement substitutions next ih =>
    intro context_loop next_e level st st' r h he
    rw [translate_clast] at h
    split at h
    · exact absurd h (by simp)
    · rename_i e1 st1 h1
      exact ih _ _ _ _ _ _ h (translate_clast_user_flag _ _ _ _ _ _ _ h1 he)
  | stmt_for iterator LB UB stride body next ihb ihn =>
    intro context_loop next_e level st st' r h he
    rw [translate_clast] at h
    split at h
    · exact absurd h (by simp)
    · rename_i e1 st1 h1
      exact ihn _ _ _ _ _ _ h
        (translate_clast_for_flag tg co _ (fun loop e lvl s r s' => ihb loop e lvl s s' r)
          _ _ _ _ _ _ _ h1 he)
  | stmt_guard eq then_ next iht ihn =>
    intro context_loop next_e level st st' r h he
    rw [translate_clast] at h
    split at h
    · exact absurd h (by simp)
    · rename_i e1 st1 h1
      exact ihn _ _ _ _ _ _ h
        (translate_clast_guard_flag tg _ (fun e s r s' => iht context_loop e level s s' r)
          _ _ _ _ _ h1 he)
  | stmt_block body next ihb ihn =>
    intro context_loop next_e level st st' r h he
    rw [translate_clast] at h
    split at h
    · exact absurd h (by simp)
    · rename_i e1 st1 h1
      exact ihn _ _ _ _ _ _ h (ihb _ _ _ _ _ _ h1 he)

/-! ## The entry point -/

/-- C10: `gloog` clears the flag on entry, so its result does not depend on the
flag left by an earlier call; the boolean it returns is the negation of the
flag at the end of the walk, which is the flag the walk reaches when started
with the flag clear; and the walk never clears the flag: started at any
statement with the flag set, it ends with the flag set, so a raise is still
there at the end and makes the result false. -/
theorem gloog_returns_not_gloog_error (tg : Target) (co : Collaborators) (sc : scop)
    (st : gloog_state) :
    (∀ flag, gloog tg co sc { st with gloog_error := flag } = gloog tg co sc st) ∧
    (gloog tg co sc st).map Prod.fst = (gloog tg co sc st).map (fun r => !r.2.gloog_error) ∧
    (gloog tg co sc st).map (fun r => r.2.gloog_error)
      = (translate_clast tg co sc.context_loop sc.stmt st.next_id 0
          { st with
            gloog_error := false
            next_id := st.next_id + 1
            ip := { newivs := some [], newivs_index := some [], params := sc.params,
                    params_index := some (create_params_index [] sc.parameters 0) } }).map
          (fun r => r.2.gloog_error) ∧
    (∀ context_loop stmt next_e level (s : gloog_state), s.gloog_error = true →
      (translate_clast tg co context_loop stmt next_e level s).map (fun r => r.2.gloog_error)
        = (translate_clast tg co context_loop stmt next_e level s).map (fun _ => true)) := by
  refine ⟨fun flag => rfl, ?_, ?_, ?_⟩
  · unfold gloog
    simp only
    split
    · rfl
    · simp
  · unfold gloog
    simp only
    split
    · rename_i h; simp [h]
    · rename_i e s h
      simp only [h, Option.map_some']
      split <;> rfl
  · intro context_loop stmt next_e level s hs
    cases h : translate_clast tg co context_loop stmt next_e level s with
    | none => rfl
    | some r =>
      obtain ⟨e, s'⟩ := r
      simp only [Option.map_some']
      rw [translate_clast_flag tg co stmt _ _ _ _ _ _ h hs]

/-- Witness for C10: the walk of the example loop `for (i = 0; i <= N + (-1); i++)`
started with the flag set returns with the flag set; `gloog` on that loop
returns `true` even when entered with the flag set; and `gloog` on the loop
with upper bound `2^70`, which needs more than 64 bits, returns `false`. -/
theorem gloog_returns_not_gloog_error_witness :
    (translate_clast x86_64 example_collaborators none
      (example_stmt example_N_minus_1) 100 0
      { example_state with gloog_error := true }).map (fun r => r.2.gloog_error)
      = some true ∧
    (gloog x86_64 example_collaborators
      (example_scop example_N_minus_1)
      { example_state with gloog_error := true }).map Prod.fst = some true ∧
    (gloog x86_64 example_collaborators (example_scop (.clast_expr_term none (2 ^ 70)))
      example_state).map Prod.fst = some false :=
  ⟨((gloog_returns_not_gloog_error x86_64 example_collaborators
      (example_scop (.clast_expr_term none 0)) example_state).2.2.2 none
      (example_stmt example_N_minus_1) 100 0
      { example_state with gloog_error := true } rfl).trans (by decide),
   by decide, by decide⟩

/-! ## Pointer rule -/

/-- C12: when `type1` is a pointer type, `max_precision_type` returns `type1`;
when `type1` is not a pointer type and `type2` is, it returns `type2`; in both
cases whatever the other type is, and with the flag it was given. -/
theorem max_precision_type_pointer_wins (tg : Target) (type1 type2 : GccType)
    (gloog_error : Bool) :
    (POINTER_TYPE_P type1 = true →
      max_precision_type tg type1 type2 gloog_error = some (type1, gloog_error)) ∧
    (POINTER_TYPE_P type1 = false → POINTER_TYPE_P type2 = true →
      max_precision_type tg type1 type2 gloog_error = some (type2, gloog_error)) := by
  refine ⟨?_, ?_⟩
  · intro h1
    simp [max_precision_type, h1]
  · intro h1 h2
    simp [max_precision_type, h1, h2]

/-- Witness for C12: a pointer joined with a signed 128-bit integer type, with a
second pointer of another width, and an unsigned 8-bit integer type joined with
a pointer. -/
theorem max_precision_type_pointer_wins_witness :
    max_precision_type x86_64 (.pointer 64) (.integer 128 false) false
      = some (.pointer 64, false) ∧
    max_precision_type x86_64 (.pointer 64) (.pointer 32) false
      = some (.pointer 64, false) ∧
    max_precision_type x86_64 (.integer 8 true) (.pointer 64) false
      = some (.pointer 64, false) :=
  ⟨(max_precision_type_pointer_wins x86_64 (.pointer 64) (.integer 128 false) false).1 rfl,
   (max_precision_type_pointer_wins x86_64 (.pointer 64) (.pointer 32) false).1 rfl,
   (max_precision_type_pointer_wins x86_64 (.integer 8 true) (.pointer 64) false).2 rfl rfl⟩

/-! ## Terms -/

/-- C13: the translation of the Term `(var, 1)` in the type `type` is the tree
looked up for `var`, converted to `type` directly when it and `type` are both
pointer types or both not, and through `sizetype` otherwise; it has a result
exactly when the name is bound, and leaves the flag as it was. The translation
of the Term `(var, -1)` is the `NEGATE_EXPR` in `type` of the translation of
`(var, 1)`. -/
theorem clast_to_gcc_expression_unit_term (tg : Target) (type : GccType) (var : String)
    (ip : ivs_params) (gloog_error : Bool) :
    clast_to_gcc_expression tg type (.clast_expr_term (some var) 1) ip gloog_error
      = (clast_name_to_gcc var ip).map (fun name =>
          (if POINTER_TYPE_P (TREE_TYPE name) = POINTER_TYPE_P type then fold_convert type name
           else fold_convert type (fold_convert (sizetype tg) name), gloog_error)) ∧
    clast_to_gcc_expression tg type (.clast_expr_term (some var) (-1)) ip gloog_error
      = (clast_to_gcc_expression tg type (.clast_expr_term (some var) 1) ip gloog_error).map
          (fun r => (fold_build1 .NEGATE_EXPR type r.1, r.2)) := by
  refine ⟨?_, ?_⟩
  · rw [clast_to_gcc_expression]
    cases clast_name_to_gcc var ip with
    | none => rfl
    | some name =>
      cases hA : POINTER_TYPE_P (TREE_TYPE name) <;> cases hB : POINTER_TYPE_P type <;>
        simp [hA, hB]
  · rw [clast_to_gcc_expression, clast_to_gcc_expression]
    cases clast_name_to_gcc var ip with
    | none => rfl
    | some name => simp

/-- C14: for a Term `(var, val)` with `val` other than `1` and `-1` whose name is
bound, the translation in a pointer type is the constant `val` alone with the
flag set, and the translation in a non-pointer type is the `MULT_EXPR` of the
constant `val` and the converted variable with the flag as it was; there is no
result when the name is not bound. -/
theorem clast_to_gcc_expression_scaled_term (tg : Target) (type : GccType) (var : String)
    (val : Int) (ip : ivs_params) (gloog_error : Bool) (h1 : val ≠ 1) (hm1 : val ≠ -1) :
    clast_to_gcc_expression tg type (.clast_expr_term (some var) val) ip gloog_error
      = (clast_name_to_gcc var ip).map (fun name =>
          if POINTER_TYPE_P type = true then (gmp_cst_to_tree type val, true)
          else
            (fold_build2 .MULT_EXPR type (gmp_cst_to_tree type val)
              (if POINTER_TYPE_P (TREE_TYPE name) = POINTER_TYPE_P type then
                 fold_convert type name
               else fold_convert type (fold_convert (sizetype tg) name)), gloog_error)) := by
  rw [clast_to_gcc_expression]
  cases clast_name_to_gcc var ip with
  | none => rfl
  | some name =>
    cases hA : POINTER_TYPE_P (TREE_TYPE name) <;> cases hB : POINTER_TYPE_P type <;>
      simp [hA, hB, h1, hm1]


/-- Witness for C14: the Term `2 * N` translated in the signed 64-bit type is
the product of the constant `2` and the converted `N`, with the flag clear;
translated in a pointer type it is the constant `2`, with the flag set. -/
theorem clast_to_gcc_expression_scaled_term_witness :
    clast_to_gcc_expression x86_64 (.integer 64 false) (.clast_expr_term (some "N") 2)
        example_ip false
      = some (.build2 .MULT_EXPR (.integer 64 false) (.integer_cst (.integer 64 false) 2)
          (.build1 .NOP_EXPR (.integer 64 false) (.ssa_name (.integer 32 true) 1)), false) ∧
    clast_to_gcc_expression x86_64 (.pointer 64) (.clast_expr_term (some "N") 2)
        example_ip false
      = some (.integer_cst (.pointer 64) 2, true) :=
  ⟨(clast_to_gcc_expression_scaled_term x86_64 (.integer 64 false) "N" 2 example_ip false
      (by decide) (by decide)).trans (by decide),
   (clast_to_gcc_expression_scaled_term x86_64 (.pointer 64) "N" 2 example_ip false
      (by decide) (by decide)).trans (by decide)⟩

/-! ## Equations -/

/-- C17: `graphite_translate_clast_equation` returns a tree exactly when the
types of both sides are inferred, `max_precision_type` joins them into one
type, and both sides are translated in that type; the tree then compares the
two translations with `EQ_EXPR` when the sign is `0`, `GE_EXPR` when it is
positive and `LE_EXPR` when it is negative. -/
theorem graphite_translate_clast_equation_iff (tg : Target) (cleq : clast_equation)
    (ip : ivs_params) (gloog_error gloog_error' : Bool) (res : tree) :
    graphite_translate_clast_equation tg cleq ip gloog_error = some (res, gloog_error') ↔
    ∃ l r type lhs rhs e1 e2 e3 e4,
      gcc_type_for_clast_expr tg cleq.LHS ip gloog_error = some (l, e1) ∧
      gcc_type_for_clast_expr tg cleq.RHS ip e1 = some (r, e2) ∧
      max_precision_type tg l r e2 = some (type, e3) ∧
      clast_to_gcc_expression tg type cleq.LHS ip e3 = some (lhs, e4) ∧
      clast_to_gcc_expression tg type cleq.RHS ip e4 = some (rhs, gloog_error') ∧
      res = fold_build2
        (if cleq.sign = 0 then .EQ_EXPR else if cleq.sign > 0 then .GE_EXPR else .LE_EXPR)
        boolean_type_node lhs rhs := by
  constructor
  · intro h
    unfold graphite_translate_clast_equation gcc_type_for_clast_eq at h
    split at h
    · exact absurd h (by simp)
    · rename_i type e3 h3
      split at h3
      · exact absurd h3 (by simp)
      · rename_i l e1 h1
        split at h3
        · exact absurd h3 (by simp)
        · rename_i r e2 h2
          split at h
          · exact absurd h (by simp)
          · rename_i lhs e4 h4
            split at h
            · exact absurd h (by simp)
            · rename_i rhs e5 h5
              simp only [Option.some.injEq, Prod.mk.injEq] at h
              obtain ⟨hres, he⟩ := h
              subst he
              exact ⟨l, r, type, lhs, rhs, e1, e2, e3, e4, h1, h2, h3, h4, h5, hres.symm⟩
  · rintro ⟨l, r, type, lhs, rhs, e1, e2, e3, e4, h1, h2, h3, h4, h5, hres⟩
    unfold graphite_translate_clast_equation gcc_type_for_clast_eq
    simp only [h1, h2, h3, h4, h5, hres]


/-- Witness for C17: the equation `N >= 0` with `N` of unsigned 32-bit type; the
types of the sides are unsigned 32-bit and unsigned 8-bit, joined into unsigned
32-bit, and the result is `N >= 0` compared in that type. -/
theorem graphite_translate_clast_equation_iff_witness :
    graphite_translate_clast_equation x86_64 example_equation_N_ge_0 example_ip false
      = some (.build2 .GE_EXPR (.integer 1 true) (.ssa_name (.integer 32 true) 1)
          (.integer_cst (.integer 32 true) 0), false) :=
  (graphite_translate_clast_equation_iff x86_64 example_equation_N_ge_0 example_ip false false
    (.build2 .GE_EXPR (.integer 1 true) (.ssa_name (.integer 32 true) 1)
      (.integer_cst (.integer 32 true) 0))).mpr
    ⟨.integer 32 true, .integer 8 true, .integer 32 true, .ssa_name (.integer 32 true) 1,
      .integer_cst (.integer 32 true) 0, false, false, false, false,
      by decide, by decide, by decide, by decide, by decide, by decide⟩

/-! ## The type of the induction variable -/

theorem gcc_type_for_iv_of_clast_loop_inv (tg : Target) (co : Collaborators)
    (stmt : clast_for) (level : Nat) (lb_type ub_type type : GccType) (e e' : Bool)
    (h : gcc_type_for_iv_of_clast_loop tg co stmt level lb_type ub_type e = some (type, e')) :
    ∃ pbb level_type joined e1 e2,
      clast_get_body_of_loop stmt.body = some (some pbb) ∧
      compute_type_for_level tg co pbb level e = some (level_type, e1) ∧
      max_precision_type tg ub_type level_type e1 = some (joined, e2) ∧
      max_signed_precision_type tg lb_type joined e2 = some (type, e') := by
  unfold gcc_type_for_iv_of_clast_loop at h
  split at h
  · exact absurd h (by simp)
  · exact absurd h (by simp)
  · rename_i pbb hb
    split at h
    · exact absurd h (by simp)
    · rename_i level_type e1 h1
      split at h
      · exact absurd h (by simp)
      · rename_i joined e2 h2
        exact ⟨pbb, level_type, joined, e1, e2, hb, h1, h2, h⟩

/-- Counterexample to C19 as stated: for the example loop
`for (i = 0; i <= 99; i++)` at level 0 the types of both bounds and of the
interval `[0, 99]` are the unsigned 8-bit type, whose join with itself by
`max_precision_type` is the unsigned 8-bit type again, but the
induction-variable type of the guard is the signed 16-bit type. -/
theorem loop_guard_type_is_not_the_plain_join :
    gcc_type_for_clast_expr x86_64 (example_for (.clast_expr_term none 99)).LB
      example_state.ip false = some (.integer 8 true, false) ∧
    gcc_type_for_clast_expr x86_64 (example_for (.clast_expr_term none 99)).UB
      example_state.ip false = some (.integer 8 true, false) ∧
    compute_type_for_level x86_64 example_collaborators 7 0 false
      = some (.integer 8 true, false) ∧
    max_precision_type x86_64 (.integer 8 true) (.integer 8 true) false
      = some (.integer 8 true, false) ∧
    (graphite_create_new_loop_guard x86_64 example_collaborators 100
        (example_for (.clast_expr_term none 99)) 0 example_state).map (fun r => r.1.type)
      = some (.integer 16 false) ∧
    GccType.integer 16 false ≠ .integer 8 true := by
  decide

/-- C19 (as amended): the induction-variable type computed by
`graphite_create_new_loop_guard` is `max_signed_precision_type` of the type of
the lower-bound expression and of the `max_precision_type` join of the type of
the upper-bound expression with the type of the interval of the level for the
first user statement of the body; the lower and the upper bound are both
translated in that type. -/
theorem loop_guard_type_is_signed_join (tg : Target) (co : Collaborators)
    (entry_edge : Nat) (stmt : clast_for) (level : Nat) (st : gloog_state) (g : loop_guard)
    (h : (graphite_create_new_loop_guard tg co entry_edge stmt level st).map Prod.fst
      = some g) :
    ∃ pbb lb_type ub_type level_type joined e1 e2 e3 e4 e5 e6 e7,
      gcc_type_for_clast_expr tg stmt.LB st.ip st.gloog_error = some (lb_type, e1) ∧
      gcc_type_for_clast_expr tg stmt.UB st.ip e1 = some (ub_type, e2) ∧
      clast_get_body_of_loop stmt.body = some (some pbb) ∧
      gcc_type_for_interval tg (co.compute_bounds_for_level pbb level).1
        (co.compute_bounds_for_level pbb level).2 e2 = some (level_type, e3) ∧
      max_precision_type tg ub_type level_type e3 = some (joined, e4) ∧
      max_signed_precision_type tg lb_type joined e4 = some (g.type, e5) ∧
      clast_to_gcc_expression tg g.type stmt.LB st.ip e5 = some (g.lb, e6) ∧
      clast_to_gcc_expression tg g.type stmt.UB st.ip e6 = some (g.ub, e7) := by
  obtain ⟨⟨g', st'⟩, h', hg⟩ := Option.map_eq_some'.mp h
  simp only at hg
  subst hg
  obtain ⟨lb_type, ub_type, e1, e2, e5, e6, e7, h1, h2, h3, h4, h5, _, _, _⟩ :=
    graphite_create_new_loop_guard_inv _ _ _ _ _ _ _ _ h'
  obtain ⟨pbb, level_type, joined, e3, e4, hb, hl, hj, hs⟩ :=
    gcc_type_for_iv_of_clast_loop_inv _ _ _ _ _ _ _ _ _ h3
  exact ⟨pbb, lb_type, ub_type, level_type, joined, e1, e2, e3, e4, e5, e6, e7,
    h1, h2, hb, hl, hj, hs, h4, h5⟩

/-- Witness for C19 (as amended): the example loop `for (i = 0; i <= 99; i++)`;
the signed join of the unsigned 8-bit types is the signed 16-bit type, in which
both bounds are translated. -/
theorem loop_guard_type_is_signed_join_witness :
    (graphite_create_new_loop_guard x86_64 example_collaborators 100
        (example_for (.clast_expr_term none 99)) 0 example_state).map Prod.fst
      = some example_guard_99 ∧
    max_signed_precision_type x86_64 (.integer 8 true) (.integer 8 true) false
      = some (example_guard_99.type, false) ∧
    ∃ pbb lb_type ub_type level_type joined e1 e2 e3 e4 e5 e6 e7,
      gcc_type_for_clast_expr x86_64 (example_for (.clast_expr_term none 99)).LB
        example_state.ip example_state.gloog_error = some (lb_type, e1) ∧
      gcc_type_for_clast_expr x86_64 (example_for (.clast_expr_term none 99)).UB
        example_state.ip e1 = some (ub_type, e2) ∧
      clast_get_body_of_loop (example_for (.clast_expr_term none 99)).body
        = some (some pbb) ∧
      gcc_type_for_interval x86_64 (example_collaborators.compute_bounds_for_level pbb 0).1
        (example_collaborators.compute_bounds_for_level pbb 0).2 e2 = some (level_type, e3) ∧
      max_precision_type x86_64 ub_type level_type e3 = some (joined, e4) ∧
      max_signed_precision_type x86_64 lb_type joined e4 = some (example_guard_99.type, e5) ∧
      clast_to_gcc_expression x86_64 example_guard_99.type
        (example_for (.clast_expr_term none 99)).LB example_state.ip e5
        = some (example_guard_99.lb, e6) ∧
      clast_to_gcc_expression x86_64 example_guard_99.type
        (example_for (.clast_expr_term none 99)).UB example_state.ip e6
        = some (example_guard_99.ub, e7) :=
  ⟨by decide, by decide,
   loop_guard_type_is_signed_join x86_64 example_collaborators 100
     (example_for (.clast_expr_term none 99)) 0 example_state example_guard_99 (by decide)⟩


/-! ## Name/index registry -/

theorem htab_find_slot_store (index_table : htab) (elt : clast_name_index) :
    htab_find_slot (htab_store index_table elt) elt.name = some elt := by
  induction index_table with
  | nil => simp [htab_store, htab_find_slot]
  | cons x rest ih =>
    by_cases hx : x.name = elt.name
    · simp [htab_store, htab_find_slot, hx]
    · simp [htab_store, htab_find_slot, hx, ih]

theorem htab_store_names (index_table : htab) (elt : clast_name_index) :
    (htab_store index_table elt).map (fun e => e.name)
      = if elt.name ∈ index_table.map (fun e => e.name) then index_table.map (fun e => e.name)
        else index_table.map (fun e => e.name) ++ [elt.name] := by
  induction index_table with
  | nil => simp [htab_store]
  | cons x rest ih =>
    by_cases hx : x.name = elt.name
    · simp [htab_store, hx]
    · have hx' : ¬ elt.name = x.name := fun h => hx h.symm
      by_cases hm : elt.name ∈ rest.map (fun e => e.name)
      · rw [if_pos hm] at ih
        simp only [htab_store, hx, if_false, List.map_cons, ih, List.mem_cons, hx', false_or]
        rw [if_pos hm]
      · rw [if_neg hm] at ih
        simp only [htab_store, hx, if_false, List.map_cons, ih, List.mem_cons, hx', false_or]
        rw [if_neg hm]
        rfl

theorem htab_store_unique_names (index_table : htab) (elt : clast_name_index)
    (h : htab_unique_names index_table) : htab_unique_names (htab_store index_table elt) := by
  unfold htab_unique_names at *
  rw [htab_store_names]
  split
  · exact h
  · rename_i hm
    rw [List.nodup_append]
    refine ⟨h, List.nodup_singleton _, ?_⟩
    intro a ha hb
    simp only [List.mem_singleton] at hb
    subst hb
    exact hm ha

theorem htab_bindings_eq_count (index_table : htab) (name : String) :
    htab_bindings index_table name = (index_table.map (fun e => e.name)).count name := by
  unfold htab_bindings
  induction index_table with
  | nil => rfl
  | cons x rest ih =>
    by_cases hx : x.name = name
    · simp [List.countP_cons, List.count_cons, hx, ih]
    · simp [List.countP_cons, List.count_cons, hx, ih]

theorem htab_store_bindings (index_table : htab) (elt : clast_name_index)
    (h : htab_unique_names index_table) :
    htab_bindings (htab_store index_table elt) elt.name = 1 := by
  have hu := htab_store_unique_names index_table elt h
  unfold htab_unique_names at hu
  rw [htab_bindings_eq_count]
  apply List.count_eq_one_of_mem hu
  rw [htab_store_names]
  split
  · assumption
  · simp


/-- C20: after `save_clast_name_index (table, name, index, level)` the lookups
of `name` return `index` and `level`, whatever the table held before; after a
second bind of the same name they return the values of the second bind. The
empty table has no two records of one name, a bind keeps it so, and in such a
table the name has exactly one record after one bind and after two. -/
theorem save_clast_name_index_then_lookup (index_table : htab) (name : String)
    (index level index2 level2 : Int) :
    clast_name_to_index name (save_clast_name_index index_table name index level) = index ∧
    clast_name_to_level name (save_clast_name_index index_table name index level) = level ∧
    clast_name_to_index name
      (save_clast_name_index (save_clast_name_index index_table name index level)
        name index2 level2) = index2 ∧
    clast_name_to_level name
      (save_clast_name_index (save_clast_name_index index_table name index level)
        name index2 level2) = level2 ∧
    htab_unique_names ([] : htab) ∧
    (htab_unique_names index_table →
      htab_unique_names (save_clast_name_index index_table name index level) ∧
      htab_bindings (save_clast_name_index index_table name index level) name = 1 ∧
      htab_unique_names
        (save_clast_name_index (save_clast_name_index index_table name index level)
          name index2 level2) ∧
      htab_bindings
        (save_clast_name_index (save_clast_name_index index_table name index level)
          name index2 level2) name = 1) := by
  have key : ∀ (t : htab) (i l : Int),
      htab_find_slot (save_clast_name_index t name i l) name
        = some (new_clast_name_index name i l) := fun t i l =>
    htab_find_slot_store t (new_clast_name_index name i l)
  refine ⟨?_, ?_, ?_, ?_, ?_, ?_⟩
  · simp [clast_name_to_index, key, new_clast_name_index]
  · simp [clast_name_to_level, key, new_clast_name_index]
  · simp [clast_name_to_index, key, new_clast_name_index]
  · simp [clast_name_to_level, key, new_clast_name_index]
  · simp [htab_unique_names]
  · intro h
    have h1 := htab_store_unique_names index_table (new_clast_name_index name index level) h
    exact ⟨h1,
      htab_store_bindings index_table (new_clast_name_index name index level) h,
      htab_store_unique_names _ (new_clast_name_index name index2 level2) h1,
      htab_store_bindings _ (new_clast_name_index name index2 level2) h1⟩

/-- Witness for C20: in the table of the example parameters `N` and `M`, the
name `N` is bound again to index 5 at level 2, and then to index 9 at level 3. -/
theorem save_clast_name_index_then_lookup_witness :
    htab_unique_names [new_clast_name_index "N" 0 0, new_clast_name_index "M" 1 1] ∧
    clast_name_to_index "N"
      (save_clast_name_index
        (save_clast_name_index [new_clast_name_index "N" 0 0, new_clast_name_index "M" 1 1]
          "N" 5 2) "N" 9 3) = 9 ∧
    htab_bindings
      (save_clast_name_index
        (save_clast_name_index [new_clast_name_index "N" 0 0, new_clast_name_index "M" 1 1]
          "N" 5 2) "N" 9 3) "N" = 1 :=
  ⟨by decide,
   (save_clast_name_index_then_lookup
      [new_clast_name_index "N" 0 0, new_clast_name_index "M" 1 1] "N" 5 2 9 3).2.2.1,
   ((save_clast_name_index_then_lookup
      [new_clast_name_index "N" 0 0, new_clast_name_index "M" 1 1] "N" 5 2 9 3).2.2.2.2.2
      (by decide)).2.2.2⟩


/-! ## The condition of the region that selects the generated code -/

theorem set_ifsese_conditions_append (a b : List cfg_event) :
    set_ifsese_conditions (a ++ b) = set_ifsese_conditions a ++ set_ifsese_conditions b := by
  induction a with
  | nil => rfl
  | cons x rest ih =>
    cases x <;> simp [set_ifsese_conditions, ih]

theorem graphite_create_new_loop_guard_ifsese (tg : Target) (co : Collaborators)
    (entry_edge : Nat) (stmt : clast_for) (level : Nat) (st st' : gloog_state) (g : loop_guard)
    (h : graphite_create_new_loop_guard tg co entry_edge stmt level st = some (g, st')) :
    set_ifsese_conditions st'.cfg = set_ifsese_conditions st.cfg := by
  obtain ⟨_, _, _, _, _, _, _, _, _, _, _, _, _, _, hst⟩ :=
    graphite_create_new_loop_guard_inv _ _ _ _ _ _ _ _ h
  rw [hst]
  simp [set_ifsese_conditions_append, set_ifsese_conditions]

theorem graphite_create_new_guard_ifsese (tg : Target) (entry_edge : Nat)
    (eq : List clast_equation) (st st' : gloog_state) (r : Nat)
    (h : graphite_create_new_guard tg entry_edge eq st = some (r, st')) :
    set_ifsese_conditions st'.cfg = set_ifsese_conditions st.cfg := by
  unfold graphite_create_new_guard at h
  split at h
  · exact absurd h (by simp)
  · exact absurd h (by simp)
  · simp only [create_empty_if_region_on_edge, Option.some.injEq, Prod.mk.injEq] at h
    rw [← h.2]
    simp [set_ifsese_conditions_append, set_ifsese_conditions]

theorem translate_clast_user_ifsese (tg : Target) (co : Collaborators) (stmt : clast_user_stmt)
    (next_e : Nat) (st st' : gloog_state) (r : Nat)
    (h : translate_clast_user tg co stmt next_e st = some (r, st')) :
    set_ifsese_conditions st'.cfg = set_ifsese_conditions st.cfg := by
  unfold translate_clast_user at h
  simp only at h
  split at h
  · simp only [Option.some.injEq, Prod.mk.injEq] at h
    rw [← h.2]
  · split at h
    · exact absurd h (by simp)
    · simp only [Option.some.injEq, Prod.mk.injEq] at h
      rw [← h.2]
      simp [set_ifsese_conditions_append, set_ifsese_conditions]

theorem graphite_create_new_loop_ifsese (entry_edge : Nat) (stmt : clast_for)
    (outer : Option Nat) (type : GccType) (lb ub : tree) (level : Nat)
    (st st' : gloog_state) (r : Nat)
    (h : graphite_create_new_loop entry_edge stmt outer type lb ub level st = some (r, st')) :
    set_ifsese_conditions st'.cfg = set_ifsese_conditions st.cfg := by
  unfold graphite_create_new_loop at h
  simp only at h
  split at h
  · exact absurd h (by simp)
  · simp only [Option.some.injEq, Prod.mk.injEq] at h
    rw [← h.2]
    simp [set_ifsese_conditions_append, set_ifsese_conditions]

theorem translate_clast_for_loop_ifsese (co : Collaborators)
    (translate_body : Option Nat → Nat → Nat → gloog_state → Option (Nat × gloog_state))
    (hbody : ∀ loop e lvl s r s', translate_body loop e lvl s = some (r, s') →
      set_ifsese_conditions s'.cfg = set_ifsese_conditions s.cfg)
    (context_loop : Option Nat) (stmt : clast_for) (next_e level : Nat)
    (type : GccType) (lb ub : tree) (st st' : gloog_state) (r : Nat)
    (h : translate_clast_for_loop co translate_body context_loop stmt next_e level type lb ub st
      = some (r, st')) :
    set_ifsese_conditions st'.cfg = set_ifsese_conditions st.cfg := by
  unfold translate_clast_for_loop at h
  split at h
  · exact absurd h (by simp)
  · rename_i loop st1 h1
    have he1 := graphite_create_new_loop_ifsese _ _ _ _ _ _ _ _ _ _ h1
    simp only at h
    split at h
    · exact absurd h (by simp)
    · rename_i e2 st2 h2
      have he2 := hbody _ _ _ _ _ _ h2
      simp only at he2
      simp only [Option.some.injEq, Prod.mk.injEq] at h
      rw [← h.2]
      split <;>
        simp [set_ifsese_conditions_append, set_ifsese_conditions, he2, he1]

theorem translate_clast_for_ifsese (tg : Target) (co : Collaborators)
    (translate_body : Option Nat → Nat → Nat → gloog_state → Option (Nat × gloog_state))
    (hbody : ∀ loop e lvl s r s', translate_body loop e lvl s = some (r, s') →
      set_ifsese_conditions s'.cfg = set_ifsese_conditions s.cfg)
    (context_loop : Option Nat) (stmt : clast_for) (next_e level : Nat)
    (st st' : gloog_state) (r : Nat)
    (h : translate_clast_for tg co translate_body context_loop stmt next_e level st
      = some (r, st')) :
    set_ifsese_conditions st'.cfg = set_ifsese_conditions st.cfg := by
  unfold translate_clast_for at h
  split at h
  · exact absurd h (by simp)
  · rename_i g st1 h1
    have he1 := graphite_create_new_loop_guard_ifsese _ _ _ _ _ _ _ _ h1
    simp only at h
    split at h
    · exact absurd h (by simp)
    · rename_i e2 st2 h2
      have he2 := translate_clast_for_loop_ifsese co translate_body hbody _ _ _ _ _ _ _ _ _ _ h2
      simp only [Option.some.injEq, Prod.mk.injEq] at h
      rw [← h.2, he2, he1]

theorem translate_clast_guard_ifsese (tg : Target)
    (translate_then : Nat → gloog_state → Option (Nat × gloog_state))
    (hthen : ∀ e s r s', translate_then e s = some (r, s') →
      set_ifsese_conditions s'.cfg = set_ifsese_conditions s.cfg)
    (eq : List clast_equation) (next_e : Nat) (st st' : gloog_state) (r : Nat)
    (h : translate_clast_guard tg translate_then eq next_e st = some (r, st')) :
    set_ifsese_conditions st'.cfg = set_ifsese_conditions st.cfg := by
  unfold translate_clast_guard at h
  split at h
  · exact absurd h (by simp)
  · rename_i e1 st1 h1
    have he1 := graphite_create_new_guard_ifsese _ _ _ _ _ _ h1
    simp only at h
    split at h
    · exact absurd h (by simp)
    · rename_i e2 st2 h2
      have he2 := hthen _ _ _ _ h2
      simp only [Option.some.injEq, Prod.mk.injEq] at h
      rw [← h.2, he2, he1]

theorem translate_clast_ifsese (tg : Target) (co : Collaborators) (stmt : clast_stmt) :
    ∀ (context_loop : Option Nat) (next_e level : Nat) (st st' : gloog_state) (r : Nat),
      translate_clast tg co context_loop stmt next_e level st = some (r, st') →
      set_ifsese_conditions st'.cfg = set_ifsese_conditions st.cfg := by
  induction stmt with
  | null =>
    intro context_loop next_e level st st' r h
    rw [translate_clast] at h
    simp only [Option.some.injEq, Prod.mk.injEq] at h
    rw [← h.2]
  | stmt_root next ih =>
    intro context_loop next_e level st st' r h
    rw [translate_clast] at h
    exact ih _ _ _ _ _ _ h
  | stmt_user statement substitutions next ih =>
    intro context_loop next_e level st st' r h
    rw [translate_clast] at h
    split at h
    · exact absurd h (by simp)
    · rename_i e1 st1 h1
      rw [ih _ _ _ _ _ _ h, translate_clast_user_ifsese _ _ _ _ _ _ _ h1]
  | stmt_for iterator LB UB stride body next ihb ihn =>
    intro context_loop next_e level st st' r h
    rw [translate_clast] at h
    split at h
    · exact absurd h (by simp)
    · rename_i e1 st1 h1
      rw [ihn _ _ _ _ _ _ h,
        translate_clast_for_ifsese tg co _ (fun loop e lvl s r s' => ihb loop e lvl s s' r)
          _ _ _ _ _ _ _ h1]
  | stmt_guard eq then_ next iht ihn =>
    intro context_loop next_e level st st' r h
    rw [translate_clast] at h
    split at h
    · exact absurd h (by simp)
    · rename_i e1 st1 h1
      rw [ihn _ _ _ _ _ _ h,
        translate_clast_guard_ifsese tg _ (fun e s r s' => iht context_loop e level s s' r)
          _ _ _ _ _ h1]
  | stmt_block body next ihb ihn =>
    intro context_loop next_e level st st' r h
    rw [translate_clast] at h
    split at h
    · exact absurd h (by simp)
    · rename_i e1 st1 h1
      rw [ihn _ _ _ _ _ _ h, ihb _ _ _ _ _ _ h1]

/-- C11: the conditions `gloog` hands to `set_ifsese_condition` are, after those
already recorded before the call, the single constant `integer_zero_node` when
the flag is set at the end of the call, and none when it is not: the walk
itself never sets the condition of the region, so with the flag clear that
condition is the one the region was created with. The constant is the integer
constant zero, and the flag at the end is the flag the walk ends with. -/
theorem gloog_sets_ifsese_condition (tg : Target) (co : Collaborators) (sc : scop)
    (st : gloog_state) :
    integer_zero_node tg = .integer_cst (integer_type_node tg) 0 ∧
    (gloog tg co sc st).map (fun r => set_ifsese_conditions r.2.cfg)
      = (gloog tg co sc st).map (fun r =>
          set_ifsese_conditions st.cfg
            ++ (if r.2.gloog_error then [integer_zero_node tg] else [])) ∧
    (gloog tg co sc st).map (fun r => r.2.gloog_error)
      = (translate_clast tg co sc.context_loop sc.stmt st.next_id 0
          { st with
            gloog_error := false
            next_id := st.next_id + 1
            ip := { newivs := some [], newivs_index := some [], params := sc.params,
                    params_index := some (create_params_index [] sc.parameters 0) } }).map
          (fun r => r.2.gloog_error) := by
  refine ⟨rfl, ?_, ?_⟩
  · unfold gloog
    simp only
    split
    · rfl
    · rename_i e s h
      have hw := translate_clast_ifsese tg co _ _ _ _ _ _ _ h
      simp only at hw
      simp only [Option.map_some', Option.some.injEq]
      split
      · rename_i hf
        simp [set_ifsese_conditions_append, set_ifsese_conditions, hw, hf]
      · rename_i hf
        simp [hw, hf]
  · unfold gloog
    simp only
    split
    · rename_i h; simp [h]
    · rename_i e s h
      simp only [h, Option.map_some']
      split <;> rfl


/-! ## Reductions -/

theorem clast_to_gcc_expression_red_loop_eq_foldl (tg : Target) (type operand_type : GccType)
    (op : tree_code) (ip : ivs_params) (rest : List clast_expr) :
    ∀ (res : tree) (e : Bool),
      clast_to_gcc_expression_red_loop tg type operand_type op rest res ip e
        = (clast_to_gcc_expression_list tg operand_type rest ip e).map (fun r =>
            (r.1.foldl (fun acc t => tree.build2 op type acc t) res, r.2)) := by
  induction rest with
  | nil =>
    intro res e
    rw [clast_to_gcc_expression_red_loop, clast_to_gcc_expression_list]
    rfl
  | cons x rest ih =>
    intro res e
    rw [clast_to_gcc_expression_red_loop, clast_to_gcc_expression_list]
    cases hx : clast_to_gcc_expression tg operand_type x ip e with
    | none => rfl
    | some r =>
      obtain ⟨t, e1⟩ := r
      simp only
      rw [ih]
      cases clast_to_gcc_expression_list tg operand_type rest ip e1 with
      | none => rfl
      | some r2 => rfl

theorem clast_reduction_operand_type_eq (tg : Target) (type : GccType)
    (rtype : clast_red_type) :
    (if clast_reduction_operator type rtype = .POINTER_PLUS_EXPR then sizetype tg else type)
      = clast_reduction_operand_type tg type rtype := by
  cases rtype <;> cases hp : POINTER_TYPE_P type <;>
    simp [clast_reduction_operator, clast_reduction_operand_type, hp]

theorem clast_to_gcc_expression_red_eq_left_fold (tg : Target) (type : GccType)
    (rtype : clast_red_type) (e0 : clast_expr) (rest : List clast_expr) (ip : ivs_params)
    (gloog_error : Bool) :
    clast_to_gcc_expression_red tg type (clast_reduction_operator type rtype) (e0 :: rest) ip
        gloog_error
      = clast_reduction_left_fold tg type rtype e0 rest ip gloog_error := by
  unfold clast_reduction_left_fold
  rw [clast_to_gcc_expression_red]
  cases h0 : clast_to_gcc_expression tg type e0 ip gloog_error with
  | none => rfl
  | some r =>
    obtain ⟨t0, e1⟩ := r
    simp only
    rw [clast_to_gcc_expression_red_loop_eq_foldl, clast_reduction_operand_type_eq]
    cases clast_to_gcc_expression_list tg (clast_reduction_operand_type tg type rtype) rest
        ip e1 <;> rfl

/-- C15: the translation of a Reduction with the elements `e0 :: rest` is the
left fold of the spec: it starts from the translation of `e0` in the target
type and applies the operator of the reduction to the running result and the
translation of each following element, in the order of the list; the operator
is `MIN_EXPR`, `MAX_EXPR`, or for a sum `PLUS_EXPR` on a non-pointer target and
`POINTER_PLUS_EXPR` on a pointer target, where the following elements are
translated in `sizetype`. A one-element reduction translates to the
translation of its element. -/
theorem clast_reduction_is_left_fold (tg : Target) (type : GccType) (rtype : clast_red_type)
    (e0 : clast_expr) (rest : List clast_expr) (ip : ivs_params) (gloog_error : Bool) :
    clast_to_gcc_expression tg type (.clast_expr_red rtype (e0 :: rest)) ip gloog_error
      = clast_reduction_left_fold tg type rtype e0 rest ip gloog_error ∧
    clast_to_gcc_expression tg type (.clast_expr_red rtype [e0]) ip gloog_error
      = clast_to_gcc_expression tg type e0 ip gloog_error := by
  have main : ∀ rest : List clast_expr,
      clast_to_gcc_expression tg type (.clast_expr_red rtype (e0 :: rest)) ip gloog_error
        = clast_reduction_left_fold tg type rtype e0 rest ip gloog_error := by
    intro rest
    rw [← clast_to_gcc_expression_red_eq_left_fold]
    cases rtype <;> rw [clast_to_gcc_expression] <;> rfl
  refine ⟨main rest, ?_⟩
  rw [main []]
  unfold clast_reduction_left_fold
  cases clast_to_gcc_expression tg type e0 ip gloog_error with
  | none => rfl
  | some r => rfl

/-! ## Guard conditions -/

theorem graphite_translate_clast_equation_type (tg : Target) (cleq : clast_equation)
    (ip : ivs_params) (e e' : Bool) (res : tree)
    (h : graphite_translate_clast_equation tg cleq ip e = some (res, e')) :
    TREE_TYPE res = boolean_type_node := by
  unfold graphite_translate_clast_equation at h
  split at h
  · exact absurd h (by simp)
  · split at h
    · exact absurd h (by simp)
    · split at h
      · exact absurd h (by simp)
      · simp only [Option.some.injEq, Prod.mk.injEq] at h
        rw [← h.1]
        rfl

theorem graphite_create_guard_cond_expr_eq_foldl (tg : Target) (ip : ivs_params)
    (eq : List clast_equation) :
    ∀ (cond : tree) (e : Bool),
      graphite_create_guard_cond_expr tg eq (some cond) ip e
        = (graphite_translate_clast_equations tg eq ip e).map (fun r =>
            (some (guard_conjunction cond r.1), r.2)) := by
  induction eq with
  | nil =>
    intro cond e
    rw [graphite_create_guard_cond_expr, graphite_translate_clast_equations]
    rfl
  | cons cleq rest ih =>
    intro cond e
    rw [graphite_create_guard_cond_expr, graphite_translate_clast_equations]
    cases hc : graphite_translate_clast_equation tg cleq ip e with
    | none => rfl
    | some r =>
      obtain ⟨c, e1⟩ := r
      simp only
      rw [ih, graphite_translate_clast_equation_type tg cleq ip e e1 c hc]
      cases graphite_translate_clast_equations tg rest ip e1 with
      | none => rfl
      | some r2 => rfl

/-- C18: for a guard with the equations `cleq :: rest`,
`graphite_create_guard_cond_expr` returns the left-nested conjunction
`((c0 AND c1) AND c2) ... AND c(n-1)` of the translated equations, taken in the
order of the list (`TRUTH_AND_EXPR` nodes of boolean type); for the single
equation `cleq` it returns the translation of `cleq` itself. -/
theorem graphite_create_guard_cond_expr_is_conjunction (tg : Target) (cleq : clast_equation)
    (rest : List clast_equation) (ip : ivs_params) (gloog_error : Bool) :
    graphite_create_guard_cond_expr tg (cleq :: rest) none ip gloog_error
      = (match graphite_translate_clast_equation tg cleq ip gloog_error with
         | none => none
         | some (c0, e1) =>
           (graphite_translate_clast_equations tg rest ip e1).map (fun r =>
             (some (guard_conjunction c0 r.1), r.2))) ∧
    graphite_create_guard_cond_expr tg [cleq] none ip gloog_error
      = (graphite_translate_clast_equation tg cleq ip gloog_error).map (fun r =>
          (some r.1, r.2)) := by
  refine ⟨?_, ?_⟩
  · rw [graphite_create_guard_cond_expr]
    cases hc : graphite_translate_clast_equation tg cleq ip gloog_error with
    | none => rfl
    | some r =>
      obtain ⟨c, e1⟩ := r
      simp only
      rw [graphite_create_guard_cond_expr_eq_foldl]
  · rw [graphite_create_guard_cond_expr]
    cases hc : graphite_translate_clast_equation tg cleq ip gloog_error with
    | none => rfl
    | some r =>
      obtain ⟨c, e1⟩ := r
      simp only
      rw [graphite_create_guard_cond_expr]
      rfl

/-! ## Binary operations -/

theorem int_fmod_neg_bounds (a b : Int) (hb : b < 0) : b < Int.fmod a b ∧ Int.fmod a b ≤ 0 := by
  obtain ⟨n, rfl⟩ : ∃ n : Nat, b = Int.negSucc n := by
    cases b with
    | ofNat k => exact absurd hb (by simp)
    | negSucc k => exact ⟨k, rfl⟩
  clear hb
  cases a with
  | ofNat m =>
    cases m with
    | zero => simp [Int.fmod]; exact Int.negSucc_lt_zero n
    | succ m =>
      have h1 : m % (n + 1) < n + 1 := Nat.mod_lt _ (Nat.succ_pos n)
      simp only [Int.fmod, Int.ofNat_eq_coe, Int.subNatNat_eq_coe, Nat.succ_eq_add_one,
        Int.negSucc_eq]
      omega
  | negSucc m =>
    have h1 : (m + 1) % (n + 1) < n + 1 := Nat.mod_lt _ (Nat.succ_pos n)
    simp only [Int.fmod, Int.ofNat_eq_coe, Nat.succ_eq_add_one, Int.negSucc_eq]
    omega

theorem int_fmod_bounds (a b : Int) (hb : b ≠ 0) :
    0 ≤ (Int.fmod a b) * b ∧ (Int.fmod a b).natAbs < b.natAbs := by
  rcases Int.lt_or_gt_of_ne hb with h | h
  · have := int_fmod_neg_bounds a b h
    refine ⟨?_, by omega⟩
    exact Int.mul_nonneg_of_nonpos_of_nonpos this.2 (Int.le_of_lt h)
  · have h1 := Int.fmod_nonneg' a h
    have h2 := Int.fmod_lt_of_pos a h
    refine ⟨Int.mul_nonneg h1 (Int.le_of_lt h), by omega⟩

theorem int_tmod_bounds (a b : Int) (hb : b ≠ 0) :
    b ∣ (a - Int.tmod a b) ∧ (Int.tmod a b).natAbs < b.natAbs ∧ 0 ≤ Int.tmod a b * a := by
  refine ⟨?_, ?_⟩
  · rw [Int.tmod_def]
    exact ⟨a.tdiv b, by ring⟩
  · cases a with
    | ofNat m =>
      cases b with
      | ofNat n =>
        have hn : 0 < n := Nat.pos_of_ne_zero (fun h => hb (by simp [h]))
        have h1 : m % n < n := Nat.mod_lt _ hn
        simp only [Int.tmod, Int.ofNat_eq_coe]
        refine ⟨by omega, ?_⟩
        exact Int.mul_nonneg (by omega) (by omega)
      | negSucc n =>
        have h1 : m % (n + 1) < n + 1 := Nat.mod_lt _ (Nat.succ_pos n)
        simp only [Int.tmod, Int.ofNat_eq_coe, Nat.succ_eq_add_one, Int.negSucc_eq]
        refine ⟨by omega, ?_⟩
        exact Int.mul_nonneg (by omega) (by omega)
    | negSucc m =>
      cases b with
      | ofNat n =>
        have hn : 0 < n := Nat.pos_of_ne_zero (fun h => hb (by simp [h]))
        have h1 : (m + 1) % n < n := Nat.mod_lt _ hn
        simp only [Int.tmod, Int.ofNat_eq_coe, Nat.succ_eq_add_one, Int.negSucc_eq]
        refine ⟨by omega, ?_⟩
        exact Int.mul_nonneg_of_nonpos_of_nonpos (by omega) (by omega)
      | negSucc n =>
        have h1 : (m + 1) % (n + 1) < n + 1 := Nat.mod_lt _ (Nat.succ_pos n)
        simp only [Int.tmod, Int.ofNat_eq_coe, Nat.succ_eq_add_one, Int.negSucc_eq]
        refine ⟨by omega, ?_⟩
        exact Int.mul_nonneg_of_nonpos_of_nonpos (by omega) (by omega)

/-- C16: the translation of a BinaryOp is the operator node of the spec
(`FLOOR_DIV_EXPR` for floor-div, `CEIL_DIV_EXPR` for ceil-div, `EXACT_DIV_EXPR`
for exact-div, `TRUNC_MOD_EXPR` for mod) applied, in the target type, to the
translation of the left operand in that type and to the right operand as a
constant of that type; and when the left operand has the value `a` and the
constant a value other than zero, the value of the node is, wrapped into the
type, a result that has the meaning the spec gives to the operator. -/
theorem clast_to_gcc_expression_binary (tg : Target) (type : GccType) (btype : clast_bin_type)
    (lhs : clast_expr) (rhs : Int) (ip : ivs_params) (gloog_error : Bool) :
    clast_to_gcc_expression tg type (.clast_expr_bin btype lhs rhs) ip gloog_error
      = (clast_to_gcc_expression tg type lhs ip gloog_error).map (fun r =>
          (fold_build2 (clast_bin_operator btype) type r.1 (gmp_cst_to_tree type rhs), r.2)) ∧
    (∀ (env : Nat → Int) (tl : tree) (a : Int),
      tree_value env tl = some a → wrap type rhs ≠ 0 →
      ∃ q, clast_bin_meaning btype a (wrap type rhs) q ∧
        tree_value env
          (fold_build2 (clast_bin_operator btype) type tl (gmp_cst_to_tree type rhs))
          = some (wrap type q)) := by
  refine ⟨?_, ?_⟩
  · rw [clast_to_gcc_expression]
    cases clast_to_gcc_expression tg type lhs ip gloog_error with
    | none => rfl
    | some r => cases btype <;> rfl
  · intro env tl a hv hb
    cases btype with
    | clast_bin_fdiv =>
      refine ⟨Int.fdiv a (wrap type rhs), ?_, ?_⟩
      · have h := int_fmod_bounds a (wrap type rhs) hb
        rw [Int.fmod_def] at h
        simp only [clast_bin_meaning]
        rw [Int.mul_comm (Int.fdiv a (wrap type rhs))]
        exact h
      · simp [fold_build2, clast_bin_operator, gmp_cst_to_tree, tree_value, hv, hb]
    | clast_bin_cdiv =>
      refine ⟨-(Int.fdiv (-a) (wrap type rhs)), ?_, ?_⟩
      · have h := int_fmod_bounds (-a) (wrap type rhs) hb
        rw [Int.fmod_def] at h
        simp only [clast_bin_meaning]
        have e1 : a - -(Int.fdiv (-a) (wrap type rhs)) * wrap type rhs
            = -(-a - wrap type rhs * Int.fdiv (-a) (wrap type rhs)) := by ring
        rw [e1, Int.natAbs_neg, Int.neg_mul]
        refine ⟨?_, h.2⟩
        have := h.1
        omega
      · simp [fold_build2, clast_bin_operator, gmp_cst_to_tree, tree_value, hv, hb]
    | clast_bin_div =>
      refine ⟨Int.tdiv a (wrap type rhs), ?_, ?_⟩
      · intro hd
        exact Int.tdiv_mul_cancel hd
      · simp [fold_build2, clast_bin_operator, gmp_cst_to_tree, tree_value, hv, hb]
    | clast_bin_mod =>
      refine ⟨Int.tmod a (wrap type rhs), ?_, ?_⟩
      · exact int_tmod_bounds a (wrap type rhs) hb
      · simp [fold_build2, clast_bin_operator, gmp_cst_to_tree, tree_value, hv, hb]

/-- Witness for C16: `floord (M, 2)` and `M % 2` in the signed 64-bit type of
`M`, with `M = -7`: the nodes are a `FLOOR_DIV_EXPR` of value `-4` and a
`TRUNC_MOD_EXPR` of value `-1`. -/
theorem clast_to_gcc_expression_binary_witness :
    clast_to_gcc_expression x86_64 (.integer 64 false)
        (.clast_expr_bin .clast_bin_fdiv (.clast_expr_term (some "M") 1) 2) example_ip false
      = some (.build2 .FLOOR_DIV_EXPR (.integer 64 false) (.ssa_name (.integer 64 false) 2)
          (.integer_cst (.integer 64 false) 2), false) ∧
    tree_value (fun _ => -7)
        (.build2 .FLOOR_DIV_EXPR (.integer 64 false) (.ssa_name (.integer 64 false) 2)
          (.integer_cst (.integer 64 false) 2)) = some (-4) ∧
    tree_value (fun _ => -7)
        (.build2 .TRUNC_MOD_EXPR (.integer 64 false) (.ssa_name (.integer 64 false) 2)
          (.integer_cst (.integer 64 false) 2)) = some (-1) ∧
    (∃ q, clast_bin_meaning .clast_bin_fdiv (-7) (wrap (.integer 64 false) 2) q ∧
      tree_value (fun _ => -7)
        (fold_build2 (clast_bin_operator .clast_bin_fdiv) (.integer 64 false)
          (.ssa_name (.integer 64 false) 2) (gmp_cst_to_tree (.integer 64 false) 2))
        = some (wrap (.integer 64 false) q)) ∧
    (∃ q, clast_bin_meaning .clast_bin_mod (-7) (wrap (.integer 64 false) 2) q ∧
      tree_value (fun _ => -7)
        (fold_build2 (clast_bin_operator .clast_bin_mod) (.integer 64 false)
          (.ssa_name (.integer 64 false) 2) (gmp_cst_to_tree (.integer 64 false) 2))
        = some (wrap (.integer 64 false) q)) :=
  ⟨((clast_to_gcc_expression_binary x86_64 (.integer 64 false) .clast_bin_fdiv
      (.clast_expr_term (some "M") 1) 2 example_ip false).1).trans (by decide),
   by decide, by decide,
   (clast_to_gcc_expression_binary x86_64 (.integer 64 false) .clast_bin_fdiv
      (.clast_expr_term (some "M") 1) 2 example_ip false).2 (fun _ => -7)
      (.ssa_name (.integer 64 false) 2) (-7) (by decide) (by decide),
   (clast_to_gcc_expression_binary x86_64 (.integer 64 false) .clast_bin_mod
      (.clast_expr_term (some "M") 1) 2 example_ip false).2 (fun _ => -7)
      (.ssa_name (.integer 64 false) 2) (-7) (by decide) (by decide)⟩

/-- Witness for C15: `min (N, M, 5)` in the signed 64-bit type is
`MIN (MIN (converted N, M), 5)`, and the sum `M + N + 5` in a pointer type is
`(M converted to the pointer) p+ (N as sizetype) p+ 5`, nested to the left. -/
theorem clast_reduction_is_left_fold_witness :
    clast_to_gcc_expression x86_64 (.integer 64 false)
        (.clast_expr_red .clast_red_min
          [.clast_expr_term (some "N") 1, .clast_expr_term (some "M") 1,
           .clast_expr_term none 5]) example_ip false
      = some (.build2 .MIN_EXPR (.integer 64 false)
          (.build2 .MIN_EXPR (.integer 64 false)
            (.build1 .NOP_EXPR (.integer 64 false) (.ssa_name (.integer 32 true) 1))
            (.ssa_name (.integer 64 false) 2))
          (.integer_cst (.integer 64 false) 5), false) ∧
    clast_to_gcc_expression x86_64 (.pointer 64)
        (.clast_expr_red .clast_red_sum
          [.clast_expr_term (some "M") 1, .clast_expr_term (some "N") 1,
           .clast_expr_term none 5]) example_ip false
      = some (.build2 .POINTER_PLUS_EXPR (.pointer 64)
          (.build2 .POINTER_PLUS_EXPR (.pointer 64)
            (.build1 .NOP_EXPR (.pointer 64)
              (.build1 .NOP_EXPR (.integer 64 true) (.ssa_name (.integer 64 false) 2)))
            (.build1 .NOP_EXPR (.integer 64 true) (.ssa_name (.integer 32 true) 1)))
          (.integer_cst (.integer 64 true) 5), false) :=
  ⟨((clast_reduction_is_left_fold x86_64 (.integer 64 false) .clast_red_min
      (.clast_expr_term (some "N") 1)
      [.clast_expr_term (some "M") 1, .clast_expr_term none 5] example_ip false).1).trans
      (by decide),
   ((clast_reduction_is_left_fold x86_64 (.pointer 64) .clast_red_sum
      (.clast_expr_term (some "M") 1)
      [.clast_expr_term (some "N") 1, .clast_expr_term none 5] example_ip false).1).trans
      (by decide)⟩

/-- Witness for C18: the guard `N >= 0 && M <= 5 && N = M` gives the conjunction
`((N >= 0) AND (M <= 5)) AND (N = M)`, each comparison in the joined type of its
sides. -/
theorem graphite_create_guard_cond_expr_is_conjunction_witness :
    (graphite_create_guard_cond_expr x86_64
        [example_equation_N_ge_0, example_equation_M_le_5, example_equation_N_eq_M] none
        example_ip false).map Prod.fst
      = some (some (.build2 .TRUTH_AND_EXPR (.integer 1 true)
          (.build2 .TRUTH_AND_EXPR (.integer 1 true)
            (.build2 .GE_EXPR (.integer 1 true) (.ssa_name (.integer 32 true) 1)
              (.integer_cst (.integer 32 true) 0))
            (.build2 .LE_EXPR (.integer 1 true) (.ssa_name (.integer 64 false) 2)
              (.integer_cst (.integer 64 false) 5)))
          (.build2 .EQ_EXPR (.integer 1 true)
            (.build1 .NOP_EXPR (.integer 64 false) (.ssa_name (.integer 32 true) 1))
            (.ssa_name (.integer 64 false) 2)))) :=
  (congrArg (Option.map Prod.fst)
    (graphite_create_guard_cond_expr_is_conjunction x86_64 example_equation_N_ge_0
      [example_equation_M_le_5, example_equation_N_eq_M] example_ip false).1).trans
    (by decide)

/-- Witness for C11: `gloog` on the example loop with upper bound `N + (-1)` ends
with the flag clear and hands no condition to `set_ifsese_condition`; on the
loop with upper bound `2^70` it ends with the flag set and hands the constant
zero. -/
theorem gloog_sets_ifsese_condition_witness :
    (gloog x86_64 example_collaborators (example_scop example_N_minus_1)
        example_state).map (fun r => set_ifsese_conditions r.2.cfg) = some [] ∧
    (gloog x86_64 example_collaborators (example_scop (.clast_expr_term none (2 ^ 70)))
        example_state).map (fun r => set_ifsese_conditions r.2.cfg)
      = some [.integer_cst (.integer 32 false) 0] :=
  ⟨((gloog_sets_ifsese_condition x86_64 example_collaborators
      (example_scop example_N_minus_1) example_state).2.1).trans (by decide),
   ((gloog_sets_ifsese_condition x86_64 example_collaborators
      (example_scop (.clast_expr_term none (2 ^ 70))) example_state).2.1).trans (by decide)⟩

/-- Witness for C13: the Term `N` in the signed 64-bit type is the conversion of
`N`, in its own unsigned 32-bit type it is `N` itself, in a pointer type it is
converted through `sizetype`; the Term `-N` is the negation of the first. -/
theorem clast_to_gcc_expression_unit_term_witness :
    clast_to_gcc_expression x86_64 (.integer 64 false) (.clast_expr_term (some "N") 1)
        example_ip false
      = some (.build1 .NOP_EXPR (.integer 64 false) (.ssa_name (.integer 32 true) 1), false) ∧
    clast_to_gcc_expression x86_64 (.integer 32 true) (.clast_expr_term (some "N") 1)
        example_ip false
      = some (.ssa_name (.integer 32 true) 1, false) ∧
    clast_to_gcc_expression x86_64 (.pointer 64) (.clast_expr_term (some "N") 1)
        example_ip false
      = some (.build1 .NOP_EXPR (.pointer 64)
          (.build1 .NOP_EXPR (.integer 64 true) (.ssa_name (.integer 32 true) 1)), false) ∧
    clast_to_gcc_expression x86_64 (.integer 64 false) (.clast_expr_term (some "N") (-1))
        example_ip false
      = some (.build1 .NEGATE_EXPR (.integer 64 false)
          (.build1 .NOP_EXPR (.integer 64 false) (.ssa_name (.integer 32 true) 1)), false) :=
  ⟨((clast_to_gcc_expression_unit_term x86_64 (.integer 64 false) "N" example_ip false).1).trans
      (by decide),
   ((clast_to_gcc_expression_unit_term x86_64 (.integer 32 true) "N" example_ip false).1).trans
      (by decide),
   ((clast_to_gcc_expression_unit_term x86_64 (.pointer 64) "N" example_ip false).1).trans
      (by decide),
   ((clast_to_gcc_expression_unit_term x86_64 (.integer 64 false) "N" example_ip false).2).trans
      (by decide)⟩

/-! ## Names without a record -/

theorem htab_find_slot_eq_none (index_table : htab) (name : String)
    (h : name ∉ index_table.map (fun e => e.name)) :
    htab_find_slot index_table name = none := by
  induction index_table with
  | nil => rfl
  | cons x rest ih =>
    simp only [List.map_cons, List.mem_cons, not_or] at h
    have hx : ¬ x.name = name := fun e => h.1 e.symm
    simp [htab_find_slot, hx, ih h.2]

theorem htab_find_slot_store_of_ne (index_table : htab) (elt : clast_name_index)
    (name : String) (h : name ≠ elt.name) :
    htab_find_slot (htab_store index_table elt) name = htab_find_slot index_table name := by
  have h' : ¬ elt.name = name := fun e => h e.symm
  induction index_table with
  | nil => simp [htab_store, htab_find_slot, h']
  | cons x rest ih =>
    by_cases hx : x.name = elt.name
    · have hxn : ¬ x.name = name := fun e => h' (hx ▸ e)
      simp [htab_store, htab_find_slot, hx, h', hxn]
    · by_cases hxn : x.name = name
      · simp [htab_store, htab_find_slot, hx, hxn, h]
      · simp [htab_store, htab_find_slot, hx, hxn, ih]

/-- A name of the registry after a sequence of binds `(name, index, level)` was
in the registry before or is one of the names bound. -/
theorem htab_names_of_binds (binds : List (String × Int × Int)) (index_table : htab) :
    ∀ name, name ∈ (binds.foldl (fun t b => save_clast_name_index t b.1 b.2.1 b.2.2)
        index_table).map (fun e => e.name) →
      name ∈ index_table.map (fun e => e.name) ∨ name ∈ binds.map (fun b => b.1) := by
  induction binds generalizing index_table with
  | nil => intro name h; exact Or.inl h
  | cons b rest ih =>
    intro name h
    rcases ih _ name h with h1 | h1
    · unfold save_clast_name_index at h1
      rw [htab_store_names] at h1
      split at h1
      · exact Or.inl h1
      · rcases List.mem_append.1 h1 with h2 | h2
        · exact Or.inl h2
        · right
          simp only [List.mem_singleton, new_clast_name_index] at h2
          simp [h2]
    · right
      simp only [List.map_cons, List.mem_cons]
      exact Or.inr h1

/-- C21: a name without a record in the registry has index `-1` and level `-1`;
so has, in the registry made from the empty one by a sequence of binds, every
name that is not among the names bound; and a bind of another name changes
neither the index nor the level found for a name. -/
theorem clast_name_lookup_of_unbound_name (index_table : htab) (name other : String)
    (index level : Int) (binds : List (String × Int × Int)) :
    (name ∉ index_table.map (fun e => e.name) →
      clast_name_to_index name index_table = -1 ∧ clast_name_to_level name index_table = -1) ∧
    (name ∉ binds.map (fun b => b.1) →
      clast_name_to_index name
        (binds.foldl (fun t b => save_clast_name_index t b.1 b.2.1 b.2.2) []) = -1 ∧
      clast_name_to_level name
        (binds.foldl (fun t b => save_clast_name_index t b.1 b.2.1 b.2.2) []) = -1) ∧
    (name ≠ other →
      clast_name_to_index name (save_clast_name_index index_table other index level)
        = clast_name_to_index name index_table ∧
      clast_name_to_level name (save_clast_name_index index_table other index level)
        = clast_name_to_level name index_table) := by
  refine ⟨fun h => ?_, fun h => ?_, fun h => ?_⟩
  · simp [clast_name_to_index, clast_name_to_level, htab_find_slot_eq_none index_table name h]
  · have hn : name ∉ (binds.foldl (fun t b => save_clast_name_index t b.1 b.2.1 b.2.2)
        ([] : htab)).map (fun e => e.name) := by
      intro hm
      rcases htab_names_of_binds binds [] name hm with h1 | h1
      · simp at h1
      · exact h h1
    simp [clast_name_to_index, clast_name_to_level, htab_find_slot_eq_none _ name hn]
  · have e := htab_find_slot_store_of_ne index_table (new_clast_name_index other index level)
      name h
    simp only [clast_name_to_index, clast_name_to_level, save_clast_name_index, e, and_self]

/-- Witness for C21: in the registry of the example parameters `N` and `M` the
name `i` has no record, and a bind of `i` leaves the index and level of `N`. -/
theorem clast_name_lookup_of_unbound_name_witness :
    "i" ∉ [new_clast_name_index "N" 0 0, new_clast_name_index "M" 1 1].map (fun e => e.name) ∧
    "i" ∉ [("N", (0 : Int), (0 : Int)), ("M", 1, 1)].map (fun b => b.1) ∧
    "N" ≠ "i" ∧
    clast_name_to_index "i" [new_clast_name_index "N" 0 0, new_clast_name_index "M" 1 1] = -1 ∧
    clast_name_to_level "i"
      ([("N", (0 : Int), (0 : Int)), ("M", 1, 1)].foldl
        (fun t b => save_clast_name_index t b.1 b.2.1 b.2.2) []) = -1 ∧
    clast_name_to_index "N"
      (save_clast_name_index [new_clast_name_index "N" 7 0, new_clast_name_index "M" 1 1]
        "i" 3 2) = 7 :=
  ⟨by decide, by decide, by decide,
   ((clast_name_lookup_of_unbound_name
      [new_clast_name_index "N" 0 0, new_clast_name_index "M" 1 1] "i" "M" 0 0 []).1
      (by decide)).1,
   ((clast_name_lookup_of_unbound_name [] "i" "M" 0 0
      [("N", 0, 0), ("M", 1, 1)]).2.1 (by decide)).2,
   ((clast_name_lookup_of_unbound_name
      [new_clast_name_index "N" 7 0, new_clast_name_index "M" 1 1] "N" "i" 3 2 []).2.2
      (by decide)).1.trans (by decide)⟩

/-! ## The dependence test -/

theorem mem_mapped_statements (m : List bb_pbb_def) (bbs : List Nat) (p : Nat) :
    p ∈ mapped_statements m bbs ↔ ∃ bb ∈ bbs, find_pbb_via_hash m bb = some p := by
  induction bbs with
  | nil => simp [mapped_statements]
  | cons bb rest ih =>
    unfold mapped_statements
    cases hf : find_pbb_via_hash m bb with
    | none => simp [ih, hf]
    | some q =>
      simp only [List.mem_cons, ih, exists_eq_or_imp, hf, Option.some.injEq]
      constructor
      · rintro (h | h)
        · exact Or.inl h.symm
        · exact Or.inr h
      · rintro (h | h)
        · exact Or.inl h.symm
        · exact Or.inr h

theorem dependency_in_loop_p_inner_eq_any (co : Collaborators) (m : List bb_pbb_def)
    (level pbb1 : Nat) (bbs : List Nat) :
    dependency_in_loop_p_inner co m level pbb1 bbs
      = (mapped_statements m bbs).any
          (fun pbb2 => co.dependency_between_pbbs_p pbb1 pbb2 level) := by
  induction bbs with
  | nil => rfl
  | cons bb rest ih =>
    cases hf : find_pbb_via_hash m bb with
    | none => simpa [dependency_in_loop_p_inner, mapped_statements, hf] using ih
    | some q =>
      simp only [dependency_in_loop_p_inner, mapped_statements, hf]
      cases hd : co.dependency_between_pbbs_p pbb1 q level <;> simp [hd, ih]

theorem dependency_in_loop_p_outer_eq_any (co : Collaborators) (m : List bb_pbb_def)
    (level : Nat) (bbs rest : List Nat) :
    dependency_in_loop_p_outer co m level bbs rest
      = (mapped_statements m rest).any (fun pbb1 =>
          (mapped_statements m bbs).any
            (fun pbb2 => co.dependency_between_pbbs_p pbb1 pbb2 level)) := by
  induction rest with
  | nil => rfl
  | cons bb rest ih =>
    cases hf : find_pbb_via_hash m bb with
    | none => simpa [dependency_in_loop_p_outer, mapped_statements, hf] using ih
    | some q =>
      simp only [dependency_in_loop_p_outer, mapped_statements, hf]
      simp only [dependency_in_loop_p_inner_eq_any, List.any_cons]
      cases hd : (mapped_statements m bbs).any
          (fun pbb2 => co.dependency_between_pbbs_p q pbb2 level) <;> simp [ih]

theorem dependency_in_loop_p_inner_queries_fst (co : Collaborators) (m : List bb_pbb_def)
    (level pbb1 : Nat) (bbs : List Nat) :
    (dependency_in_loop_p_inner_queries co m level pbb1 bbs).1
      = dependency_in_loop_p_inner co m level pbb1 bbs := by
  induction bbs with
  | nil => rfl
  | cons bb rest ih =>
    cases hf : find_pbb_via_hash m bb with
    | none => simpa [dependency_in_loop_p_inner_queries, dependency_in_loop_p_inner, hf] using ih
    | some q =>
      simp only [dependency_in_loop_p_inner_queries, dependency_in_loop_p_inner, hf]
      cases hd : co.dependency_between_pbbs_p pbb1 q level <;> simp [hd, ih]

theorem dependency_in_loop_p_outer_queries_fst (co : Collaborators) (m : List bb_pbb_def)
    (level : Nat) (bbs rest : List Nat) :
    (dependency_in_loop_p_outer_queries co m level bbs rest).1
      = dependency_in_loop_p_outer co m level bbs rest := by
  induction rest with
  | nil => rfl
  | cons bb rest ih =>
    cases hf : find_pbb_via_hash m bb with
    | none => simpa [dependency_in_loop_p_outer_queries, dependency_in_loop_p_outer, hf] using ih
    | some q =>
      simp only [dependency_in_loop_p_outer_queries, dependency_in_loop_p_outer, hf]
      simp only [dependency_in_loop_p_inner_queries_fst]
      cases hd : dependency_in_loop_p_inner co m level q bbs <;> simp [ih]

theorem through_first_append {α : Type} (p : α → Bool) (a b : List α) :
    through_first p (a ++ b)
      = if a.any p then through_first p a else a ++ through_first p b := by
  induction a with
  | nil => simp
  | cons x rest ih =>
    cases hx : p x <;> simp [through_first, hx, ih]
    split <;> rfl

theorem through_first_of_any_false {α : Type} (p : α → Bool) (l : List α)
    (h : l.any p = false) : through_first p l = l := by
  induction l with
  | nil => rfl
  | cons x rest ih =>
    simp only [List.any_cons, Bool.or_eq_false_iff] at h
    simp [through_first, h.1, ih h.2]

theorem through_first_eq_take {α : Type} (p : α → Bool) (l : List α) :
    through_first p l = l.take (l.findIdx p + 1) := by
  induction l with
  | nil => rfl
  | cons x rest ih =>
    cases hx : p x <;> simp [through_first, hx, ih, List.findIdx_cons]

theorem through_first_dropLast {α : Type} (p : α → Bool) (l : List α) :
    ∀ x ∈ (through_first p l).dropLast, p x = false := by
  induction l with
  | nil => simp [through_first]
  | cons y rest ih =>
    cases hy : p y
    · simp only [through_first, hy, Bool.false_eq_true, if_false]
      cases hr : through_first p rest with
      | nil => simp
      | cons z zs =>
        rw [hr] at ih
        simp only [List.dropLast_cons₂, List.mem_cons]
        rintro x (h | h)
        · rw [h, hy]
        · exact ih x h
    · simp [through_first, hy]

theorem mem_row_major_pairs (all rest : List Nat) (q : Nat × Nat)
    (h : q ∈ row_major_pairs all rest) : q.1 ∈ rest ∧ q.2 ∈ all := by
  induction rest with
  | nil => simp [row_major_pairs] at h
  | cons p rest ih =>
    simp only [row_major_pairs, List.mem_append, List.mem_map] at h
    rcases h with ⟨x, hx, rfl⟩ | h
    · exact ⟨List.mem_cons_self _ _, hx⟩
    · exact ⟨List.mem_cons_of_mem _ (ih h).1, (ih h).2⟩

theorem dependency_in_loop_p_inner_queries_snd (co : Collaborators) (m : List bb_pbb_def)
    (level pbb1 : Nat) (bbs : List Nat) :
    (dependency_in_loop_p_inner_queries co m level pbb1 bbs).2
      = through_first (fun q => co.dependency_between_pbbs_p q.1 q.2 level)
          ((mapped_statements m bbs).map (fun pbb2 => (pbb1, pbb2))) := by
  induction bbs with
  | nil => rfl
  | cons bb rest ih =>
    cases hf : find_pbb_via_hash m bb with
    | none => simpa [dependency_in_loop_p_inner_queries, mapped_statements, hf] using ih
    | some q =>
      simp only [dependency_in_loop_p_inner_queries, mapped_statements, hf]
      cases hd : co.dependency_between_pbbs_p pbb1 q level <;>
        simp [through_first, hd, ih]

theorem dependency_in_loop_p_outer_queries_snd (co : Collaborators) (m : List bb_pbb_def)
    (level : Nat) (bbs rest : List Nat) :
    (dependency_in_loop_p_outer_queries co m level bbs rest).2
      = through_first (fun q => co.dependency_between_pbbs_p q.1 q.2 level)
          (row_major_pairs (mapped_statements m bbs) (mapped_statements m rest)) := by
  induction rest with
  | nil => rfl
  | cons bb rest ih =>
    cases hf : find_pbb_via_hash m bb with
    | none => simpa [dependency_in_loop_p_outer_queries, mapped_statements, hf] using ih
    | some q =>
      simp only [dependency_in_loop_p_outer_queries, mapped_statements, hf]
      simp only [row_major_pairs, through_first_append,
        dependency_in_loop_p_inner_queries_fst, dependency_in_loop_p_inner_queries_snd,
        dependency_in_loop_p_inner_eq_any, List.any_map]
      have e : ((mapped_statements m bbs).map (fun pbb2 => (q, pbb2))).any
            (fun q => co.dependency_between_pbbs_p q.1 q.2 level)
          = (mapped_statements m bbs).any
              (fun pbb2 => co.dependency_between_pbbs_p q pbb2 level) := by
        induction mapped_statements m bbs with
        | nil => rfl
        | cons x xs ihx => simp only [List.map_cons, List.any_cons, ihx]
      rw [e]
      cases hd : (mapped_statements m bbs).any
          (fun pbb2 => co.dependency_between_pbbs_p q pbb2 level)
      · simp only [Bool.false_eq_true, if_false, ih]
        rw [through_first_of_any_false _ _ (e.trans hd)]
      · simp

/-- C22: `dependency_in_loop_p` returns true exactly when two blocks of the loop,
taken in either order and not necessarily distinct, both have a statement
instance in the map and `dependency_between_pbbs_p` reports a dependence
between the two instances at the level; and every pair of instances passed to
`dependency_between_pbbs_p` is made of the instances of two blocks of the loop,
so that a block without an instance gives rise to no call. -/
theorem dependency_in_loop_p_iff (co : Collaborators) (bbs : List Nat)
    (bb_pbb_mapping : List bb_pbb_def) (level : Nat) :
    (dependency_in_loop_p co bbs bb_pbb_mapping level = true ↔
      ∃ bb1 ∈ bbs, ∃ bb2 ∈ bbs, ∃ pbb1 pbb2,
        find_pbb_via_hash bb_pbb_mapping bb1 = some pbb1 ∧
        find_pbb_via_hash bb_pbb_mapping bb2 = some pbb2 ∧
        co.dependency_between_pbbs_p pbb1 pbb2 level = true) ∧
    (dependency_in_loop_p_queries co bbs bb_pbb_mapping level).1
      = dependency_in_loop_p co bbs bb_pbb_mapping level ∧
    ∀ q ∈ (dependency_in_loop_p_queries co bbs bb_pbb_mapping level).2,
      ∃ bb1 ∈ bbs, ∃ bb2 ∈ bbs,
        find_pbb_via_hash bb_pbb_mapping bb1 = some q.1 ∧
        find_pbb_via_hash bb_pbb_mapping bb2 = some q.2 := by
  refine ⟨?_, dependency_in_loop_p_outer_queries_fst co bb_pbb_mapping level bbs bbs, ?_⟩
  · unfold dependency_in_loop_p
    rw [dependency_in_loop_p_outer_eq_any]
    simp only [List.any_eq_true, mem_mapped_statements]
    constructor
    · rintro ⟨p1, ⟨bb1, hb1, hf1⟩, p2, ⟨bb2, hb2, hf2⟩, hd⟩
      exact ⟨bb1, hb1, bb2, hb2, p1, p2, hf1, hf2, hd⟩
    · rintro ⟨bb1, hb1, bb2, hb2, p1, p2, hf1, hf2, hd⟩
      exact ⟨p1, ⟨bb1, hb1, hf1⟩, p2, ⟨bb2, hb2, hf2⟩, hd⟩
  · intro q hq
    unfold dependency_in_loop_p_queries at hq
    rw [dependency_in_loop_p_outer_queries_snd, through_first_eq_take] at hq
    have hq' := mem_row_major_pairs _ _ q (List.mem_of_mem_take hq)
    rw [mem_mapped_statements, mem_mapped_statements] at hq'
    obtain ⟨⟨bb1, hb1, hf1⟩, bb2, hb2, hf2⟩ := hq'
    exact ⟨bb1, hb1, bb2, hb2, hf1, hf2⟩

/-- Witness for C22: of the blocks 1, 2 and 3, the second has no statement
instance; the instance of block 3 depends on that of block 1. -/
theorem dependency_in_loop_p_iff_witness :
    dependency_in_loop_p example_dependence [1, 2, 3] example_mapping 0 = true ∧
    find_pbb_via_hash example_mapping 2 = none ∧
    (dependency_in_loop_p_queries example_dependence [1, 2, 3] example_mapping 0).2
      = [(7, 7), (7, 8), (8, 7)] :=
  ⟨(dependency_in_loop_p_iff example_dependence [1, 2, 3] example_mapping 0).1.2
      ⟨3, by decide, 1, by decide, 8, 7, by decide, by decide, by decide⟩,
   by decide, by decide⟩

/-- Counterexample for C23: a loop of the single block 1, which holds statement
7 and nothing else, with a statement that depends on itself: the test asks for
the pair of the statement with itself and returns true. -/
theorem dependency_in_loop_p_single_block_asks_self_pair :
    ¬ ∀ (co : Collaborators) (bb level : Nat) (bb_pbb_mapping : List bb_pbb_def),
      dependency_in_loop_p co [bb] bb_pbb_mapping level = false :=
  fun h => absurd (h example_self_dependence 1 0 example_mapping) (by decide)

/-- C23, amended: for a loop of a single block, `dependency_in_loop_p` returns
false without a call of `dependency_between_pbbs_p` when the block has no
statement instance, and otherwise returns the answer of
`dependency_between_pbbs_p` for the instance paired with itself at the level,
which is the only call. -/
theorem dependency_in_loop_p_single_block (co : Collaborators) (bb level : Nat)
    (bb_pbb_mapping : List bb_pbb_def) :
    (find_pbb_via_hash bb_pbb_mapping bb = none →
      dependency_in_loop_p co [bb] bb_pbb_mapping level = false ∧
      (dependency_in_loop_p_queries co [bb] bb_pbb_mapping level).2 = []) ∧
    (∀ pbb, find_pbb_via_hash bb_pbb_mapping bb = some pbb →
      dependency_in_loop_p co [bb] bb_pbb_mapping level
        = co.dependency_between_pbbs_p pbb pbb level ∧
      (dependency_in_loop_p_queries co [bb] bb_pbb_mapping level).2 = [(pbb, pbb)]) := by
  constructor
  · intro h
    simp [dependency_in_loop_p, dependency_in_loop_p_outer, dependency_in_loop_p_queries,
      dependency_in_loop_p_outer_queries, h]
  · intro pbb h
    cases hd : co.dependency_between_pbbs_p pbb pbb level <;>
      simp [dependency_in_loop_p, dependency_in_loop_p_outer, dependency_in_loop_p_inner,
        dependency_in_loop_p_queries, dependency_in_loop_p_outer_queries,
        dependency_in_loop_p_inner_queries, h, hd]

/-- Witness for C23, amended: block 2 has no statement instance; block 1 holds
statement 7, which does not depend on itself in the first example and does in
the second. -/
theorem dependency_in_loop_p_single_block_witness :
    find_pbb_via_hash example_mapping 2 = none ∧
    find_pbb_via_hash example_mapping 1 = some 7 ∧
    dependency_in_loop_p example_self_dependence [2] example_mapping 0 = false ∧
    dependency_in_loop_p example_dependence [1] example_mapping 0 = false ∧
    dependency_in_loop_p example_self_dependence [1] example_mapping 0 = true :=
  ⟨by decide, by decide,
   ((dependency_in_loop_p_single_block example_self_dependence 2 0 example_mapping).1
      (by decide)).1,
   ((dependency_in_loop_p_single_block example_dependence 1 0 example_mapping).2 7
      (by decide)).1.trans (by decide),
   ((dependency_in_loop_p_single_block example_self_dependence 1 0 example_mapping).2 7
      (by decide)).1.trans (by decide)⟩

theorem any_map_pair (p : Nat × Nat → Bool) (x : Nat) (all : List Nat) :
    (all.map (fun q => (x, q))).any p = all.any (fun pbb2 => p (x, pbb2)) := by
  induction all with
  | nil => rfl
  | cons y ys ihy => simp only [List.map_cons, List.any_cons, ihy]

theorem row_major_pairs_any (p : Nat × Nat → Bool) (all rest : List Nat) :
    (row_major_pairs all rest).any p
      = rest.any (fun pbb1 => all.any (fun pbb2 => p (pbb1, pbb2))) := by
  induction rest with
  | nil => rfl
  | cons x rest ih =>
    have e := any_map_pair p x all
    simp only [row_major_pairs, List.any_append, List.any_cons, e, ih]

theorem through_first_getLast {α : Type} (p : α → Bool) (l : List α)
    (h : l.any p = true) : ∃ q, (through_first p l).getLast? = some q ∧ p q = true := by
  induction l with
  | nil => simp at h
  | cons x rest ih =>
    cases hx : p x
    · simp only [List.any_cons, hx, Bool.false_or] at h
      obtain ⟨q, hq, hp⟩ := ih h
      refine ⟨q, ?_, hp⟩
      simp only [through_first, hx, Bool.false_eq_true, if_false]
      cases hr : through_first p rest with
      | nil => rw [hr] at hq; simp at hq
      | cons z zs => rw [hr] at hq; simpa [List.getLast?_cons_cons] using hq
    · exact ⟨x, by simp [through_first, hx], hx⟩

/-- C24: the calls of `dependency_between_pbbs_p` made by `dependency_in_loop_p`
are the pairs of statement instances of the blocks of the loop, in row-major
order of the list of blocks, up to and including the first pair for which the
answer is true: no call but the last has the answer true; when the result is
true the last call has the answer true and the number of calls is the position
of that pair, counted from one; when the result is false every pair is asked. -/
theorem dependency_in_loop_p_short_circuits (co : Collaborators) (bbs : List Nat)
    (bb_pbb_mapping : List bb_pbb_def) (level : Nat) :
    (dependency_in_loop_p_queries co bbs bb_pbb_mapping level).2
      = (row_major_pairs (mapped_statements bb_pbb_mapping bbs)
          (mapped_statements bb_pbb_mapping bbs)).take
        ((row_major_pairs (mapped_statements bb_pbb_mapping bbs)
          (mapped_statements bb_pbb_mapping bbs)).findIdx
            (fun q => co.dependency_between_pbbs_p q.1 q.2 level) + 1) ∧
    (∀ q ∈ (dependency_in_loop_p_queries co bbs bb_pbb_mapping level).2.dropLast,
      co.dependency_between_pbbs_p q.1 q.2 level = false) ∧
    (dependency_in_loop_p co bbs bb_pbb_mapping level = true →
      (∃ q, (dependency_in_loop_p_queries co bbs bb_pbb_mapping level).2.getLast? = some q ∧
        co.dependency_between_pbbs_p q.1 q.2 level = true) ∧
      (dependency_in_loop_p_queries co bbs bb_pbb_mapping level).2.length
        = (row_major_pairs (mapped_statements bb_pbb_mapping bbs)
            (mapped_statements bb_pbb_mapping bbs)).findIdx
              (fun q => co.dependency_between_pbbs_p q.1 q.2 level) + 1) ∧
    (dependency_in_loop_p co bbs bb_pbb_mapping level = false →
      (dependency_in_loop_p_queries co bbs bb_pbb_mapping level).2
        = row_major_pairs (mapped_statements bb_pbb_mapping bbs)
            (mapped_statements bb_pbb_mapping bbs)) := by
  have hq : (dependency_in_loop_p_queries co bbs bb_pbb_mapping level).2
      = through_first (fun q => co.dependency_between_pbbs_p q.1 q.2 level)
          (row_major_pairs (mapped_statements bb_pbb_mapping bbs)
            (mapped_statements bb_pbb_mapping bbs)) :=
    dependency_in_loop_p_outer_queries_snd co bb_pbb_mapping level bbs bbs
  have hr : dependency_in_loop_p co bbs bb_pbb_mapping level
      = (row_major_pairs (mapped_statements bb_pbb_mapping bbs)
          (mapped_statements bb_pbb_mapping bbs)).any
            (fun q => co.dependency_between_pbbs_p q.1 q.2 level) := by
    rw [row_major_pairs_any]
    exact dependency_in_loop_p_outer_eq_any co bb_pbb_mapping level bbs bbs
  refine ⟨hq.trans (through_first_eq_take _ _), ?_, ?_, ?_⟩
  · rw [hq]
    exact through_first_dropLast _ _
  · intro h
    rw [hr] at h
    refine ⟨by rw [hq]; exact through_first_getLast _ _ h, ?_⟩
    rw [hq, through_first_eq_take, List.length_take]
    have hlt := List.findIdx_lt_length_of_exists (List.any_eq_true.1 h)
    omega
  · intro h
    rw [hr] at h
    rw [hq]
    exact through_first_of_any_false _ _ h

/-- Witness for C24: of the four pairs of the statements 7 and 8, the third is
the first with a dependence, so three calls are made, and the fourth pair is
not asked. -/
theorem dependency_in_loop_p_short_circuits_witness :
    dependency_in_loop_p example_dependence [1, 2, 3] example_mapping 0 = true ∧
    row_major_pairs (mapped_statements example_mapping [1, 2, 3])
      (mapped_statements example_mapping [1, 2, 3]) = [(7, 7), (7, 8), (8, 7), (8, 8)] ∧
    (dependency_in_loop_p_queries example_dependence [1, 2, 3] example_mapping 0).2.length
      = 3 :=
  ⟨by decide, by decide,
   ((dependency_in_loop_p_short_circuits example_dependence [1, 2, 3] example_mapping 0).2.2.1
      (by decide)).2.trans (by decide)⟩

/-! ## The parallel mark of a loop -/

/-- C25: when `translate_clast_for_loop` returns, the operations it does on the
control-flow graph after the translation of the body are the redirection of the
last edge of the body and then, exactly when `flag_loop_parallelize_all` is set
and `dependency_in_loop_p` is false for the blocks of the new loop at the level
of the loop, the mark `can_be_parallel` on the new loop; with the flag clear
there is no mark. -/
theorem translate_clast_for_loop_can_be_parallel (co : Collaborators)
    (translate_body : Option Nat → Nat → Nat → gloog_state → Option (Nat × gloog_state))
    (context_loop : Option Nat) (stmt : clast_for) (next_e level : Nat)
    (type : GccType) (lb ub : tree) (st : gloog_state)
    (h : (translate_clast_for_loop co translate_body context_loop stmt next_e level type lb ub
      st).isSome = true) :
    ∃ r st' loop st1 e2 st2,
      translate_clast_for_loop co translate_body context_loop stmt next_e level type lb ub st
        = some (r, st') ∧
      graphite_create_new_loop next_e stmt context_loop type lb ub level st = some (loop, st1) ∧
      translate_body (some loop) st1.next_id (level + 1)
        { st1 with next_id := st1.next_id + 3 } = some (e2, st2) ∧
      (st'.cfg = st2.cfg ++ [cfg_event.redirect_edge e2 (st1.next_id + 1)] ++ [cfg_event.can_be_parallel loop] ∨
        st'.cfg = st2.cfg ++ [cfg_event.redirect_edge e2 (st1.next_id + 1)]) ∧
      (st'.cfg = st2.cfg ++ [cfg_event.redirect_edge e2 (st1.next_id + 1)] ++ [cfg_event.can_be_parallel loop] ↔
        co.flag_loop_parallelize_all = true ∧
        dependency_in_loop_p co
          (get_loop_body_in_dom_order
            ((st2.cfg ++ [cfg_event.redirect_edge e2 (st1.next_id + 1)]).drop st1.cfg.length))
          st2.bb_pbb_mapping level = false) ∧
      (co.flag_loop_parallelize_all = false →
        st'.cfg = st2.cfg ++ [cfg_event.redirect_edge e2 (st1.next_id + 1)]) := by
  unfold translate_clast_for_loop at h ⊢
  cases h1 : graphite_create_new_loop next_e stmt context_loop type lb ub level st with
  | none => rw [h1] at h; exact absurd h (by simp)
  | some p1 =>
    obtain ⟨loop, st1⟩ := p1
    rw [h1] at h
    simp only at h ⊢
    cases h2 : translate_body (some loop) st1.next_id (level + 1)
        { st1 with next_id := st1.next_id + 3 } with
    | none => rw [h2] at h; exact absurd h (by simp)
    | some p2 =>
      obtain ⟨e2, st2⟩ := p2
      refine ⟨_, _, loop, st1, e2, st2, rfl, rfl, h2, ?_⟩
      generalize dependency_in_loop_p co
          (get_loop_body_in_dom_order
            ((st2.cfg ++ [cfg_event.redirect_edge e2 (st1.next_id + 1)]).drop st1.cfg.length))
          st2.bb_pbb_mapping level = d
      cases hf : co.flag_loop_parallelize_all <;> cases d <;> simp

/-- Witness for C25: the example loop, whose body is the statement 7, is marked
when the flag is set and no statement depends on another; it is not marked
when the statement depends on itself, nor when the flag is clear. -/
theorem translate_clast_for_loop_can_be_parallel_witness :
    (example_for_loop example_sequential).isSome = true ∧
    (∃ r st', example_for_loop example_sequential = some (r, st')) ∧
    (example_for_loop example_collaborators).map (fun x => x.2.cfg.getLast?)
      = some (some (cfg_event.can_be_parallel 1)) ∧
    (example_for_loop example_self_dependence).map (fun x => x.2.cfg.getLast?)
      = some (some (cfg_event.redirect_edge 104 102)) ∧
    (example_for_loop example_sequential).map (fun x => x.2.cfg.getLast?)
      = some (some (cfg_event.redirect_edge 104 102)) :=
  ⟨by decide,
   (translate_clast_for_loop_can_be_parallel example_sequential
      (example_translate_body example_sequential) none
      (example_for (.clast_expr_term none 99)) 0 0 (.integer 32 false)
      (.integer_cst (.integer 32 false) 0) (.integer_cst (.integer 32 false) 99) example_state
      (by decide)).elim (fun r h => h.elim (fun st' h => h.elim (fun _ h => h.elim (fun _ h =>
        h.elim (fun _ h => h.elim (fun _ h => ⟨r, st', h.1⟩)))))),
   by decide, by decide, by decide⟩

/-! ## The type of a literal and of an interval -/

theorem smallest_mode_for_size_of_exists (modes : List Nat) (size : Nat)
    (h : ∃ m ∈ modes, size ≤ m) :
    ∃ m, smallest_mode_for_size modes size = some m ∧ m ∈ modes ∧ size ≤ m ∧
      (modes.Pairwise (fun a b => a ≤ b) → ∀ m2 ∈ modes, size ≤ m2 → m ≤ m2) := by
  induction modes with
  | nil => simp at h
  | cons x rest ih =>
    by_cases hx : x ≥ size
    · refine ⟨x, by simp [smallest_mode_for_size, hx], List.mem_cons_self _ _, hx, ?_⟩
      intro hp m2 hm2 _
      rcases List.mem_cons.1 hm2 with e | hmem
      · exact e ▸ le_refl _
      · exact (List.pairwise_cons.1 hp).1 m2 hmem
    · have h' : ∃ m ∈ rest, size ≤ m := by
        obtain ⟨m, hm, hs⟩ := h
        rcases List.mem_cons.1 hm with e | hmem
        · exact absurd (e ▸ hs) hx
        · exact ⟨m, hmem, hs⟩
      obtain ⟨m, hm, hmem, hs, hmin⟩ := ih h'
      refine ⟨m, by simp [smallest_mode_for_size, hx, hm], List.mem_cons_of_mem _ hmem, hs, ?_⟩
      intro hp m2 hm2 hs2
      rcases List.mem_cons.1 hm2 with e | hmem2
      · exact absurd (e ▸ hs2) hx
      · exact hmin (List.pairwise_cons.1 hp).2 m2 hmem2 hs2

theorem gcc_type_for_interval_eq (tg : Target) (v1 v2 : Int) (gloog_error : Bool)
    (hw : max (mpz_sizeinbase v1) (mpz_sizeinbase v2) ≤ tg.BITS_PER_WORD)
    (hm : ∃ m ∈ tg.int_mode_precisions, tg.BITS_PER_WORD ≤ m)
    (hb : ∀ p u, tg.nonstandard_type_built p u = true) :
    ∃ m, gcc_type_for_interval tg v1 v2 gloog_error
        = some (.integer m (decide (0 ≤ min v1 v2)), gloog_error) ∧
      m ∈ tg.int_mode_precisions ∧
      max (mpz_sizeinbase v1) (mpz_sizeinbase v2) ≤ m ∧
      (tg.int_mode_precisions.Pairwise (fun a b => a ≤ b) →
        ∀ m2 ∈ tg.int_mode_precisions,
          max (mpz_sizeinbase v1) (mpz_sizeinbase v2) ≤ m2 → m ≤ m2) := by
  have hex : ∃ m ∈ tg.int_mode_precisions,
      max (mpz_sizeinbase v1) (mpz_sizeinbase v2) ≤ m := by
    obtain ⟨m, hmem, hle⟩ := hm
    exact ⟨m, hmem, le_trans hw hle⟩
  obtain ⟨m, hs, hmem, hle, hmin⟩ := smallest_mode_for_size_of_exists _ _ hex
  refine ⟨m, ?_, hmem, hle, hmin⟩
  have hu : (if v1 ≤ v2 then decide (0 ≤ v1) else decide (0 ≤ v2)) = decide (0 ≤ min v1 v2) := by
    by_cases h12 : v1 ≤ v2
    · simp [h12, min_eq_left h12]
    · have h21 : v2 ≤ v1 := le_of_lt (not_le.1 h12)
      simp [h12, min_eq_right h21]
  simp only [gcc_type_for_interval, hu, hs, build_nonstandard_integer_type, hb,
    not_lt.2 hw, if_false, if_true]

/-- C26: on a target that has an integer mode of at least a word and builds
every integer type asked for, for a literal `V` of bit-length at most
`BITS_PER_WORD` (the bit-length is `mpz_sizeinbase (V, 2)`, the number of binary
digits of the absolute value), `gcc_type_for_value` returns an integer type and
leaves `gloog_error` as it was; the precision of the type is that of an integer
mode, is at least the bit-length, and is the least such when the modes are
listed from the narrowest to the widest; the type is signed exactly when
`V < 0`. -/
theorem gcc_type_for_value_minimal_width (tg : Target) (V : Int) (gloog_error : Bool)
    (hw : mpz_sizeinbase V ≤ tg.BITS_PER_WORD)
    (hm : ∃ m ∈ tg.int_mode_precisions, tg.BITS_PER_WORD ≤ m)
    (hb : ∀ p u, tg.nonstandard_type_built p u = true) :
    ∃ m, gcc_type_for_value tg V gloog_error
        = some (.integer m (decide (0 ≤ V)), gloog_error) ∧
      m ∈ tg.int_mode_precisions ∧
      mpz_sizeinbase V ≤ m ∧
      (tg.int_mode_precisions.Pairwise (fun a b => a ≤ b) →
        ∀ m2 ∈ tg.int_mode_precisions, mpz_sizeinbase V ≤ m2 → m ≤ m2) ∧
      (TYPE_UNSIGNED (.integer m (decide (0 ≤ V))) = false ↔ V < 0) := by
  obtain ⟨m, h, hmem, hle, hmin⟩ :=
    gcc_type_for_interval_eq tg V V gloog_error (by simpa using hw) hm hb
  simp only [min_self, max_self] at h hle hmin
  refine ⟨m, h, hmem, hle, hmin, ?_⟩
  simp [TYPE_UNSIGNED]

/-- Witness for C26: on the example target the literal `-200` has the signed
8-bit type, `0` and `255` the unsigned 8-bit type, and `256` the unsigned 16-bit
type. -/
theorem gcc_type_for_value_minimal_width_witness :
    mpz_sizeinbase (-200) ≤ x86_64.BITS_PER_WORD ∧
    (∃ m ∈ x86_64.int_mode_precisions, x86_64.BITS_PER_WORD ≤ m) ∧
    (∀ p u, x86_64.nonstandard_type_built p u = true) ∧
    (∃ m, gcc_type_for_value x86_64 (-200) false = some (.integer m false, false)) ∧
    gcc_type_for_value x86_64 (-200) false = some (.integer 8 false, false) ∧
    gcc_type_for_value x86_64 0 false = some (.integer 8 true, false) ∧
    gcc_type_for_value x86_64 255 false = some (.integer 8 true, false) ∧
    gcc_type_for_value x86_64 256 false = some (.integer 16 true, false) :=
  ⟨by decide, ⟨64, by decide, by decide⟩, fun _ _ => rfl,
   (gcc_type_for_value_minimal_width x86_64 (-200) false (by decide)
      ⟨64, by decide, by decide⟩ (fun _ _ => rfl)).elim (fun m h => ⟨m, h.1⟩),
   by decide, by decide, by decide, by decide⟩

/-- C27: `gcc_type_for_interval` returns the same for `(v1, v2)` and for
`(v2, v1)`; on a target that has an integer mode of at least a word and builds
every integer type asked for, for bounds of bit-length at most `BITS_PER_WORD`
it returns an integer type and leaves `gloog_error` as it was, and the type is
unsigned exactly when the smaller bound is not negative, that is, when neither
bound is. -/
theorem gcc_type_for_interval_unsigned_iff (tg : Target) (v1 v2 : Int) (gloog_error : Bool) :
    gcc_type_for_interval tg v1 v2 gloog_error = gcc_type_for_interval tg v2 v1 gloog_error ∧
    (max (mpz_sizeinbase v1) (mpz_sizeinbase v2) ≤ tg.BITS_PER_WORD →
      (∃ m ∈ tg.int_mode_precisions, tg.BITS_PER_WORD ≤ m) →
      (∀ p u, tg.nonstandard_type_built p u = true) →
      ∃ type, gcc_type_for_interval tg v1 v2 gloog_error = some (type, gloog_error) ∧
        (TYPE_UNSIGNED type = true ↔ 0 ≤ min v1 v2) ∧
        (TYPE_UNSIGNED type = true ↔ 0 ≤ v1 ∧ 0 ≤ v2)) := by
  constructor
  · have hu : (if v1 ≤ v2 then decide (0 ≤ v1) else decide (0 ≤ v2))
        = (if v2 ≤ v1 then decide (0 ≤ v2) else decide (0 ≤ v1)) := by
      rcases lt_trichotomy v1 v2 with h | h | h
      · simp [le_of_lt h, not_le.2 h]
      · simp [h]
      · simp [le_of_lt h, not_le.2 h]
    simp only [gcc_type_for_interval, hu, max_comm (mpz_sizeinbase v1) (mpz_sizeinbase v2)]
  · intro hw hm hb
    obtain ⟨m, h, -, -, -⟩ := gcc_type_for_interval_eq tg v1 v2 gloog_error hw hm hb
    refine ⟨_, h, ?_, ?_⟩
    · simp [TYPE_UNSIGNED]
    · simp [TYPE_UNSIGNED, le_min_iff]

/-- Witness for C27: on the example target the interval from `-3` to `200` has
the signed 8-bit type in either order of the bounds, and the interval from `3`
to `200` the unsigned 8-bit type. -/
theorem gcc_type_for_interval_unsigned_iff_witness :
    max (mpz_sizeinbase 3) (mpz_sizeinbase 200) ≤ x86_64.BITS_PER_WORD ∧
    (∃ type, gcc_type_for_interval x86_64 3 200 false = some (type, false) ∧
      (TYPE_UNSIGNED type = true ↔ 0 ≤ min (3 : Int) 200) ∧
      (TYPE_UNSIGNED type = true ↔ 0 ≤ (3 : Int) ∧ 0 ≤ (200 : Int))) ∧
    gcc_type_for_interval x86_64 3 200 false = some (.integer 8 true, false) ∧
    gcc_type_for_interval x86_64 (-3) 200 false = some (.integer 8 false, false) ∧
    gcc_type_for_interval x86_64 200 (-3) false = some (.integer 8 false, false) :=
  ⟨by decide,
   (gcc_type_for_interval_unsigned_iff x86_64 3 200 false).2 (by decide)
     ⟨64, by decide, by decide⟩ (fun _ _ => rfl),
   by decide, by decide,
   (gcc_type_for_interval_unsigned_iff x86_64 200 (-3) false).1.trans (by decide)⟩

/-! ## The type of an expression and the values of the expression -/

theorem lt_two_pow_bit_length (fuel n : Nat) (h : n ≤ fuel) : n < 2 ^ bit_length fuel n := by
  induction fuel generalizing n with
  | zero =>
    have h0 : n = 0 := Nat.le_zero.1 h
    simp [h0, bit_length]
  | succ fuel ih =>
    by_cases hn : n = 0
    · simp [bit_length, hn]
    · have h2 : n / 2 ≤ fuel := by omega
      have := ih (n / 2) h2
      simp only [bit_length, hn, if_false, pow_succ]
      omega

theorem lt_two_pow_mpz_sizeinbase (V : Int) (h : 0 ≤ V) :
    V < ((2 ^ mpz_sizeinbase V : Nat) : Int) := by
  unfold mpz_sizeinbase
  by_cases h0 : V = 0
  · simp [h0]
  · simp only [h0, if_false]
    have hlt := lt_two_pow_bit_length V.natAbs V.natAbs (le_refl _)
    have hv : V = (V.natAbs : Int) := (Int.natAbs_of_nonneg h).symm
    rw [hv]
    simp only [Int.natAbs_cast]
    exact_mod_cast hlt

theorem smallest_mode_for_size_ge (modes : List Nat) (size m : Nat)
    (h : smallest_mode_for_size modes size = some m) : size ≤ m := by
  induction modes with
  | nil => simp [smallest_mode_for_size] at h
  | cons x rest ih =>
    by_cases hx : x ≥ size
    · simp only [smallest_mode_for_size, hx, if_true, Option.some.injEq] at h
      exact h ▸ hx
    · simp only [smallest_mode_for_size, hx, if_false] at h
      exact ih h

theorem gcc_type_for_value_nonneg (tg : Target) (V : Int) (type : GccType)
    (h0 : 0 ≤ V) (h : gcc_type_for_value tg V false = some (type, false)) :
    representable type V ∧ TYPE_UNSIGNED type = true := by
  simp only [gcc_type_for_value, gcc_type_for_interval, max_self, le_refl, if_true] at h
  split at h
  · simp at h
  · split at h
    · exact absurd h (by simp)
    · rename_i m hm
      have hle : mpz_sizeinbase V ≤ m := smallest_mode_for_size_ge _ _ _ hm
      split at h
      · simp at h
      · rename_i t ht
        simp only [build_nonstandard_integer_type] at ht
        split at ht
        · simp only [Option.some.injEq, Prod.mk.injEq] at h ht
          rw [← h.1, ← ht]
          have hd : decide (0 ≤ V) = true := by simpa using h0
          rw [hd]
          refine ⟨⟨h0, ?_⟩, rfl⟩
          have h1 := lt_two_pow_mpz_sizeinbase V h0
          have h2 : ((2 ^ mpz_sizeinbase V : Nat) : Int) ≤ ((2 ^ m : Nat) : Int) := by
            exact_mod_cast Nat.pow_le_pow_right (by decide) hle
          simp only [TYPE_MAX_VALUE]
          omega
        · exact absurd ht (by simp)

theorem representable_signed_of_signed (p m : Nat) (v : Int) (hpm : p ≤ m)
    (h : representable (.integer p false) v) : representable (.integer m false) v := by
  simp only [representable, TYPE_MIN_VALUE, TYPE_MAX_VALUE] at h ⊢
  have hle : 2 ^ p / 2 ≤ 2 ^ m / 2 :=
    Nat.div_le_div_right (Nat.pow_le_pow_right (by decide) hpm)
  have hle' : ((2 ^ p / 2 : Nat) : Int) ≤ ((2 ^ m / 2 : Nat) : Int) := by exact_mod_cast hle
  omega

theorem representable_signed_of_unsigned (p m : Nat) (v : Int) (hpm : p + 1 ≤ m)
    (h : representable (.integer p true) v) : representable (.integer m false) v := by
  simp only [representable, TYPE_MIN_VALUE, TYPE_MAX_VALUE] at h ⊢
  have hle : 2 ^ p ≤ 2 ^ m / 2 := by
    rw [Nat.le_div_iff_mul_le (by decide)]
    calc 2 ^ p * 2 = 2 ^ (p + 1) := (pow_succ 2 p).symm
      _ ≤ 2 ^ m := Nat.pow_le_pow_right (by decide) hpm
  have hle' : ((2 ^ p : Nat) : Int) ≤ ((2 ^ m / 2 : Nat) : Int) := by exact_mod_cast hle
  omega

theorem representable_unsigned_of_unsigned (p m : Nat) (v : Int) (hpm : p ≤ m)
    (h : representable (.integer p true) v) : representable (.integer m true) v := by
  simp only [representable, TYPE_MIN_VALUE, TYPE_MAX_VALUE] at h ⊢
  have hle : 2 ^ p ≤ 2 ^ m := Nat.pow_le_pow_right (by decide) hpm
  have hle' : ((2 ^ p : Nat) : Int) ≤ ((2 ^ m : Nat) : Int) := by exact_mod_cast hle
  omega

theorem representable_signed_precision_pos (p : Nat) (v : Int)
    (h : representable (.integer p false) v) : 1 ≤ p := by
  simp only [representable, TYPE_MIN_VALUE, TYPE_MAX_VALUE] at h
  rcases Nat.eq_zero_or_pos p with h0 | h0
  · subst h0
    simp at h
    omega
  · exact h0

theorem representable_signed_zero (m : Nat) (hm : 1 ≤ m) :
    representable (.integer m false) 0 := by
  simp only [representable, TYPE_MIN_VALUE, TYPE_MAX_VALUE]
  have hle : 1 ≤ 2 ^ m / 2 := by
    rw [Nat.le_div_iff_mul_le (by decide)]
    calc 1 * 2 = 2 ^ 1 := rfl
      _ ≤ 2 ^ m := Nat.pow_le_pow_right (by decide) hm
  have hle' : (1 : Int) ≤ ((2 ^ m / 2 : Nat) : Int) := by exact_mod_cast hle
  omega

theorem representable_between (type : GccType) (a b v : Int)
    (ha : representable type a) (hb : representable type b)
    (h1 : min a b ≤ v) (h2 : v ≤ max a b) : representable type v := by
  simp only [representable] at ha hb ⊢
  rcases le_total a b with h | h
  · rw [min_eq_left h] at h1; rw [max_eq_right h] at h2; omega
  · rw [min_eq_right h] at h1; rw [max_eq_left h] at h2; omega

theorem max_signed_precision_type_clear (tg : Target) (type1 type2 type : GccType) (e : Bool)
    (h : max_signed_precision_type tg type1 type2 e = some (type, false)) :
    ∃ m, type = .integer m false ∧ max_signed_precision type1 type2 ≤ m := by
  simp only [max_signed_precision_type] at h
  split at h
  · simp at h
  · split at h
    · exact absurd h (by simp)
    · rename_i m hm
      simp only [build_nonstandard_integer_type] at h
      split at h
      · simp at h
      · rename_i t ht
        split at ht
        · simp only [Option.some.injEq] at ht
          simp only [Option.some.injEq, Prod.mk.injEq] at h
          exact ⟨m, by rw [← h.1, ← ht], smallest_mode_for_size_ge _ _ _ hm⟩
        · exact absurd ht (by simp)

theorem max_precision_type_covers (tg : Target) (type1 type2 type : GccType) (e : Bool)
    (v1 : Int)
    (hp1 : POINTER_TYPE_P type1 = false) (hp2 : POINTER_TYPE_P type2 = false)
    (htie : max_precision_type_is_tie type1 type2 = false)
    (h : max_precision_type tg type1 type2 e = some (type, false))
    (hv1 : representable type1 v1) :
    POINTER_TYPE_P type = false ∧
    ∀ v, representable type1 v ∨ representable type2 v → representable type v := by
  cases type1 with
  | pointer p1 => simp [POINTER_TYPE_P] at hp1
  | integer p1 u1 =>
    cases type2 with
    | pointer p2 => simp [POINTER_TYPE_P] at hp2
    | integer p2 u2 =>
      simp only [max_precision_type, POINTER_TYPE_P, Bool.false_eq_true, if_false,
        TYPE_UNSIGNED, TYPE_PRECISION] at h
      cases u1 <;> cases u2
      · -- signed, signed
        simp only [Bool.not_false, Bool.or_true, if_true] at h
        obtain ⟨m, hm, hle⟩ := max_signed_precision_type_clear _ _ _ _ _ h
        simp only [max_signed_precision, TYPE_PRECISION, TYPE_UNSIGNED, Bool.false_eq_true,
          if_false] at hle
        refine ⟨by rw [hm]; rfl, fun v hv => ?_⟩
        rw [hm]
        rcases hv with hv | hv
        · exact representable_signed_of_signed p1 m v (by split at hle <;> omega) hv
        · exact representable_signed_of_signed p2 m v (by split at hle <;> omega) hv
      · -- signed, unsigned
        simp only [Bool.not_false, Bool.true_or, if_true] at h
        obtain ⟨m, hm, hle⟩ := max_signed_precision_type_clear _ _ _ _ _ h
        simp only [max_signed_precision, TYPE_PRECISION, TYPE_UNSIGNED, Bool.false_eq_true,
          if_false, if_true] at hle
        have hp1pos := representable_signed_precision_pos p1 v1 hv1
        refine ⟨by rw [hm]; rfl, fun v hv => ?_⟩
        rw [hm]
        rcases hv with hv | hv
        · exact representable_signed_of_signed p1 m v (by split at hle <;> omega) hv
        · exact representable_signed_of_unsigned p2 m v (by split at hle <;> omega) hv
      · -- unsigned, signed
        simp only [max_precision_type_is_tie, TYPE_UNSIGNED, TYPE_PRECISION, Bool.not_false,
          Bool.and_self, Bool.true_and, decide_eq_false_iff_not] at htie
        simp only [Bool.not_true, Bool.not_false, Bool.or_true, if_true] at h
        obtain ⟨m, hm, hle⟩ := max_signed_precision_type_clear _ _ _ _ _ h
        simp only [max_signed_precision, TYPE_PRECISION, TYPE_UNSIGNED, Bool.false_eq_true,
          if_false, if_true] at hle
        refine ⟨by rw [hm]; rfl, fun v hv => ?_⟩
        rw [hm]
        rcases hv with hv | hv
        · exact representable_signed_of_unsigned p1 m v (by split at hle <;> omega) hv
        · exact representable_signed_of_signed p2 m v (by split at hle <;> omega) hv
      · -- unsigned, unsigned
        simp only [Bool.not_true, Bool.or_self, Bool.false_eq_true, if_false,
          Option.some.injEq, Prod.mk.injEq] at h
        refine ⟨by rw [← h.1]; split <;> rfl, fun v hv => ?_⟩
        rw [← h.1]
        split
        · rename_i hgt
          rcases hv with hv | hv
          · exact hv
          · exact representable_unsigned_of_unsigned p2 p1 v (by omega) hv
        · rename_i hgt
          rcases hv with hv | hv
          · exact representable_unsigned_of_unsigned p1 p2 v (by omega) hv
          · exact hv

theorem gcc_type_for_value_clear (tg : Target) (V : Int) (type : GccType) (e : Bool)
    (h0 : 0 ≤ V) (h : gcc_type_for_value tg V e = some (type, false)) :
    e = false ∧ (∃ m, type = .integer m true ∧ 1 ≤ m) ∧ representable type V := by
  have he : e = false := by
    cases e with
    | false => rfl
    | true => exact (gcc_type_for_interval_flag _ _ _ _ _ _ h rfl).symm
  subst he
  have hr := gcc_type_for_value_nonneg tg V type h0 h
  refine ⟨rfl, ?_, hr.1⟩
  simp only [gcc_type_for_value, gcc_type_for_interval, max_self, le_refl, if_true] at h
  split at h
  · simp at h
  · split at h
    · exact absurd h (by simp)
    · rename_i m hm
      have hle : mpz_sizeinbase V ≤ m := smallest_mode_for_size_ge _ _ _ hm
      have h1 : 1 ≤ mpz_sizeinbase V := by
        unfold mpz_sizeinbase
        split
        · exact le_refl 1
        · rename_i hne
          have hn : V.natAbs ≠ 0 := by omega
          cases hV : V.natAbs with
          | zero => exact absurd hV hn
          | succ n => simp [bit_length]
      simp only [build_nonstandard_integer_type] at h
      split at h
      · simp at h
      · rename_i t ht
        split at ht
        · simp only [Option.some.injEq] at ht
          simp only [Option.some.injEq, Prod.mk.injEq] at h
          have hd : decide (0 ≤ V) = true := by simpa using h0
          exact ⟨m, by rw [← h.1, ← ht, hd], by omega⟩
        · exact absurd ht (by simp)

theorem max_signed_precision_type_covers_quotient (tg : Target) (l r type : GccType)
    (e : Bool) (a : Int) (m2 : Nat)
    (hl : POINTER_TYPE_P l = false) (ha : representable l a)
    (hr : r = .integer m2 true) (hm2 : 1 ≤ m2)
    (h : max_signed_precision_type tg l r e = some (type, false)) :
    POINTER_TYPE_P type = false ∧ representable type a ∧ representable type 0 := by
  obtain ⟨m, hm, hle⟩ := max_signed_precision_type_clear _ _ _ _ _ h
  subst hr
  cases l with
  | pointer p1 => simp [POINTER_TYPE_P] at hl
  | integer p1 u1 =>
    simp only [max_signed_precision, TYPE_PRECISION, TYPE_UNSIGNED, if_true] at hle
    rw [hm]
    cases u1
    · simp only [Bool.false_eq_true, if_false] at hle
      exact ⟨rfl, representable_signed_of_signed p1 m a (by split at hle <;> omega) ha,
        representable_signed_zero m (by split at hle <;> omega)⟩
    · simp only [if_true] at hle
      exact ⟨rfl, representable_signed_of_unsigned p1 m a (by split at hle <;> omega) ha,
        representable_signed_zero m (by split at hle <;> omega)⟩

theorem int_fdiv_between (a d : Int) (hd : 0 < d) :
    min a 0 ≤ Int.fdiv a d ∧ Int.fdiv a d ≤ max a 0 := by
  rw [Int.fdiv_eq_ediv a (le_of_lt hd)]
  rcases le_or_lt 0 a with ha | ha
  · rw [min_eq_right ha, max_eq_left ha]
    exact ⟨Int.ediv_nonneg ha (le_of_lt hd), Int.ediv_le_self d ha⟩
  · rw [min_eq_left (le_of_lt ha), max_eq_right (le_of_lt ha)]
    refine ⟨Int.le_ediv_of_mul_le hd ?_, le_of_lt (Int.ediv_neg' ha hd)⟩
    nlinarith

theorem int_cdiv_between (a d : Int) (hd : 0 < d) :
    min a 0 ≤ -(Int.fdiv (-a) d) ∧ -(Int.fdiv (-a) d) ≤ max a 0 := by
  have h := int_fdiv_between (-a) d hd
  rcases le_or_lt 0 a with ha | ha
  · rw [min_eq_right ha, max_eq_left ha]
    rw [min_eq_left (by omega : -a ≤ 0), max_eq_right (by omega : -a ≤ 0)] at h
    omega
  · rw [min_eq_left (le_of_lt ha), max_eq_right (le_of_lt ha)]
    rw [min_eq_right (by omega : 0 ≤ -a), max_eq_left (by omega : 0 ≤ -a)] at h
    omega

theorem int_tdiv_tmod_between (a d : Int) (hd : 0 < d) :
    (min a 0 ≤ Int.tdiv a d ∧ Int.tdiv a d ≤ max a 0) ∧
    (min a 0 ≤ Int.tmod a d ∧ Int.tmod a d ≤ max a 0) := by
  obtain ⟨k, rfl⟩ := Int.eq_ofNat_of_zero_le (le_of_lt hd)
  cases a with
  | ofNat n =>
    have h1 : (n / k : Nat) ≤ n := Nat.div_le_self n k
    have h2 : (n % k : Nat) ≤ n := Nat.mod_le n k
    have e1 : Int.tdiv (Int.ofNat n) (k : Int) = ((n / k : Nat) : Int) := rfl
    have e2 : Int.tmod (Int.ofNat n) (k : Int) = ((n % k : Nat) : Int) := rfl
    rw [e1, e2]
    generalize n / k = q at h1
    generalize n % k = r at h2
    have hn : (0 : Int) ≤ Int.ofNat n := Int.ofNat_nonneg n
    rw [min_eq_right hn, max_eq_left hn]
    simp only [Int.ofNat_eq_coe]
    omega
  | negSucc n =>
    have h1 : ((n + 1) / k : Nat) ≤ n + 1 := Nat.div_le_self _ k
    have h2 : ((n + 1) % k : Nat) ≤ n + 1 := Nat.mod_le _ k
    have e1 : Int.tdiv (Int.negSucc n) (k : Int) = -(((n + 1) / k : Nat) : Int) := rfl
    have e2 : Int.tmod (Int.negSucc n) (k : Int) = -(((n + 1) % k : Nat) : Int) := rfl
    rw [e1, e2]
    generalize (n + 1) / k = q at h1
    generalize (n + 1) % k = r at h2
    have hn : Int.negSucc n ≤ 0 := by rw [Int.negSucc_eq]; omega
    rw [min_eq_left hn, max_eq_right hn, Int.negSucc_eq]
    omega

theorem clast_expr_value_red_mem (env : String → Int) (rtype : clast_red_type)
    (elts : List clast_expr) (hne : elts ≠ [])
    (h : rtype ≠ .clast_red_sum ∨ elts.length ≤ 1) :
    ∃ e ∈ elts, clast_expr_value_red env rtype elts = clast_expr_value env e := by
  induction elts with
  | nil => exact absurd rfl hne
  | cons e rest ih =>
    cases rest with
    | nil => exact ⟨e, List.mem_cons_self _ _, by simp [clast_expr_value_red]⟩
    | cons e2 rest2 =>
      have hs : rtype ≠ .clast_red_sum := by
        rcases h with h | h
        · exact h
        · simp at h
      obtain ⟨x, hx, hv⟩ := ih (by simp) (Or.inl hs)
      cases rtype with
      | clast_red_sum => exact absurd rfl hs
      | clast_red_min =>
        rw [clast_expr_value_red]
        rcases le_total (clast_expr_value env e)
            (clast_expr_value_red env .clast_red_min (e2 :: rest2)) with hle | hle
        · exact ⟨e, List.mem_cons_self _ _, min_eq_left hle⟩
        · exact ⟨x, List.mem_cons_of_mem _ hx, by rw [min_eq_right hle, hv]⟩
      | clast_red_max =>
        rw [clast_expr_value_red]
        rcases le_total (clast_expr_value env e)
            (clast_expr_value_red env .clast_red_max (e2 :: rest2)) with hle | hle
        · exact ⟨x, List.mem_cons_of_mem _ hx, by rw [max_eq_right hle, hv]⟩
        · exact ⟨e, List.mem_cons_self _ _, max_eq_left hle⟩

theorem flag_clear_of_clear (e e' : Bool) (h : e = true → e' = true) (he' : e' = false) :
    e = false := by
  cases e with
  | false => rfl
  | true => rw [h rfl] at he'; exact absurd he' (by simp)

mutual
theorem gcc_type_for_clast_expr_covers (tg : Target) (ip : ivs_params) (env : String → Int)
    (hvars : ∀ var name, clast_name_to_gcc var ip = some name →
      POINTER_TYPE_P (TREE_TYPE name) = false ∧ representable (TREE_TYPE name) (env var)) :
    ∀ (x : clast_expr) (type : GccType),
      clast_expr_is_range_safe x = true → clast_expr_joins_without_tie tg ip x = true →
      gcc_type_for_clast_expr tg x ip false = some (type, false) →
      POINTER_TYPE_P type = false ∧ representable type (clast_expr_value env x)
  | .clast_expr_term none val, type, hs, _, h => by
    rw [gcc_type_for_clast_expr, gcc_type_for_clast_term] at h
    rw [clast_expr_is_range_safe] at hs
    have h0 : 0 ≤ val := of_decide_eq_true hs
    obtain ⟨_, ⟨m, hm, _⟩, hr⟩ := gcc_type_for_value_clear tg val type false h0 h
    rw [clast_expr_value]
    exact ⟨by rw [hm]; rfl, hr⟩
  | .clast_expr_term (some var) val, type, hs, _, h => by
    rw [gcc_type_for_clast_expr, gcc_type_for_clast_term] at h
    rw [clast_expr_is_range_safe] at hs
    have h1 : val = 1 := of_decide_eq_true hs
    split at h
    · exact absurd h (by simp)
    · rename_i name hname
      simp only [Option.some.injEq, Prod.mk.injEq] at h
      have hv := hvars var name hname
      rw [clast_expr_value, h1, one_mul, ← h.1]
      exact hv
  | .clast_expr_red rtype elts, type, hs, ht, h => by
    rw [gcc_type_for_clast_expr] at h
    rw [clast_expr_is_range_safe] at hs
    rw [clast_expr_joins_without_tie] at ht
    simp only [Bool.and_eq_true, Bool.or_eq_true, decide_eq_true_eq] at hs
    have hne : elts ≠ [] := by
      intro he
      rw [he, gcc_type_for_clast_red] at h
      exact absurd h (by simp)
    obtain ⟨hp, hall⟩ := gcc_type_for_clast_red_covers tg ip env hvars elts type hs.1 ht h
    obtain ⟨x, hx, hv⟩ := clast_expr_value_red_mem env rtype elts hne hs.2
    rw [clast_expr_value, hv]
    exact ⟨hp, hall x hx⟩
  | .clast_expr_bin btype lhs rhs, type, hs, ht, h => by
    rw [gcc_type_for_clast_expr] at h
    rw [clast_expr_is_range_safe] at hs
    rw [clast_expr_joins_without_tie] at ht
    simp only [Bool.and_eq_true, decide_eq_true_eq] at hs
    split at h
    · exact absurd h (by simp)
    · rename_i l e1 h1
      split at h
      · exact absurd h (by simp)
      · rename_i r e2 h2
        have he2 : e2 = false :=
          flag_clear_of_clear e2 false
            (fun he => max_signed_precision_type_flag _ _ _ _ _ _ h he) rfl
        subst he2
        obtain ⟨he1, ⟨m2, hm2, hm2pos⟩, _⟩ :=
          gcc_type_for_value_clear tg rhs r e1 (le_of_lt hs.1) h2
        subst he1
        obtain ⟨hlp, hla⟩ :=
          gcc_type_for_clast_expr_covers tg ip env hvars lhs l hs.2 ht h1
        obtain ⟨hp, hra, hr0⟩ :=
          max_signed_precision_type_covers_quotient tg l r type false _ m2 hlp hla hm2 hm2pos h
        refine ⟨hp, ?_⟩
        cases btype with
        | clast_bin_fdiv =>
          rw [clast_expr_value]
          have hb := int_fdiv_between (clast_expr_value env lhs) rhs hs.1
          exact representable_between type _ 0 _ hra hr0 hb.1 hb.2
        | clast_bin_cdiv =>
          rw [clast_expr_value]
          have hb := int_cdiv_between (clast_expr_value env lhs) rhs hs.1
          exact representable_between type _ 0 _ hra hr0 hb.1 hb.2
        | clast_bin_div =>
          rw [clast_expr_value]
          have hb := (int_tdiv_tmod_between (clast_expr_value env lhs) rhs hs.1).1
          exact representable_between type _ 0 _ hra hr0 hb.1 hb.2
        | clast_bin_mod =>
          rw [clast_expr_value]
          have hb := (int_tdiv_tmod_between (clast_expr_value env lhs) rhs hs.1).2
          exact representable_between type _ 0 _ hra hr0 hb.1 hb.2
theorem gcc_type_for_clast_red_covers (tg : Target) (ip : ivs_params) (env : String → Int)
    (hvars : ∀ var name, clast_name_to_gcc var ip = some name →
      POINTER_TYPE_P (TREE_TYPE name) = false ∧ representable (TREE_TYPE name) (env var)) :
    ∀ (elts : List clast_expr) (type : GccType),
      clast_expr_is_range_safe_list elts = true →
      clast_expr_joins_without_tie_red tg ip elts = true →
      gcc_type_for_clast_red tg elts ip false = some (type, false) →
      POINTER_TYPE_P type = false ∧
        ∀ x ∈ elts, representable type (clast_expr_value env x)
  | [], type, _, _, h => by
    rw [gcc_type_for_clast_red] at h
    exact absurd h (by simp)
  | x :: rest, type, hs, ht, h => by
    rw [gcc_type_for_clast_red] at h
    rw [clast_expr_is_range_safe_list] at hs
    rw [clast_expr_joins_without_tie_red] at ht
    simp only [Bool.and_eq_true] at hs ht
    split at h
    · exact absurd h (by simp)
    · rename_i t e1 h1
      have he1 : e1 = false :=
        flag_clear_of_clear e1 false
          (fun he => gcc_type_for_clast_red_loop_flag tg rest t ip e1 false type h he) rfl
      subst he1
      have ht2 := ht.2
      rw [h1] at ht2
      simp only at ht2
      obtain ⟨htp, htv⟩ := gcc_type_for_clast_expr_covers tg ip env hvars x t hs.1 ht.1 h1
      obtain ⟨hp, hcov, hall⟩ :=
        gcc_type_for_clast_red_loop_covers tg ip env hvars rest t type _ hs.2 ht2 htp htv h
      refine ⟨hp, fun y hy => ?_⟩
      rcases List.mem_cons.1 hy with e | hm
      · rw [e]; exact hcov _ htv
      · exact hall y hm
theorem gcc_type_for_clast_red_loop_covers (tg : Target) (ip : ivs_params)
    (env : String → Int)
    (hvars : ∀ var name, clast_name_to_gcc var ip = some name →
      POINTER_TYPE_P (TREE_TYPE name) = false ∧ representable (TREE_TYPE name) (env var)) :
    ∀ (elts : List clast_expr) (running type : GccType) (v0 : Int),
      clast_expr_is_range_safe_list elts = true →
      clast_expr_joins_without_tie_red_loop tg ip elts running = true →
      POINTER_TYPE_P running = false → representable running v0 →
      gcc_type_for_clast_red_loop tg elts running ip false = some (type, false) →
      POINTER_TYPE_P type = false ∧
        (∀ v, representable running v → representable type v) ∧
        ∀ x ∈ elts, representable type (clast_expr_value env x)
  | [], running, type, v0, _, _, hrp, _, h => by
    rw [gcc_type_for_clast_red_loop] at h
    simp only [Option.some.injEq, Prod.mk.injEq] at h
    rw [← h.1]
    exact ⟨hrp, fun _ hv => hv, fun _ hx => by cases hx⟩
  | x :: rest, running, type, v0, hs, ht, hrp, hrv, h => by
    rw [gcc_type_for_clast_red_loop] at h
    rw [clast_expr_is_range_safe_list] at hs
    rw [clast_expr_joins_without_tie_red_loop] at ht
    simp only [Bool.and_eq_true] at hs ht
    split at h
    · exact absurd h (by simp)
    · rename_i t e1 h1
      split at h
      · exact absurd h (by simp)
      · rename_i r2 e2 h2
        have he2 : e2 = false :=
          flag_clear_of_clear e2 false
            (fun he => gcc_type_for_clast_red_loop_flag tg rest r2 ip e2 false type h he) rfl
        subst he2
        have he1 : e1 = false :=
          flag_clear_of_clear e1 false
            (fun he => max_precision_type_flag _ _ _ _ _ _ h2 he) rfl
        subst he1
        have ht2 := ht.2
        rw [h1] at ht2
        simp only [Bool.and_eq_true, Bool.not_eq_true'] at ht2
        have ht3 := ht2.2
        rw [h2] at ht3
        simp only at ht3
        obtain ⟨htp, htv⟩ := gcc_type_for_clast_expr_covers tg ip env hvars x t hs.1 ht.1 h1
        obtain ⟨hr2p, hcov2⟩ :=
          max_precision_type_covers tg running t r2 false v0 hrp htp ht2.1 h2 hrv
        obtain ⟨hp, hcov, hall⟩ :=
          gcc_type_for_clast_red_loop_covers tg ip env hvars rest r2 type v0 hs.2 ht3 hr2p
            (hcov2 v0 (Or.inl hrv)) h
        refine ⟨hp, fun v hv => hcov v (hcov2 v (Or.inl hv)), fun y hy => ?_⟩
        rcases List.mem_cons.1 hy with e | hm
        · rw [e]; exact hcov _ (hcov2 _ (Or.inr htv))
        · exact hall y hm
end

theorem copied_statements_append (a b : List cfg_event) :
    copied_statements (a ++ b) = copied_statements a ++ copied_statements b := by
  induction a with
  | nil => rfl
  | cons x rest ih =>
    cases x <;> simp [copied_statements, ih]

theorem graphite_create_new_loop_guard_copied (tg : Target) (co : Collaborators)
    (entry_edge : Nat) (stmt : clast_for) (level : Nat) (st st' : gloog_state) (g : loop_guard)
    (h : graphite_create_new_loop_guard tg co entry_edge stmt level st = some (g, st')) :
    copied_statements st'.cfg = copied_statements st.cfg := by
  obtain ⟨_, _, _, _, _, _, _, _, _, _, _, _, _, _, hst⟩ :=
    graphite_create_new_loop_guard_inv _ _ _ _ _ _ _ _ h
  rw [hst]
  simp [copied_statements_append, copied_statements]

theorem graphite_create_new_guard_copied (tg : Target) (entry_edge : Nat)
    (eq : List clast_equation) (st st' : gloog_state) (r : Nat)
    (h : graphite_create_new_guard tg entry_edge eq st = some (r, st')) :
    copied_statements st'.cfg = copied_statements st.cfg := by
  unfold graphite_create_new_guard at h
  split at h
  · exact absurd h (by simp)
  · exact absurd h (by simp)
  · simp only [create_empty_if_region_on_edge, Option.some.injEq, Prod.mk.injEq] at h
    rw [← h.2]
    simp [copied_statements_append, copied_statements]

theorem translate_clast_user_copied (tg : Target) (co : Collaborators) (stmt : clast_user_stmt)
    (next_e : Nat) (st st' : gloog_state) (r : Nat)
    (h : translate_clast_user tg co stmt next_e st = some (r, st')) :
    copied_statements st'.cfg = copied_statements st.cfg
      ++ [stmt.statement].filter (fun pbb => !co.GBB_BB_is_entry_block pbb) := by
  unfold translate_clast_user at h
  simp only at h
  split at h
  · rename_i hentry
    simp only [Option.some.injEq, Prod.mk.injEq] at h
    rw [← h.2]
    simp [hentry]
  · rename_i hentry
    split at h
    · exact absurd h (by simp)
    · simp only [Option.some.injEq, Prod.mk.injEq] at h
      rw [← h.2]
      simp [copied_statements_append, copied_statements, hentry]

theorem graphite_create_new_loop_copied (entry_edge : Nat) (stmt : clast_for)
    (outer : Option Nat) (type : GccType) (lb ub : tree) (level : Nat)
    (st st' : gloog_state) (r : Nat)
    (h : graphite_create_new_loop entry_edge stmt outer type lb ub level st = some (r, st')) :
    copied_statements st'.cfg = copied_statements st.cfg := by
  unfold graphite_create_new_loop at h
  simp only at h
  split at h
  · exact absurd h (by simp)
  · simp only [Option.some.injEq, Prod.mk.injEq] at h
    rw [← h.2]
    simp [copied_statements_append, copied_statements]

theorem translate_clast_for_loop_copied (co : Collaborators)
    (translate_body : Option Nat → Nat → Nat → gloog_state → Option (Nat × gloog_state))
    (visited : List Nat)
    (hbody : ∀ loop e lvl s r s', translate_body loop e lvl s = some (r, s') →
      copied_statements s'.cfg = copied_statements s.cfg ++ visited)
    (context_loop : Option Nat) (stmt : clast_for) (next_e level : Nat)
    (type : GccType) (lb ub : tree) (st st' : gloog_state) (r : Nat)
    (h : translate_clast_for_loop co translate_body context_loop stmt next_e level type lb ub st
      = some (r, st')) :
    copied_statements st'.cfg = copied_statements st.cfg ++ visited := by
  unfold translate_clast_for_loop at h
  split at h
  · exact absurd h (by simp)
  · rename_i loop st1 h1
    have he1 := graphite_create_new_loop_copied _ _ _ _ _ _ _ _ _ _ h1
    simp only at h
    split at h
    · exact absurd h (by simp)
    · rename_i e2 st2 h2
      have he2 := hbody _ _ _ _ _ _ h2
      simp only at he2
      simp only [Option.some.injEq, Prod.mk.injEq] at h
      rw [← h.2]
      split <;>
        simp [copied_statements_append, copied_statements, he2, he1]

theorem translate_clast_for_copied (tg : Target) (co : Collaborators)
    (translate_body : Option Nat → Nat → Nat → gloog_state → Option (Nat × gloog_state))
    (visited : List Nat)
    (hbody : ∀ loop e lvl s r s', translate_body loop e lvl s = some (r, s') →
      copied_statements s'.cfg = copied_statements s.cfg ++ visited)
    (context_loop : Option Nat) (stmt : clast_for) (next_e level : Nat)
    (st st' : gloog_state) (r : Nat)
    (h : translate_clast_for tg co translate_body context_loop stmt next_e level st
      = some (r, st')) :
    copied_statements st'.cfg = copied_statements st.cfg ++ visited := by
  unfold translate_clast_for at h
  split at h
  · exact absurd h (by simp)
  · rename_i g st1 h1
    have he1 := graphite_create_new_loop_guard_copied _ _ _ _ _ _ _ _ h1
    simp only at h
    split at h
    · exact absurd h (by simp)
    · rename_i e2 st2 h2
      have he2 := translate_clast_for_loop_copied co translate_body visited hbody
        _ _ _ _ _ _ _ _ _ _ h2
      simp only [Option.some.injEq, Prod.mk.injEq] at h
      rw [← h.2, he2, he1]

theorem translate_clast_guard_copied (tg : Target)
    (translate_then : Nat → gloog_state → Option (Nat × gloog_state))
    (visited : List Nat)
    (hthen : ∀ e s r s', translate_then e s = some (r, s') →
      copied_statements s'.cfg = copied_statements s.cfg ++ visited)
    (eq : List clast_equation) (next_e : Nat) (st st' : gloog_state) (r : Nat)
    (h : translate_clast_guard tg translate_then eq next_e st = some (r, st')) :
    copied_statements st'.cfg = copied_statements st.cfg ++ visited := by
  unfold translate_clast_guard at h
  split at h
  · exact absurd h (by simp)
  · rename_i e1 st1 h1
    have he1 := graphite_create_new_guard_copied _ _ _ _ _ _ h1
    simp only at h
    split at h
    · exact absurd h (by simp)
    · rename_i e2 st2 h2
      have he2 := hthen _ _ _ _ h2
      simp only [Option.some.injEq, Prod.mk.injEq] at h
      rw [← h.2, he2, he1]

theorem translate_clast_copied (tg : Target) (co : Collaborators) (stmt : clast_stmt) :
    ∀ (context_loop : Option Nat) (next_e level : Nat) (st st' : gloog_state) (r : Nat),
      translate_clast tg co context_loop stmt next_e level st = some (r, st') →
      copied_statements st'.cfg = copied_statements st.cfg
        ++ (clast_user_statements stmt).filter (fun pbb => !co.GBB_BB_is_entry_block pbb) := by
  induction stmt with
  | null =>
    intro context_loop next_e level st st' r h
    rw [translate_clast] at h
    simp only [Option.some.injEq, Prod.mk.injEq] at h
    rw [← h.2]
    simp [clast_user_statements]
  | stmt_root next ih =>
    intro context_loop next_e level st st' r h
    rw [translate_clast] at h
    simpa [clast_user_statements] using ih _ _ _ _ _ _ h
  | stmt_user statement substitutions next ih =>
    intro context_loop next_e level st st' r h
    rw [translate_clast] at h
    split at h
    · exact absurd h (by simp)
    · rename_i e1 st1 h1
      rw [ih _ _ _ _ _ _ h, translate_clast_user_copied _ _ _ _ _ _ _ h1]
      simp only [clast_user_statements, List.filter_cons, List.filter_nil, List.append_assoc]
      cases co.GBB_BB_is_entry_block statement <;> simp
  | stmt_for iterator LB UB stride body next ihb ihn =>
    intro context_loop next_e level st st' r h
    rw [translate_clast] at h
    split at h
    · exact absurd h (by simp)
    · rename_i e1 st1 h1
      rw [ihn _ _ _ _ _ _ h,
        translate_clast_for_copied tg co _ _ (fun loop e lvl s r s' => ihb loop e lvl s s' r)
          _ _ _ _ _ _ _ h1]
      simp [clast_user_statements]
  | stmt_guard eq then_ next iht ihn =>
    intro context_loop next_e level st st' r h
    rw [translate_clast] at h
    split at h
    · exact absurd h (by simp)
    · rename_i e1 st1 h1
      rw [ihn _ _ _ _ _ _ h,
        translate_clast_guard_copied tg _ _ (fun e s r s' => iht context_loop e level s s' r)
          _ _ _ _ _ h1]
      simp [clast_user_statements]
  | stmt_block body next ihb ihn =>
    intro context_loop next_e level st st' r h
    rw [translate_clast] at h
    split at h
    · exact absurd h (by simp)
    · rename_i e1 st1 h1
      rw [ihn _ _ _ _ _ _ h, ihb _ _ _ _ _ _ h1]
      simp [clast_user_statements]

/-- C29: `translate_clast` is defined by recursion on the statement list, each
call on a part of the list it was called on, so it ends on every list; and when
it returns, the statements it has copied into the control-flow graph are, after
those copied before the call, the user statements of the list in left-to-right
pre-order, each one once: the body of a loop, guard or block before the next
sibling of that node. A user statement of the entry block is visited in its
place in that order and nothing is copied for it. -/
theorem translate_clast_pre_order (tg : Target) (co : Collaborators) (stmt : clast_stmt)
    (context_loop : Option Nat) (next_e level : Nat) (st st' : gloog_state) (r : Nat)
    (h : translate_clast tg co context_loop stmt next_e level st = some (r, st')) :
    copied_statements st'.cfg = copied_statements st.cfg
      ++ (clast_user_statements stmt).filter (fun pbb => !co.GBB_BB_is_entry_block pbb) ∧
    ((∀ pbb, co.GBB_BB_is_entry_block pbb = false) →
      copied_statements st'.cfg = copied_statements st.cfg ++ clast_user_statements stmt ∧
      (copied_statements st'.cfg).length
        = (copied_statements st.cfg).length + (clast_user_statements stmt).length) := by
  have hc := translate_clast_copied tg co stmt context_loop next_e level st st' r h
  refine ⟨hc, fun hentry => ?_⟩
  have hf : (clast_user_statements stmt).filter (fun pbb => !co.GBB_BB_is_entry_block pbb)
      = clast_user_statements stmt := by
    rw [List.filter_eq_self]
    intro pbb _
    simp [hentry pbb]
  rw [hf] at hc
  exact ⟨hc, by rw [hc, List.length_append]⟩

/-- Witness for C29: the walk of the example list, a loop around the statement 7
and a guarded statement 8, then a block with the statement 9, then the
statement 10, returns and copies the four statements in that order. -/
theorem translate_clast_pre_order_witness :
    ∃ r st', translate_clast x86_64 example_collaborators none example_nest 0 0 example_state
        = some (r, st') ∧
      copied_statements st'.cfg = [7, 8, 9, 10] :=
  match h : translate_clast x86_64 example_collaborators none example_nest 0 0 example_state with
  | some (r, st') =>
    ⟨r, st', rfl,
      ((translate_clast_pre_order x86_64 example_collaborators example_nest none 0 0
        example_state st' r h).2 (fun _ => rfl)).1.trans (by decide)⟩
  | none =>
    absurd (congrArg Option.isSome h) (by decide)

/-! ## The level at which a loop is translated -/

theorem level_after_append (name : String) (a b : List (String × Nat)) (before : Int) :
    level_after name (a ++ b) before = level_after name b (level_after name a before) := by
  induction a generalizing before with
  | nil => rfl
  | cons x rest ih =>
    obtain ⟨iterator, level⟩ := x
    rw [List.cons_append]
    simp only [level_after]
    exact ih _

theorem level_after_of_not_mem (name : String) (a : List (String × Nat)) (before : Int)
    (h : name ∉ a.map Prod.fst) : level_after name a before = before := by
  induction a generalizing before with
  | nil => rfl
  | cons x rest ih =>
    obtain ⟨iterator, level⟩ := x
    simp only [List.map_cons, List.mem_cons, not_or] at h
    have hne : ¬ iterator = name := fun e => h.1 e.symm
    simp only [level_after, hne, if_false, ih before h.2]

theorem level_after_of_mem (name : String) (d : Nat) (a : List (String × Nat)) (before : Int)
    (hn : (a.map Prod.fst).Nodup) (h : (name, d) ∈ a) : level_after name a before = d := by
  induction a generalizing before with
  | nil => cases h
  | cons x rest ih =>
    obtain ⟨iterator, level⟩ := x
    simp only [List.map_cons, List.nodup_cons] at hn
    rcases List.mem_cons.1 h with h1 | h1
    · simp only [Prod.mk.injEq] at h1
      obtain ⟨h1a, h1b⟩ := h1
      subst h1a; subst h1b
      simp only [level_after, if_true]
      exact level_after_of_not_mem _ _ _ hn.1
    · simp only [level_after]
      exact ih _ hn.2 h1

theorem graphite_create_new_loop_levels (entry_edge : Nat) (stmt : clast_for)
    (outer : Option Nat) (type : GccType) (lb ub : tree) (level : Nat)
    (st st' : gloog_state) (r : Nat) (name : String)
    (h : graphite_create_new_loop entry_edge stmt outer type lb ub level st = some (r, st')) :
    st'.ip.newivs_index.map (clast_name_to_level name)
      = (st.ip.newivs_index.map (clast_name_to_level name)).map
          (level_after name [(stmt.iterator, level)]) := by
  unfold graphite_create_new_loop at h
  simp only at h
  split at h
  · exact absurd h (by simp)
  · rename_i idx hidx
    simp only [Option.some.injEq, Prod.mk.injEq] at h
    rw [← h.2, hidx]
    simp only [Option.map_some', Option.some.injEq, level_after]
    by_cases hn : stmt.iterator = name
    · have e := htab_find_slot_store idx
        (new_clast_name_index stmt.iterator (st.ip.newivs.getD []).length level)
      simp only [new_clast_name_index] at e
      simp only [hn] at e
      simp [clast_name_to_level, save_clast_name_index, new_clast_name_index, hn, e]
    · have hne : name ≠ stmt.iterator := fun e => hn e.symm
      have e := htab_find_slot_store_of_ne idx
        (new_clast_name_index stmt.iterator (st.ip.newivs.getD []).length level) name hne
      simp only [clast_name_to_level, save_clast_name_index, e, hn, if_false]

theorem translate_clast_for_loop_levels (co : Collaborators)
    (translate_body : Option Nat → Nat → Nat → gloog_state → Option (Nat × gloog_state))
    (name : String) (inner : Nat → List (String × Nat))
    (hbody : ∀ loop e lvl s r s', translate_body loop e lvl s = some (r, s') →
      s'.ip.newivs_index.map (clast_name_to_level name)
        = (s.ip.newivs_index.map (clast_name_to_level name)).map
            (level_after name (inner lvl)))
    (context_loop : Option Nat) (stmt : clast_for) (next_e level : Nat)
    (type : GccType) (lb ub : tree) (st st' : gloog_state) (r : Nat)
    (h : translate_clast_for_loop co translate_body context_loop stmt next_e level type lb ub st
      = some (r, st')) :
    st'.ip.newivs_index.map (clast_name_to_level name)
      = (st.ip.newivs_index.map (clast_name_to_level name)).map
          (level_after name ((stmt.iterator, level) :: inner (level + 1))) := by
  unfold translate_clast_for_loop at h
  split at h
  · exact absurd h (by simp)
  · rename_i loop st1 h1
    have he1 := graphite_create_new_loop_levels _ _ _ _ _ _ _ _ _ _ name h1
    simp only at h
    split at h
    · exact absurd h (by simp)
    · rename_i e2 st2 h2
      have he2 := hbody _ _ _ _ _ _ h2
      simp only at he2
      simp only [Option.some.injEq, Prod.mk.injEq] at h
      have e3 : st'.ip = st2.ip := by
        rw [← h.2]; split <;> rfl
      rw [e3, he2, he1, Option.map_map]
      congr 1

theorem translate_clast_for_levels (tg : Target) (co : Collaborators)
    (translate_body : Option Nat → Nat → Nat → gloog_state → Option (Nat × gloog_state))
    (name : String) (inner : Nat → List (String × Nat))
    (hbody : ∀ loop e lvl s r s', translate_body loop e lvl s = some (r, s') →
      s'.ip.newivs_index.map (clast_name_to_level name)
        = (s.ip.newivs_index.map (clast_name_to_level name)).map
            (level_after name (inner lvl)))
    (context_loop : Option Nat) (stmt : clast_for) (next_e level : Nat)
    (st st' : gloog_state) (r : Nat)
    (h : translate_clast_for tg co translate_body context_loop stmt next_e level st
      = some (r, st')) :
    st'.ip.newivs_index.map (clast_name_to_level name)
      = (st.ip.newivs_index.map (clast_name_to_level name)).map
          (level_after name ((stmt.iterator, level) :: inner (level + 1))) := by
  unfold translate_clast_for at h
  split at h
  · exact absurd h (by simp)
  · rename_i g st1 h1
    obtain ⟨_, _, _, _, _, _, _, _, _, _, _, _, _, _, hst⟩ :=
      graphite_create_new_loop_guard_inv _ _ _ _ _ _ _ _ h1
    have e1 : st1.ip = st.ip := by rw [hst]
    simp only at h
    split at h
    · exact absurd h (by simp)
    · rename_i e2 st2 h2
      have he2 := translate_clast_for_loop_levels co translate_body name inner hbody
        _ _ _ _ _ _ _ _ _ _ h2
      simp only [Option.some.injEq, Prod.mk.injEq] at h
      rw [← h.2, he2, e1]

theorem translate_clast_guard_levels (tg : Target)
    (translate_then : Nat → gloog_state → Option (Nat × gloog_state))
    (name : String) (inner : List (String × Nat))
    (hthen : ∀ e s r s', translate_then e s = some (r, s') →
      s'.ip.newivs_index.map (clast_name_to_level name)
        = (s.ip.newivs_index.map (clast_name_to_level name)).map (level_after name inner))
    (eq : List clast_equation) (next_e : Nat) (st st' : gloog_state) (r : Nat)
    (h : translate_clast_guard tg translate_then eq next_e st = some (r, st')) :
    st'.ip.newivs_index.map (clast_name_to_level name)
      = (st.ip.newivs_index.map (clast_name_to_level name)).map (level_after name inner) := by
  unfold translate_clast_guard at h
  split at h
  · exact absurd h (by simp)
  · rename_i e1 st1 h1
    have e1 : st1.ip = st.ip := by
      unfold graphite_create_new_guard at h1
      split at h1
      · exact absurd h1 (by simp)
      · exact absurd h1 (by simp)
      · simp only [create_empty_if_region_on_edge, Option.some.injEq, Prod.mk.injEq] at h1
        rw [← h1.2]
    simp only at h
    split at h
    · exact absurd h (by simp)
    · rename_i e2 st2 h2
      have he2 := hthen _ _ _ _ h2
      simp only [Option.some.injEq, Prod.mk.injEq] at h
      rw [← h.2, he2, e1]

theorem translate_clast_user_ip (tg : Target) (co : Collaborators) (stmt : clast_user_stmt)
    (next_e : Nat) (st st' : gloog_state) (r : Nat)
    (h : translate_clast_user tg co stmt next_e st = some (r, st')) : st'.ip = st.ip := by
  unfold translate_clast_user at h
  simp only at h
  split at h
  · simp only [Option.some.injEq, Prod.mk.injEq] at h
    rw [← h.2]
  · split at h
    · exact absurd h (by simp)
    · simp only [Option.some.injEq, Prod.mk.injEq] at h
      rw [← h.2]

theorem option_map_level_after_nil (name : String) (x : Option Int) :
    x.map (level_after name []) = x := by
  cases x <;> rfl

theorem option_map_level_after_append (name : String) (a b : List (String × Nat))
    (x : Option Int) :
    (x.map (level_after name a)).map (level_after name b) = x.map (level_after name (a ++ b)) := by
  cases x with
  | none => rfl
  | some v => simp [level_after_append]

theorem translate_clast_levels (tg : Target) (co : Collaborators) (name : String)
    (stmt : clast_stmt) :
    ∀ (context_loop : Option Nat) (next_e level : Nat) (st st' : gloog_state) (r : Nat),
      translate_clast tg co context_loop stmt next_e level st = some (r, st') →
      st'.ip.newivs_index.map (clast_name_to_level name)
        = (st.ip.newivs_index.map (clast_name_to_level name)).map
            (level_after name (clast_for_levels level stmt)) := by
  induction stmt with
  | null =>
    intro context_loop next_e level st st' r h
    rw [translate_clast] at h
    simp only [Option.some.injEq, Prod.mk.injEq] at h
    rw [← h.2, clast_for_levels, option_map_level_after_nil]
  | stmt_root next ih =>
    intro context_loop next_e level st st' r h
    rw [translate_clast] at h
    rw [clast_for_levels]
    exact ih _ _ _ _ _ _ h
  | stmt_user statement substitutions next ih =>
    intro context_loop next_e level st st' r h
    rw [translate_clast] at h
    split at h
    · exact absurd h (by simp)
    · rename_i e1 st1 h1
      rw [clast_for_levels, ih _ _ _ _ _ _ h, translate_clast_user_ip _ _ _ _ _ _ _ h1]
  | stmt_for iterator LB UB stride body next ihb ihn =>
    intro context_loop next_e level st st' r h
    rw [translate_clast] at h
    split at h
    · exact absurd h (by simp)
    · rename_i e1 st1 h1
      have hf := translate_clast_for_levels tg co _ name
        (fun lvl => clast_for_levels lvl body)
        (fun loop e lvl s r s' => ihb loop e lvl s s' r) _ _ _ _ _ _ _ h1
      rw [ihn _ _ _ _ _ _ h, hf, option_map_level_after_append, clast_for_levels]
      rfl
  | stmt_guard eq then_ next iht ihn =>
    intro context_loop next_e level st st' r h
    rw [translate_clast] at h
    split at h
    · exact absurd h (by simp)
    · rename_i e1 st1 h1
      have hg := translate_clast_guard_levels tg _ name (clast_for_levels level then_)
        (fun e s r s' => iht context_loop e level s s' r) _ _ _ _ _ h1
      rw [ihn _ _ _ _ _ _ h, hg, option_map_level_after_append, clast_for_levels]
  | stmt_block body next ihb ihn =>
    intro context_loop next_e level st st' r h
    rw [translate_clast] at h
    split at h
    · exact absurd h (by simp)
    · rename_i e1 st1 h1
      rw [ihn _ _ _ _ _ _ h, ihb _ _ _ _ _ _ h1, option_map_level_after_append,
        clast_for_levels]

/-- C31: the level that `translate_clast` hands on is the one it was called with
plus the number of loops around the node: when the walk of a list returns, the
level recorded in the registry of induction variables for a name is the one
recorded, one after the other in pre-order, by the loops of the list, each
with the level of the call plus the number of loops around it; a guard, a block
and a next sibling add nothing. With iterators that are all different, each loop
is found with that level at the end. `gloog` starts the walk at level 0 with an
empty registry. -/
theorem translate_clast_level_is_loop_depth (tg : Target) (co : Collaborators)
    (stmt : clast_stmt) (context_loop : Option Nat) (next_e level : Nat)
    (st st' : gloog_state) (r : Nat)
    (h : translate_clast tg co context_loop stmt next_e level st = some (r, st')) :
    (∀ name, st'.ip.newivs_index.map (clast_name_to_level name)
      = (st.ip.newivs_index.map (clast_name_to_level name)).map
          (level_after name (clast_for_levels level stmt))) ∧
    (((clast_for_levels level stmt).map Prod.fst).Nodup →
      ∀ iterator depth, (iterator, depth) ∈ clast_for_levels level stmt →
        st'.ip.newivs_index.map (clast_name_to_level iterator)
          = st.ip.newivs_index.map (fun _ => (depth : Int))) ∧
    (∀ (sc : scop) (s : gloog_state) (name : String),
      (gloog tg co sc s).map (fun x => x.2.ip.newivs_index.map (clast_name_to_level name))
        = (gloog tg co sc s).map
            (fun _ => some (level_after name (clast_for_levels 0 sc.stmt) (-1)))) := by
  have hl := fun name =>
    translate_clast_levels tg co name stmt context_loop next_e level st st' r h
  refine ⟨hl, fun hn iterator depth hm => ?_, fun sc s name => ?_⟩
  · rw [hl iterator, Option.map_map]
    congr 1
    funext idx
    exact level_after_of_mem iterator depth _ _ hn hm
  · unfold gloog
    simp only
    split
    · rfl
    · rename_i e s' hw
      have hs := translate_clast_levels tg co name _ _ _ _ _ _ _ hw
      simp only [Option.map_some', Option.some.injEq]
      have e1 : (if s'.gloog_error = true then
            { s' with cfg := s'.cfg ++ [cfg_event.ifsese_condition (integer_zero_node tg)] }
          else s').ip = s'.ip := by
        split <;> rfl
      rw [e1, hs]
      rfl

/-- Witness for C31: in the example list the loops `i` and `m` are at the top,
the loop `j` is in a guard and the loop `k` in a block, both inside the loop
`i`; the levels found at the end of the walk from level 0 are 0 for `i` and `m`
and 1 for `j` and `k`. -/
theorem translate_clast_level_is_loop_depth_witness :
    clast_for_levels 0 example_loops = [("i", 0), ("j", 1), ("k", 1), ("m", 0)] ∧
    ∃ r st', translate_clast x86_64 example_collaborators none example_loops 0 0 example_state
        = some (r, st') ∧
      st'.ip.newivs_index.map (clast_name_to_level "j") = some 1 ∧
      st'.ip.newivs_index.map (clast_name_to_level "k") = some 1 ∧
      st'.ip.newivs_index.map (clast_name_to_level "m") = some 0 :=
  ⟨by decide,
   match h : translate_clast x86_64 example_collaborators none example_loops 0 0
       example_state with
   | some (r, st') =>
     ⟨r, st', rfl,
      ((translate_clast_level_is_loop_depth x86_64 example_collaborators example_loops none 0 0
        example_state st' r h).2.1 (by decide) "j" 1 (by decide)).trans rfl,
      ((translate_clast_level_is_loop_depth x86_64 example_collaborators example_loops none 0 0
        example_state st' r h).2.1 (by decide) "k" 1 (by decide)).trans rfl,
      ((translate_clast_level_is_loop_depth x86_64 example_collaborators example_loops none 0 0
        example_state st' r h).2.1 (by decide) "m" 0 (by decide)).trans rfl⟩
   | none => absurd (congrArg Option.isSome h) (by decide)⟩

/-! ## The flag is never cleared by the translation -/

/-- C32: each operation of the type inference, of the translation of
expressions, of the construction of guards and of the walk that returns after a
call made with `gloog_error` set returns with `gloog_error` set; `gloog` alone
clears the flag, on entry, so that its result is the same whether it is called
with the flag set or clear. -/
theorem gloog_error_is_never_cleared (tg : Target) (co : Collaborators) :
    (∀ type1 type2 type e', max_signed_precision_type tg type1 type2 true = some (type, e') →
      e' = true) ∧
    (∀ type1 type2 type e', max_precision_type tg type1 type2 true = some (type, e') →
      e' = true) ∧
    (∀ v1 v2 type e', gcc_type_for_interval tg v1 v2 true = some (type, e') → e' = true) ∧
    (∀ val type e', gcc_type_for_value tg val true = some (type, e') → e' = true) ∧
    (∀ x ip type e', gcc_type_for_clast_expr tg x ip true = some (type, e') → e' = true) ∧
    (∀ stmt level lb_type ub_type type e',
      gcc_type_for_iv_of_clast_loop tg co stmt level lb_type ub_type true = some (type, e') →
      e' = true) ∧
    (∀ type x ip r e', clast_to_gcc_expression tg type x ip true = some (r, e') → e' = true) ∧
    (∀ cleq ip r e', graphite_translate_clast_equation tg cleq ip true = some (r, e') →
      e' = true) ∧
    (∀ eq cond ip r e', graphite_create_guard_cond_expr tg eq cond ip true = some (r, e') →
      e' = true) ∧
    (∀ entry_edge eq st r st', st.gloog_error = true →
      graphite_create_new_guard tg entry_edge eq st = some (r, st') →
      st'.gloog_error = true) ∧
    (∀ entry_edge stmt level st g st', st.gloog_error = true →
      graphite_create_new_loop_guard tg co entry_edge stmt level st = some (g, st') →
      st'.gloog_error = true) ∧
    (∀ entry_edge stmt outer type lb ub level st r st', st.gloog_error = true →
      graphite_create_new_loop entry_edge stmt outer type lb ub level st = some (r, st') →
      st'.gloog_error = true) ∧
    (∀ stmt next_e st r st', st.gloog_error = true →
      translate_clast_user tg co stmt next_e st = some (r, st') → st'.gloog_error = true) ∧
    (∀ context_loop stmt next_e level st r st', st.gloog_error = true →
      translate_clast tg co context_loop stmt next_e level st = some (r, st') →
      st'.gloog_error = true) ∧
    (∀ (sc : scop) (st : gloog_state), gloog tg co sc { st with gloog_error := true }
      = gloog tg co sc { st with gloog_error := false }) :=
  ⟨fun _ _ _ _ h => max_signed_precision_type_flag tg _ _ _ _ _ h rfl,
   fun _ _ _ _ h => max_precision_type_flag tg _ _ _ _ _ h rfl,
   fun _ _ _ _ h => gcc_type_for_interval_flag tg _ _ _ _ _ h rfl,
   fun _ _ _ h => gcc_type_for_interval_flag tg _ _ _ _ _ h rfl,
   fun _ _ _ _ h => gcc_type_for_clast_expr_flag tg _ _ _ _ _ h rfl,
   fun _ _ _ _ _ _ h => gcc_type_for_iv_of_clast_loop_flag tg co _ _ _ _ _ _ _ h rfl,
   fun _ _ _ _ _ h => clast_to_gcc_expression_flag tg _ _ _ _ _ _ h rfl,
   fun _ _ _ _ h => graphite_translate_clast_equation_flag tg _ _ _ _ _ h rfl,
   fun _ _ _ _ _ h => graphite_create_guard_cond_expr_flag tg _ _ _ _ _ _ h rfl,
   fun _ _ _ _ _ he h => graphite_create_new_guard_flag tg _ _ _ _ _ h he,
   fun _ _ _ _ _ _ he h => graphite_create_new_loop_guard_flag tg co _ _ _ _ _ _ h he,
   fun _ _ _ _ _ _ _ _ _ _ he h =>
     (graphite_create_new_loop_flag _ _ _ _ _ _ _ _ _ _ h).trans he,
   fun _ _ _ _ _ he h => translate_clast_user_flag tg co _ _ _ _ _ h he,
   fun _ _ _ _ _ _ _ he h => translate_clast_flag tg co _ _ _ _ _ _ _ h he,
   fun _ _ => rfl⟩

/-- Witness for C32: the join of two signed 32-bit types and the type of the
literal `5`, asked for with the flag set, come back with the flag set; the walk
of the example list started with the flag set ends with the flag set; `gloog`
on the example ends with the flag clear although it was set before the call. -/
theorem gloog_error_is_never_cleared_witness :
    max_signed_precision_type x86_64 (.integer 32 false) (.integer 32 false) true
      = some (.integer 32 false, true) ∧
    gcc_type_for_value x86_64 5 true = some (.integer 8 true, true) ∧
    (∃ r st', translate_clast x86_64 example_collaborators none example_nest 0 0
        { example_state with gloog_error := true } = some (r, st') ∧
      st'.gloog_error = true) ∧
    (gloog x86_64 example_collaborators (example_scop (.clast_expr_term none 99))
        { example_state with gloog_error := true }).map (fun r => r.2.gloog_error)
      = some false :=
  ⟨by decide,
   by decide,
   match h : translate_clast x86_64 example_collaborators none example_nest 0 0
       { example_state with gloog_error := true } with
   | some (r, st') =>
     ⟨r, st', rfl,
      (gloog_error_is_never_cleared x86_64 example_collaborators).2.2.2.2.2.2.2.2.2.2.2.2.2.1
        none example_nest 0 0 { example_state with gloog_error := true } r st' rfl h⟩
   | none => absurd (congrArg Option.isSome h) (by decide),
   by decide⟩

/-! ## The type of an induction variable is signed -/

theorem max_signed_precision_type_returns (tg : Target) (type1 type2 : GccType) (e : Bool)
    (hm : ∃ m ∈ tg.int_mode_precisions, tg.BITS_PER_WORD ≤ m) :
    ∃ r, max_signed_precision_type tg type1 type2 e = some r := by
  simp only [max_signed_precision_type]
  split
  · exact ⟨_, rfl⟩
  · rename_i hle
    have hex : ∃ m ∈ tg.int_mode_precisions, max_signed_precision type1 type2 ≤ m := by
      obtain ⟨m, hmem, hw⟩ := hm
      exact ⟨m, hmem, le_trans (not_lt.1 hle) hw⟩
    obtain ⟨m, hs, -⟩ := smallest_mode_for_size_of_exists _ _ hex
    rw [hs]
    simp only
    split <;> exact ⟨_, rfl⟩

theorem max_precision_type_returns (tg : Target) (type1 type2 : GccType) (e : Bool)
    (hm : ∃ m ∈ tg.int_mode_precisions, tg.BITS_PER_WORD ≤ m) :
    ∃ r, max_precision_type tg type1 type2 e = some r := by
  simp only [max_precision_type]
  split
  · exact ⟨_, rfl⟩
  · split
    · exact ⟨_, rfl⟩
    · split
      · exact max_signed_precision_type_returns tg type1 type2 e hm
      · exact ⟨_, rfl⟩

theorem gcc_type_for_interval_returns (tg : Target) (v1 v2 : Int) (e : Bool)
    (hm : ∃ m ∈ tg.int_mode_precisions, tg.BITS_PER_WORD ≤ m) :
    ∃ r, gcc_type_for_interval tg v1 v2 e = some r := by
  simp only [gcc_type_for_interval]
  split
  · exact ⟨_, rfl⟩
  · rename_i hle
    have hex : ∃ m ∈ tg.int_mode_precisions,
        max (mpz_sizeinbase v1) (mpz_sizeinbase v2) ≤ m := by
      obtain ⟨m, hmem, hw⟩ := hm
      exact ⟨m, hmem, le_trans (not_lt.1 hle) hw⟩
    obtain ⟨m, hs, -⟩ := smallest_mode_for_size_of_exists _ _ hex
    rw [hs]
    simp only
    split <;> exact ⟨_, rfl⟩

/-- C37: on a target that has an integer mode of at least a word, for a loop
whose body leads to a user statement, `gcc_type_for_iv_of_clast_loop` returns,
whatever the types of the bounds (signed, unsigned or pointer) and the interval
of the level; and every type it returns is an integer type, not a pointer type,
and signed. So the type of a loop guard is one, and the condition of the guard
is `lb <= ub` or `lb < ub + 1` with the sum a `PLUS_EXPR` of that type, never a
`POINTER_PLUS_EXPR`. -/
theorem gcc_type_for_iv_of_clast_loop_is_signed (tg : Target) (co : Collaborators)
    (stmt : clast_for) (level : Nat) (lb_type ub_type : GccType) (e : Bool) :
    (∀ type e', gcc_type_for_iv_of_clast_loop tg co stmt level lb_type ub_type e
        = some (type, e') →
      (∃ n, type = .integer n false) ∧ POINTER_TYPE_P type = false ∧
        TYPE_UNSIGNED type = false) ∧
    ((∃ m ∈ tg.int_mode_precisions, tg.BITS_PER_WORD ≤ m) →
      (∃ pbb, clast_get_body_of_loop stmt.body = some (some pbb)) →
      ∃ type e', gcc_type_for_iv_of_clast_loop tg co stmt level lb_type ub_type e
        = some (type, e')) ∧
    (∀ entry_edge st g st',
      graphite_create_new_loop_guard tg co entry_edge stmt level st = some (g, st') →
      POINTER_TYPE_P g.type = false ∧ TYPE_UNSIGNED g.type = false ∧
      g.cond_expr =
        (if TREE_CODE g.ub = .INTEGER_CST || TREE_CODE g.ub = .SSA_NAME then
          fold_build2 .LE_EXPR boolean_type_node g.lb g.ub
        else
          fold_build2 .LT_EXPR boolean_type_node g.lb
            (fold_build2 .PLUS_EXPR g.type g.ub
              (fold_convert g.type (integer_one_node tg))))) := by
  refine ⟨fun type e' h => ?_, fun hm hb => ?_, fun entry_edge st g st' h => ?_⟩
  · obtain ⟨n, hn⟩ := gcc_type_for_iv_of_clast_loop_signed _ _ _ _ _ _ _ _ _ h
    exact ⟨⟨n, hn⟩, by rw [hn]; rfl, by rw [hn]; rfl⟩
  · obtain ⟨pbb, hpbb⟩ := hb
    simp only [gcc_type_for_iv_of_clast_loop, hpbb, compute_type_for_level]
    obtain ⟨⟨t1, e1⟩, h1⟩ := gcc_type_for_interval_returns tg
      (co.compute_bounds_for_level pbb level).1 (co.compute_bounds_for_level pbb level).2 e hm
    rw [h1]
    simp only
    obtain ⟨⟨t2, e2⟩, h2⟩ := max_precision_type_returns tg ub_type t1 e1 hm
    rw [h2]
    simp only
    obtain ⟨⟨t3, e3⟩, h3⟩ := max_signed_precision_type_returns tg lb_type t2 e2 hm
    exact ⟨t3, e3, h3⟩
  · obtain ⟨n, hn⟩ := graphite_create_new_loop_guard_type _ _ _ _ _ _ _ _ h
    obtain ⟨_, _, _, _, _, _, _, _, _, _, _, _, hc, _, _⟩ :=
      graphite_create_new_loop_guard_inv _ _ _ _ _ _ _ _ h
    refine ⟨by rw [hn]; rfl, by rw [hn]; rfl, ?_⟩
    rw [hc, loop_guard_cond_expr]
    have hp : POINTER_TYPE_P g.type = false := by rw [hn]; rfl
    simp only [hp, Bool.false_eq_true, if_false]

/-- Witness for C37: for the example loop, with unsigned 16-bit and 32-bit
bounds the type is the signed 64-bit type; with a pointer as lower bound it is
`int`, with the flag set. -/
theorem gcc_type_for_iv_of_clast_loop_is_signed_witness :
    gcc_type_for_iv_of_clast_loop x86_64 example_collaborators
        (example_for (.clast_expr_term none 99)) 0 (.integer 16 true) (.integer 32 true) false
      = some (.integer 64 false, false) ∧
    gcc_type_for_iv_of_clast_loop x86_64 example_collaborators
        (example_for (.clast_expr_term none 99)) 0 (.pointer 64) (.integer 32 true) false
      = some (.integer 32 false, true) ∧
    TYPE_UNSIGNED (.integer 64 false) = false ∧
    (∃ type e', gcc_type_for_iv_of_clast_loop x86_64 example_collaborators
        (example_for (.clast_expr_term none 99)) 0 (.pointer 64) (.pointer 64) false
      = some (type, e')) :=
  ⟨by decide, by decide,
   ((gcc_type_for_iv_of_clast_loop_is_signed x86_64 example_collaborators
      (example_for (.clast_expr_term none 99)) 0 (.integer 16 true) (.integer 32 true) false).1
      (.integer 64 false) false (by decide)).2.2,
   (gcc_type_for_iv_of_clast_loop_is_signed x86_64 example_collaborators
      (example_for (.clast_expr_term none 99)) 0 (.pointer 64) (.pointer 64) false).2.1
      ⟨64, by decide, by decide⟩ ⟨7, by decide⟩⟩

/-! ## The join of two types and the order of its arguments -/

/-- C38: on the 64-bit target, `max_precision_type` of the unsigned and the
signed 32-bit types returns the signed 32-bit type in this order and the signed
64-bit type in the other order; of the unsigned and the signed 64-bit types it
returns the signed 64-bit type with the flag clear in this order, and `int` with
the flag set in the other order. -/
theorem max_precision_type_depends_on_argument_order :
    max_precision_type x86_64 (.integer 32 true) (.integer 32 false) false
      = some (.integer 32 false, false) ∧
    max_precision_type x86_64 (.integer 32 false) (.integer 32 true) false
      = some (.integer 64 false, false) ∧
    max_precision_type x86_64 (.integer 64 true) (.integer 64 false) false
      = some (.integer 64 false, false) ∧
    max_precision_type x86_64 (.integer 64 false) (.integer 64 true) false
      = some (.integer 32 false, true) := by
  decide

/-! ## The registry of the induction variables -/

theorem mem_htab_store (index_table : htab) (elt e : clast_name_index)
    (h : e ∈ htab_store index_table elt) : e ∈ index_table ∨ e = elt := by
  induction index_table with
  | nil =>
    simp only [htab_store, List.mem_singleton] at h
    exact Or.inr h
  | cons x rest ih =>
    simp only [htab_store] at h
    split at h
    · rcases List.mem_cons.1 h with h1 | h1
      · exact Or.inr h1
      · exact Or.inl (List.mem_cons_of_mem _ h1)
    · rcases List.mem_cons.1 h with h1 | h1
      · exact Or.inl (h1 ▸ List.mem_cons_self _ _)
      · rcases ih h1 with h2 | h2
        · exact Or.inl (List.mem_cons_of_mem _ h2)
        · exact Or.inr h2

theorem htab_find_slot_mem (index_table : htab) (name : String) (e : clast_name_index)
    (h : htab_find_slot index_table name = some e) : e ∈ index_table := by
  induction index_table with
  | nil => simp [htab_find_slot] at h
  | cons x rest ih =>
    simp only [htab_find_slot] at h
    split at h
    · simp only [Option.some.injEq] at h
      exact h ▸ List.mem_cons_self _ _
    · exact List.mem_cons_of_mem _ (ih h)

theorem VEC_index_append_length (vec : List tree) (iv : tree) :
    VEC_index (vec ++ [iv]) (vec.length : Int) = some iv := by
  simp [VEC_index]

theorem VEC_index_append_of_some (vec : List tree) (iv t : tree) (i : Int)
    (h : VEC_index vec i = some t) : VEC_index (vec ++ [iv]) i = some t := by
  simp only [VEC_index] at h ⊢
  split at h
  · exact absurd h (by simp)
  · rename_i hi
    simp only [hi, if_false]
    have hlt : i.toNat < vec.length := by
      rcases Nat.lt_or_ge i.toNat vec.length with h1 | h1
      · exact h1
      · rw [List.get?_eq_none.2 h1] at h; exact absurd h (by simp)
    rw [List.get?_eq_getElem?, List.getElem?_append_left hlt, ← List.get?_eq_getElem?]
    exact h

theorem VEC_index_isSome (vec : List tree) (i : Int) (h0 : 0 ≤ i) (h1 : i < (vec.length : Int)) :
    (VEC_index vec i).isSome = true := by
  have hi : ¬ i < 0 := not_lt.2 h0
  have hlt : i.toNat < vec.length := by omega
  simp only [VEC_index, hi, if_false, List.get?_eq_getElem?, List.getElem?_eq_getElem hlt,
    Option.isSome_some]

theorem graphite_create_new_loop_registry (entry_edge : Nat) (stmt : clast_for)
    (outer : Option Nat) (type : GccType) (lb ub : tree) (level : Nat) (st : gloog_state)
    (idx : htab) (vec : List tree)
    (hi : st.ip.newivs_index = some idx) (hv : st.ip.newivs = some vec)
    (hr : ∀ e ∈ idx, 0 ≤ e.index ∧ e.index < (vec.length : Int)) :
    ∃ st', graphite_create_new_loop entry_edge stmt outer type lb ub level st
        = some (st.number_of_loops, st') ∧
      st'.ip.newivs_index = some (save_clast_name_index idx stmt.iterator vec.length level) ∧
      st'.ip.newivs = some (vec ++ [.ssa_name type st.next_id]) ∧
      st'.ip.params = st.ip.params ∧ st'.ip.params_index = st.ip.params_index ∧
      st'.cfg = st.cfg ++ [cfg_event.empty_loop entry_edge lb (gmp_cst_to_tree type stmt.stride)
        ub (.ssa_name type st.next_id) outer st.number_of_loops] ∧
      (∀ e ∈ save_clast_name_index idx stmt.iterator vec.length level,
        0 ≤ e.index ∧ e.index < ((vec ++ [tree.ssa_name type st.next_id]).length : Int)) := by
  refine ⟨{ st with
      ip := { st.ip with
        newivs_index := some (save_clast_name_index idx stmt.iterator vec.length level),
        newivs := some (vec ++ [.ssa_name type st.next_id]) },
      cfg := st.cfg ++ [cfg_event.empty_loop entry_edge lb (gmp_cst_to_tree type stmt.stride)
        ub (.ssa_name type st.next_id) outer st.number_of_loops],
      next_id := st.next_id + 1,
      number_of_loops := st.number_of_loops + 1 },
    by simp only [graphite_create_new_loop, hi, hv, Option.getD_some], rfl, rfl, rfl,
    rfl, rfl, ?_⟩
  intro e he
  rcases mem_htab_store _ _ _ he with h1 | h1
  · have := hr e h1
    simp only [List.length_append, List.length_singleton, Nat.cast_add, Nat.cast_one]
    omega
  · rw [h1]
    simp only [new_clast_name_index, List.length_append, List.length_singleton, Nat.cast_add,
      Nat.cast_one]
    omega

theorem newivs_lookup_after_save_same (idx : htab) (vec : List tree) (iv : tree)
    (name : String) (level : Int) :
    VEC_index (vec ++ [iv])
      (clast_name_to_index name (save_clast_name_index idx name vec.length level)) = some iv := by
  have h := htab_find_slot_store idx (new_clast_name_index name vec.length level)
  simp only [new_clast_name_index] at h
  simp only [clast_name_to_index, save_clast_name_index, new_clast_name_index, h]
  exact VEC_index_append_length vec iv

theorem newivs_lookup_after_save_other (idx : htab) (vec : List tree) (iv t : tree)
    (name other : String) (level : Int) (hne : name ≠ other)
    (h : VEC_index vec (clast_name_to_index name idx) = some t) :
    VEC_index (vec ++ [iv])
      (clast_name_to_index name (save_clast_name_index idx other vec.length level)) = some t := by
  have e := htab_find_slot_store_of_ne idx (new_clast_name_index other vec.length level) name hne
  simp only [clast_name_to_index, save_clast_name_index, e]
  exact VEC_index_append_of_some vec iv t _ h

theorem graphite_create_new_loops_registry_inv (cs : List new_loop_call) :
    ∀ (st : gloog_state) (idx : htab) (vec : List tree),
      st.ip.newivs_index = some idx → st.ip.newivs = some vec →
      (∀ e ∈ idx, 0 ≤ e.index ∧ e.index < (vec.length : Int)) →
      ∃ st' idx' vec', graphite_create_new_loops cs st = some st' ∧
        st'.ip.newivs_index = some idx' ∧ st'.ip.newivs = some vec' ∧
        vec'.length = vec.length + cs.length ∧
        (∀ e ∈ idx', 0 ≤ e.index ∧ e.index < (vec'.length : Int)) ∧
        st'.ip.params = st.ip.params ∧ st'.ip.params_index = st.ip.params_index ∧
        (∀ name t, (∀ c ∈ cs, c.stmt.iterator ≠ name) →
          VEC_index vec (clast_name_to_index name idx) = some t →
          VEC_index vec' (clast_name_to_index name idx') = some t) := by
  induction cs with
  | nil =>
    intro st idx vec hi hv hr
    exact ⟨st, idx, vec, rfl, hi, hv, rfl, hr, rfl, rfl, fun _ _ _ h => h⟩
  | cons c rest ih =>
    intro st idx vec hi hv hr
    obtain ⟨st1, h1, hi1, hv1, hp1, hq1, -, hr1⟩ :=
      graphite_create_new_loop_registry c.entry_edge c.stmt c.outer c.type c.lb c.ub c.level
        st idx vec hi hv hr
    obtain ⟨st2, idx2, vec2, h2, hi2, hv2, hl2, hr2, hp2, hq2, hk2⟩ := ih st1 _ _ hi1 hv1 hr1
    refine ⟨st2, idx2, vec2, by simp only [graphite_create_new_loops, h1, h2], hi2, hv2, ?_, hr2,
      hp2.trans hp1, hq2.trans hq1, ?_⟩
    · simp only [List.length_append, List.length_singleton] at hl2
      simp only [List.length_cons]; omega
    · intro name t hn h
      have hne : name ≠ c.stmt.iterator := fun e => hn c (List.mem_cons_self _ _) e.symm
      exact hk2 name t (fun c' hc' => hn c' (List.mem_cons_of_mem _ hc'))
        (newivs_lookup_after_save_other idx vec _ t name c.stmt.iterator c.level hne h)

theorem graphite_create_new_loops_append (a b : List new_loop_call) (st : gloog_state) :
    graphite_create_new_loops (a ++ b) st
      = (graphite_create_new_loops a st).bind (graphite_create_new_loops b) := by
  induction a generalizing st with
  | nil => rfl
  | cons c rest ih =>
    simp only [List.cons_append, graphite_create_new_loops]
    split
    · rfl
    · exact ih _

theorem clast_name_to_gcc_of_newivs (name : String) (ip : ivs_params) (idx : htab)
    (vec : List tree) (t : tree)
    (hi : ip.newivs_index = some idx) (hv : ip.newivs = some vec)
    (hpar : ∀ pidx, ip.params_index = some pidx → clast_name_to_index name pidx = -1)
    (h : VEC_index vec (clast_name_to_index name idx) = some t) :
    clast_name_to_gcc name ip = some t := by
  have hge : clast_name_to_index name idx ≥ 0 := by
    by_contra hc
    simp only [VEC_index, not_le.1 hc, if_true] at h
    exact absurd h (by simp)
  simp only [clast_name_to_gcc, hi, hv, hge, if_true, h]
  cases hp : ip.params with
  | none => rfl
  | some params =>
    cases hq : ip.params_index with
    | none => rfl
    | some pidx =>
      have := hpar pidx hq
      simp [this]

/-- C39: from a state with an empty vector and an empty registry of induction
variables, every sequence of calls of `graphite_create_new_loop` returns. With
the sequence cut at any call `c`, in the state at the end every record of the
registry has an index that is not negative and is below the length of the
vector, which is the number of calls; so the lookup of a name either finds no
record or reads inside the vector. The lookup of the iterator of `c`, when no
later call of the sequence has that iterator, gives the induction variable of
the loop that `c` created, and so does `clast_name_to_gcc` when the iterator is
not the name of a parameter. -/
theorem graphite_create_new_loops_registry (cs cs' : List new_loop_call) (c : new_loop_call)
    (st0 : gloog_state)
    (hv : st0.ip.newivs = some []) (hi : st0.ip.newivs_index = some [])
    (hlast : ∀ c' ∈ cs', c'.stmt.iterator ≠ c.stmt.iterator)
    (hpar : ∀ pidx, st0.ip.params_index = some pidx →
      clast_name_to_index c.stmt.iterator pidx = -1) :
    ∃ st1 st2 st3 idx vec,
      graphite_create_new_loops cs st0 = some st1 ∧
      graphite_create_new_loop c.entry_edge c.stmt c.outer c.type c.lb c.ub c.level st1
        = some (st1.number_of_loops, st2) ∧
      st2.cfg = st1.cfg ++ [cfg_event.empty_loop c.entry_edge c.lb
        (gmp_cst_to_tree c.type c.stmt.stride) c.ub (.ssa_name c.type st1.next_id) c.outer
        st1.number_of_loops] ∧
      graphite_create_new_loops cs' st2 = some st3 ∧
      graphite_create_new_loops (cs ++ c :: cs') st0 = some st3 ∧
      st3.ip.newivs_index = some idx ∧ st3.ip.newivs = some vec ∧
      vec.length = cs.length + 1 + cs'.length ∧
      (∀ e ∈ idx, 0 ≤ e.index ∧ e.index < (vec.length : Int)) ∧
      (∀ name, clast_name_to_index name idx = -1 ∨
        (VEC_index vec (clast_name_to_index name idx)).isSome = true) ∧
      VEC_index vec (clast_name_to_index c.stmt.iterator idx)
        = some (.ssa_name c.type st1.next_id) ∧
      clast_name_to_gcc c.stmt.iterator st3.ip = some (.ssa_name c.type st1.next_id) := by
  obtain ⟨st1, idx1, vec1, h1, hi1, hv1, hl1, hr1, hp1, hq1, -⟩ :=
    graphite_create_new_loops_registry_inv cs st0 [] [] hi hv (fun e he => by cases he)
  obtain ⟨st2, h2, hi2, hv2, hp2, hq2, hc2, hr2⟩ :=
    graphite_create_new_loop_registry c.entry_edge c.stmt c.outer c.type c.lb c.ub c.level
      st1 idx1 vec1 hi1 hv1 hr1
  obtain ⟨st3, idx3, vec3, h3, hi3, hv3, hl3, hr3, hp3, hq3, hk3⟩ :=
    graphite_create_new_loops_registry_inv cs' st2 _ _ hi2 hv2 hr2
  have hlook := hk3 c.stmt.iterator (.ssa_name c.type st1.next_id) hlast
    (newivs_lookup_after_save_same idx1 vec1 _ c.stmt.iterator c.level)
  refine ⟨st1, st2, st3, idx3, vec3, h1, h2, hc2, h3, ?_, hi3, hv3, ?_, hr3, ?_, hlook, ?_⟩
  · rw [graphite_create_new_loops_append, h1]
    simp only [Option.some_bind, graphite_create_new_loops, h2, h3]
  · simp only [List.length_append, List.length_singleton, List.length_nil] at hl3 hl1
    omega
  · intro name
    cases hf : htab_find_slot idx3 name with
    | none => left; simp [clast_name_to_index, hf]
    | some e =>
      right
      have hm := hr3 e (htab_find_slot_mem idx3 name e hf)
      simp only [clast_name_to_index, hf]
      exact VEC_index_isSome vec3 e.index hm.1 hm.2
  · apply clast_name_to_gcc_of_newivs c.stmt.iterator st3.ip idx3 vec3 _ hi3 hv3 _ hlook
    intro pidx hpidx
    rw [hq3, hq2, hq1] at hpidx
    exact hpar pidx hpidx

/-- Witness for C39: in the example state, a loop of iterator `i`, then one of
iterator `j`, then a second one of iterator `i`: the lookup of `j` gives the
induction variable of the second loop, and the lookup of `i` that of the
third. -/
theorem graphite_create_new_loops_registry_witness :
    example_state.ip.newivs = some [] ∧ example_state.ip.newivs_index = some [] ∧
    (∃ st3, graphite_create_new_loops example_new_loop_calls example_state = some st3) ∧
    (graphite_create_new_loops example_new_loop_calls example_state).map
        (fun st => clast_name_to_gcc "j" st.ip)
      = some (some (.ssa_name (.integer 64 false) 101)) ∧
    (graphite_create_new_loops example_new_loop_calls example_state).map
        (fun st => clast_name_to_gcc "i" st.ip)
      = some (some (.ssa_name (.integer 16 false) 102)) :=
  ⟨rfl, rfl,
   (graphite_create_new_loops_registry
      [{ entry_edge := 0, stmt := example_for (.clast_expr_term none 99), outer := none,
         type := .integer 32 false, lb := .integer_cst (.integer 32 false) 0,
         ub := .integer_cst (.integer 32 false) 99, level := 0 }]
      [{ entry_edge := 2, stmt := example_for (.clast_expr_term none 99), outer := none,
         type := .integer 16 false, lb := .integer_cst (.integer 16 false) 0,
         ub := .integer_cst (.integer 16 false) 99, level := 0 }]
      { entry_edge := 1,
        stmt := { example_for (.clast_expr_term none 99) with iterator := "j" },
        outer := some 1,
        type := .integer 64 false, lb := .integer_cst (.integer 64 false) 0,
        ub := .integer_cst (.integer 64 false) 99, level := 1 }
      example_state rfl rfl (by decide)
      (by intro pidx h; cases h; decide)).elim
     (fun _ h => h.elim (fun _ h => h.elim (fun st3 h => h.elim (fun _ h => h.elim (fun _ h =>
       ⟨st3, h.2.2.2.2.1⟩))))),
   by decide, by decide⟩

end Graphite

namespace Libatomic

/-! ## Locking and unlocking -/

theorem libat_unlock_n_loop_eq (fuel h i n : Nat) :
    libat_unlock_n_loop fuel h i n = libat_lock_n_loop fuel h i n := by
  induction fuel generalizing h i with
  | zero => rfl
  | succ fuel ih => simp only [libat_unlock_n_loop, libat_lock_n_loop, ih]

theorem libat_lock_n_loop_returns (fuel h i n : Nat) (hf : 0 < fuel)
    (hn : n ≤ i + fuel * WATCH_SIZE) :
    ∃ first rest, libat_lock_n_loop fuel h i n = some (first :: rest) ∧ first = h := by
  induction fuel generalizing h i with
  | zero => exact absurd hf (by decide)
  | succ fuel ih =>
    simp only [libat_lock_n_loop]
    by_cases hlt : i + WATCH_SIZE < n
    · have hf2 : 0 < fuel := by
        rcases Nat.eq_zero_or_pos fuel with h0 | hpos
        · subst h0; omega
        · exact hpos
      have hn2 : n ≤ i + WATCH_SIZE + fuel * WATCH_SIZE := by
        have : (fuel + 1) * WATCH_SIZE = fuel * WATCH_SIZE + WATCH_SIZE := Nat.succ_mul _ _
        omega
      obtain ⟨f2, r2, h2, -⟩ := ih (if h + 1 = NLOCKS then 0 else h + 1) (i + WATCH_SIZE) hf2 hn2
      exact ⟨h, f2 :: r2, by simp [hlt, h2], rfl⟩
    · exact ⟨h, [], by simp [hlt], rfl⟩

/-- C30: `libat_unlock_n (ptr, n)` calls `LockUnlock` on the same indices of the
lock table, in the same order, as those on which `libat_lock_n (ptr, n)` calls
`LockLock`; both loops end, on a sequence that starts with the index
`addr_hash (ptr, n)`; and `libat_unlock_1 (ptr)` unlocks the one index that
`libat_lock_1 (ptr)` locks, `addr_hash (ptr, 1)`. -/
theorem libat_unlock_n_releases_what_libat_lock_n_acquires (ptr n : Nat) :
    libat_unlock_n ptr n = libat_lock_n ptr n ∧
    (∃ rest, libat_lock_n ptr n = some (addr_hash ptr n :: rest)) ∧
    libat_unlock_1 ptr = libat_lock_1 ptr ∧
    libat_lock_1 ptr = [addr_hash ptr 1] := by
  refine ⟨?_, ?_, rfl, rfl⟩
  · simp only [libat_unlock_n, libat_lock_n, libat_unlock_n_loop_eq]
  · have hn : (if n > PAGE_SIZE then PAGE_SIZE else n)
        ≤ 0 + (PAGE_SIZE / WATCH_SIZE + 1) * WATCH_SIZE := by
      have e : (PAGE_SIZE / WATCH_SIZE + 1) * WATCH_SIZE = 4160 := by decide
      have e2 : PAGE_SIZE = 4096 := rfl
      rw [e, e2]
      split <;> omega
    obtain ⟨first, rest, h, hfirst⟩ :=
      libat_lock_n_loop_returns (PAGE_SIZE / WATCH_SIZE + 1) (addr_hash ptr n) 0
        (if n > PAGE_SIZE then PAGE_SIZE else n) (by decide) hn
    exact ⟨rest, by simp only [libat_lock_n]; rw [h, hfirst]⟩

/-- Witness for C30: an object of 200 bytes at the address `0x1000` takes the
four locks from index 768 on; one at the address `0x7f8200` takes the last lock
of the table and the first three; an object of 5000 bytes takes 64 locks. -/
theorem libat_unlock_n_releases_what_libat_lock_n_acquires_witness :
    libat_unlock_n 0x1000 200 = some [768, 769, 770, 771] ∧
    libat_unlock_n 0x7f8200 200 = some [1023, 0, 1, 2] ∧
    (libat_unlock_n 130944 5000).map List.length = some 64 ∧
    libat_unlock_1 0x12345678 = [86] :=
  ⟨(libat_unlock_n_releases_what_libat_lock_n_acquires 0x1000 200).1.trans (by decide),
   (libat_unlock_n_releases_what_libat_lock_n_acquires 0x7f8200 200).1.trans (by decide),
   (congrArg (fun l => l.map List.length)
      (libat_unlock_n_releases_what_libat_lock_n_acquires 130944 5000).1).trans (by decide),
   (libat_unlock_n_releases_what_libat_lock_n_acquires 0x12345678 1).2.2.1.trans (by decide)⟩

/-! ## The address bits that the hash discards -/

theorem addr_hash_eq_lock_index (ptr n : Nat) :
    addr_hash ptr n = lock_index_of_shifted_address
      (ptr >>> (if n ≤ CACHLINE_SIZE ∧ n > 0 then 4 * 8 - builtin_clz n - 1 else 7))
      (if n ≤ CACHLINE_SIZE ∧ n > 0 then 4 * 8 - builtin_clz n - 1 else 7) := rfl

theorem two_pow_bit_length_le (fuel n : Nat) (hn : n ≠ 0) (h : n ≤ fuel) :
    1 ≤ Graphite.bit_length fuel n ∧ 2 ^ (Graphite.bit_length fuel n - 1) ≤ n := by
  induction fuel generalizing n with
  | zero => exact absurd (Nat.le_zero.1 h) hn
  | succ fuel ih =>
    simp only [Graphite.bit_length, hn, if_false]
    refine ⟨by omega, ?_⟩
    simp only [Nat.add_sub_cancel]
    by_cases h2 : n / 2 = 0
    · cases fuel with
      | zero => simp [Graphite.bit_length]; omega
      | succ f => simp [Graphite.bit_length, h2]; omega
    · have hle : n / 2 ≤ fuel := by omega
      obtain ⟨h1, hp⟩ := ih (n / 2) h2 hle
      have e : Graphite.bit_length fuel (n / 2)
          = (Graphite.bit_length fuel (n / 2) - 1) + 1 := by omega
      rw [e, pow_succ]
      omega

theorem addr_hash_shift_eq_log (n : Nat) (h1 : 1 ≤ n) (h2 : n ≤ CACHLINE_SIZE) :
    4 * 8 - builtin_clz n - 1 = Nat.log 2 n := by
  have hn : n ≠ 0 := by omega
  obtain ⟨hb1, hlow⟩ := two_pow_bit_length_le n n hn (le_refl _)
  have hup := Graphite.lt_two_pow_bit_length n n (le_refl _)
  have hlog : Nat.log 2 n = Graphite.bit_length n n - 1 := by
    apply Nat.log_eq_of_pow_le_of_lt_pow hlow
    have e : Graphite.bit_length n n - 1 + 1 = Graphite.bit_length n n := by omega
    rw [e]; exact hup
  have h64 : n ≤ 64 := h2
  have hb7 : Graphite.bit_length n n - 1 < 7 := by
    by_contra hc
    have h7 : 7 ≤ Graphite.bit_length n n - 1 := not_lt.1 hc
    have : 2 ^ 7 ≤ 2 ^ (Graphite.bit_length n n - 1) := Nat.pow_le_pow_right (by decide) h7
    omega
  rw [hlog]
  unfold builtin_clz
  omega

/-- C33: for a size `n` from 1 to `CACHLINE_SIZE`, `addr_hash` shifts the address
right by the integer part of the binary logarithm of `n` and uses nothing else
of the address: two addresses that are equal after the shift have the same
hash. -/
theorem addr_hash_discards_low_bits (p q n : Nat) (h1 : 1 ≤ n) (h2 : n ≤ CACHLINE_SIZE)
    (h : p >>> Nat.log 2 n = q >>> Nat.log 2 n) :
    addr_hash p n = addr_hash q n ∧
    addr_hash p n = lock_index_of_shifted_address (p >>> Nat.log 2 n) (Nat.log 2 n) := by
  have hs := addr_hash_shift_eq_log n h1 h2
  have hc : n ≤ CACHLINE_SIZE ∧ n > 0 := ⟨h2, h1⟩
  rw [addr_hash_eq_lock_index, addr_hash_eq_lock_index]
  simp only [hc, and_self, if_true, hs, h]

/-- Witness for C33: for the size 8, the addresses `0x1230` and `0x1237` are
equal after the shift by 3 bits. -/
theorem addr_hash_discards_low_bits_witness :
    addr_hash 0x1230 8 = addr_hash 0x1237 8 ∧ addr_hash 0x1230 8 ≠ addr_hash 0x1238 8 :=
  ⟨(addr_hash_discards_low_bits 0x1230 0x1237 8 (by decide) (by decide)
      (by rw [@Nat.log_eq_of_pow_le_of_lt_pow 2 3 8 (by decide) (by decide)]; decide)).1,
   by decide⟩

/-- C34: for a size of exactly `CACHLINE_SIZE` the hash is computed from the
address shifted right by 6 bits, but for every larger size it is computed from
the address shifted right by 7 bits, with 7 mixed in. The addresses 0 and 64
differ after a shift by 6 bits and would get different lock indices from it,
whether 6 or 7 is mixed in; for the size 128 they have the same hash. -/
theorem addr_hash_discards_seven_bits_above_cacheline :
    CACHLINE_SIZE = 64 ∧
    (∀ ptr, addr_hash ptr 64 = lock_index_of_shifted_address (ptr >>> 6) 6) ∧
    (∀ ptr k, addr_hash ptr (65 + k) = lock_index_of_shifted_address (ptr >>> 7) 7) ∧
    (64 : Nat) >>> 6 ≠ 0 >>> 6 ∧
    lock_index_of_shifted_address (64 >>> 6) 6 ≠ lock_index_of_shifted_address (0 >>> 6) 6 ∧
    lock_index_of_shifted_address (64 >>> 6) 7 ≠ lock_index_of_shifted_address (0 >>> 6) 7 ∧
    addr_hash 64 128 = addr_hash 0 128 ∧
    addr_hash 0 128 = 768 ∧
    lock_index_of_shifted_address (0 >>> 6) 6 = 512 := by
  refine ⟨rfl, fun ptr => rfl, fun ptr k => ?_, by decide, by decide, by decide, by decide,
    by decide, by decide⟩
  rw [addr_hash_eq_lock_index]
  have hc : ¬ (65 + k ≤ CACHLINE_SIZE ∧ 65 + k > 0) := by
    have e : CACHLINE_SIZE = 64 := rfl
    rw [e]; omega
  simp only [hc, if_false]

/-! ## The spread of the hash over the lock table -/

theorem shift_left_and_high_byte (x : Nat) :
    (x <<< 8) &&& 0xff00 = 2 ^ 8 * (x % 2 ^ 8) := by
  have e1 : (0xff00 : Nat) = (2 ^ 8 - 1) <<< 8 := by decide
  have e2 : 2 ^ 8 * (x % 2 ^ 8) = (x % 2 ^ 8) <<< 8 := by
    rw [Nat.shiftLeft_eq, Nat.mul_comm]
  rw [e1, e2]
  apply Nat.eq_of_testBit_eq
  intro i
  simp only [Nat.testBit_and, Nat.testBit_shiftLeft, Nat.testBit_mod_two_pow,
    Nat.testBit_two_pow_sub_one]
  by_cases h8 : i ≥ 8
  · by_cases h16 : i - 8 < 8 <;> simp [h8, h16]
  · simp [h8]

theorem byte_swap_eq (x : Nat) (hx : x < 2 ^ 16) :
    ((x >>> 8) &&& 0xff) ||| ((x <<< 8) &&& 0xff00) = x / 256 + 256 * (x % 256) := by
  have e1 : (x >>> 8) &&& 0xff = x / 256 := by
    have e : (0xff : Nat) = 2 ^ 8 - 1 := by decide
    rw [e, Nat.and_pow_two_sub_one_eq_mod, Nat.shiftRight_eq_div_pow]
    have : x / 2 ^ 8 < 2 ^ 8 := by
      have h256 : (2 : Nat) ^ 8 = 256 := by decide
      have h65536 : (2 : Nat) ^ 16 = 65536 := by decide
      rw [h256]; rw [h65536] at hx; omega
    rw [Nat.mod_eq_of_lt this]
    rfl
  have hlt : x / 256 < 2 ^ 8 := by
    have h65536 : (2 : Nat) ^ 16 = 65536 := by decide
    have h256 : (2 : Nat) ^ 8 = 256 := by decide
    rw [h256]; rw [h65536] at hx; omega
  rw [e1, shift_left_and_high_byte, Nat.or_comm, ← Nat.mul_add_lt_is_or hlt]
  have h256 : (2 : Nat) ^ 8 = 256 := by decide
  rw [h256]; omega

theorem lock_index_eq (shifted n : Nat) :
    lock_index_of_shifted_address shifted n
      = ((shifted % 2 ^ 16) ^^^ n) % 2 ^ 16 / 256
        + 256 * (((shifted % 2 ^ 16) ^^^ n) % 2 ^ 16 % 4) := by
  have hx : ((shifted % 2 ^ 16) ^^^ n) % 2 ^ 16 < 2 ^ 16 := Nat.mod_lt _ (by decide)
  simp only [lock_index_of_shifted_address]
  rw [byte_swap_eq _ hx]
  generalize ((shifted % 2 ^ 16) ^^^ n) % 2 ^ 16 = x at hx
  have h65536 : (2 : Nat) ^ 16 = 65536 := by decide
  have hN : NLOCKS = 1024 := rfl
  rw [h65536] at hx ⊢
  rw [hN]
  omega

theorem xor_mod_four (y k : Nat) : (y ^^^ k) % 4 = (y % 4) ^^^ (k % 4) := by
  have e : (4 : Nat) = 2 ^ 2 := by decide
  rw [e]
  apply Nat.eq_of_testBit_eq
  intro i
  simp only [Nat.testBit_mod_two_pow, Nat.testBit_xor]
  by_cases hi : i < 2 <;> simp [hi]

theorem xor_mod_four_ne (a k : Nat) :
    (((a % 2 ^ 16) ^^^ k) % 2 ^ 16) % 4 ≠ ((((a + 1) % 2 ^ 16) ^^^ k) % 2 ^ 16) % 4 := by
  have h65536 : (2 : Nat) ^ 16 = 65536 := by decide
  rw [h65536]
  have e1 : ∀ y : Nat, y % 65536 % 4 = y % 4 := fun y => by omega
  rw [e1, e1, xor_mod_four, xor_mod_four, e1, e1]
  have hr : a % 4 < 4 := Nat.mod_lt _ (by decide)
  have hm : k % 4 < 4 := Nat.mod_lt _ (by decide)
  have hs : (a + 1) % 4 = (a % 4 + 1) % 4 := by omega
  rw [hs]
  generalize a % 4 = r at hr
  generalize k % 4 = m at hm
  revert r m
  decide

/-- C35: for a size `n` that is a power of two up to 64 and an address `p` that
is a multiple of `n`, the objects at `p` and at `p + n` have different hashes,
and the two lock indices differ after the division by 16, the number of locks
of a cache line. -/
theorem addr_hash_adjacent_objects_differ (p n k : Nat) (hn : n = 2 ^ k)
    (h64 : n ≤ CACHLINE_SIZE) (hp : n ∣ p) :
    addr_hash p n ≠ addr_hash (p + n) n ∧
    addr_hash p n / (CACHLINE_SIZE / LOCK_SIZE) ≠ addr_hash (p + n) n / (CACHLINE_SIZE / LOCK_SIZE) ∧
    CACHLINE_SIZE / LOCK_SIZE = 16 := by
  have hpos : 1 ≤ n := by rw [hn]; exact Nat.one_le_two_pow
  have hlog : Nat.log 2 n = k := by
    rw [hn]; exact Nat.log_pow (by decide) k
  have hs := addr_hash_shift_eq_log n hpos h64
  have hc : n ≤ CACHLINE_SIZE ∧ n > 0 := ⟨h64, hpos⟩
  obtain ⟨a, ha⟩ := hp
  have hsh1 : p >>> k = a := by
    rw [Nat.shiftRight_eq_div_pow, ha, hn]
    exact Nat.mul_div_cancel_left a (Nat.two_pow_pos k)
  have hsh2 : (p + n) >>> k = a + 1 := by
    rw [Nat.shiftRight_eq_div_pow, ha, hn]
    have : 2 ^ k * a + 2 ^ k = 2 ^ k * (a + 1) := by ring
    rw [this]
    exact Nat.mul_div_cancel_left (a + 1) (Nat.two_pow_pos k)
  have e16 : CACHLINE_SIZE / LOCK_SIZE = 16 := rfl
  rw [addr_hash_eq_lock_index, addr_hash_eq_lock_index]
  simp only [hc, and_self, if_true, hs, hlog, hsh1, hsh2, e16]
  rw [lock_index_eq, lock_index_eq]
  have hne := xor_mod_four_ne a k
  have h1 : ((a % 2 ^ 16) ^^^ k) % 2 ^ 16 / 256 < 256 := by
    have := Nat.mod_lt ((a % 2 ^ 16) ^^^ k) (show 0 < 2 ^ 16 by decide)
    have h65536 : (2 : Nat) ^ 16 = 65536 := by decide
    rw [h65536] at this ⊢; omega
  have h2 : (((a + 1) % 2 ^ 16) ^^^ k) % 2 ^ 16 / 256 < 256 := by
    have := Nat.mod_lt (((a + 1) % 2 ^ 16) ^^^ k) (show 0 < 2 ^ 16 by decide)
    have h65536 : (2 : Nat) ^ 16 = 65536 := by decide
    rw [h65536] at this ⊢; omega
  generalize ((a % 2 ^ 16) ^^^ k) % 2 ^ 16 = x1 at hne h1 ⊢
  generalize (((a + 1) % 2 ^ 16) ^^^ k) % 2 ^ 16 = x2 at hne h2 ⊢
  have d1 : (x1 / 256 + 256 * (x1 % 4)) / 16 = x1 / 256 / 16 + 16 * (x1 % 4) := by omega
  have d2 : (x2 / 256 + 256 * (x2 % 4)) / 16 = x2 / 256 / 16 + 16 * (x2 % 4) := by omega
  have b1 : x1 / 256 / 16 < 16 := by omega
  have b2 : x2 / 256 / 16 < 16 := by omega
  refine ⟨?_, ?_, trivial⟩
  · omega
  · rw [d1, d2]
    generalize x1 / 256 / 16 = q1 at b1
    generalize x2 / 256 / 16 = q2 at b2
    omega

/-- Witness for C35: the 8-byte objects at `0x1230` and `0x1238`. -/
theorem addr_hash_adjacent_objects_differ_witness :
    addr_hash 0x1230 8 ≠ addr_hash 0x1238 8 ∧
    addr_hash 0x1230 8 / (CACHLINE_SIZE / LOCK_SIZE)
      ≠ addr_hash 0x1238 8 / (CACHLINE_SIZE / LOCK_SIZE) :=
  ⟨(addr_hash_adjacent_objects_differ 0x1230 8 3 (by decide) (by decide) (by decide)).1,
   (addr_hash_adjacent_objects_differ 0x1230 8 3 (by decide) (by decide) (by decide)).2.1⟩

/-! ## The locks taken by one call -/

theorem addr_hash_lt (ptr n : Nat) : addr_hash ptr n < NLOCKS :=
  Nat.mod_lt _ (by decide)

theorem libat_lock_n_loop_eq_range (fuel h i n : Nat) (hh : h < 1024)
    (hf : max 1 ((n - i + 63) / 64) ≤ fuel) :
    libat_lock_n_loop fuel h i n
      = some ((List.range (max 1 ((n - i + 63) / 64))).map (fun j => (h + j) % 1024)) := by
  induction fuel generalizing h i with
  | zero => omega
  | succ fuel ih =>
    have hN : NLOCKS = 1024 := rfl
    have hW : WATCH_SIZE = 64 := rfl
    simp only [libat_lock_n_loop, hN, hW]
    by_cases hlt : i + 64 < n
    · have hc : max 1 ((n - i + 63) / 64) = max 1 ((n - (i + 64) + 63) / 64) + 1 := by omega
      have hh1 : (if h + 1 = 1024 then 0 else h + 1) < 1024 := by split <;> omega
      have hf1 : max 1 ((n - (i + 64) + 63) / 64) ≤ fuel := by omega
      rw [if_pos hlt, ih _ _ hh1 hf1, hc, List.range_succ_eq_map]
      simp only [Option.map_some', List.map_cons, List.map_map, Option.some.injEq,
        List.cons.injEq]
      refine ⟨by omega, ?_⟩
      apply List.map_congr_left
      intro j _
      simp only [Function.comp_apply]
      split <;> omega
    · have hc : max 1 ((n - i + 63) / 64) = 1 := by omega
      have hr : List.range 1 = [0] := rfl
      rw [if_neg hlt, hc, hr]
      simp only [List.map_cons, List.map_nil, Option.some.injEq, List.cons.injEq, and_true,
        Nat.add_zero]
      exact (Nat.mod_eq_of_lt hh).symm

/-- C36: `libat_lock_n (ptr, n)` returns after it has locked
`max (1, ceil (min (n, PAGE_SIZE) / WATCH_SIZE))` indices of the table, which is
at most 64: the index `addr_hash (ptr, n)` and the ones that follow it, around
the end of the table; each index is below `NLOCKS` and no index is locked
twice. -/
theorem libat_lock_n_indices (ptr n : Nat) :
    ∃ l, libat_lock_n ptr n = some l ∧
      l = (List.range (max 1 ((min n PAGE_SIZE + (WATCH_SIZE - 1)) / WATCH_SIZE))).map
            (fun j => (addr_hash ptr n + j) % NLOCKS) ∧
      l.length = max 1 ((min n PAGE_SIZE + (WATCH_SIZE - 1)) / WATCH_SIZE) ∧
      l.length ≤ 64 ∧
      (∀ x ∈ l, x < NLOCKS) ∧
      l.Nodup := by
  have hN : NLOCKS = 1024 := rfl
  have hW : WATCH_SIZE = 64 := rfl
  have hP : PAGE_SIZE = 4096 := rfl
  have hcount : max 1 ((min n 4096 + (64 - 1)) / 64) ≤ 64 := by omega
  have hrun : libat_lock_n ptr n
      = some ((List.range (max 1 ((min n 4096 + (64 - 1)) / 64))).map
          (fun j => (addr_hash ptr n + j) % 1024)) := by
    simp only [libat_lock_n, hP]
    have e : (if n > 4096 then 4096 else n) = min n 4096 := by
      split <;> omega
    rw [e]
    have h := libat_lock_n_loop_eq_range (4096 / 64 + 1) (addr_hash ptr n) 0 (min n 4096)
      (addr_hash_lt ptr n) (by omega)
    simpa [hW] using h
  refine ⟨_, hrun, by rw [hN, hW, hP], by simp [hW, hP], ?_, ?_, ?_⟩
  · simp only [List.length_map, List.length_range]
    exact hcount
  · intro x hx
    simp only [List.mem_map] at hx
    obtain ⟨j, -, rfl⟩ := hx
    rw [hN]
    exact Nat.mod_lt _ (by decide)
  · apply List.Nodup.map_on _ (List.nodup_range _)
    intro j1 h1 j2 h2 he
    simp only [List.mem_range] at h1 h2
    omega

/-- Witness for C36: an object of 200 bytes at the address `0x7f8200` takes the
last lock of the table and the first three. -/
theorem libat_lock_n_indices_witness :
    ∃ l, libat_lock_n 0x7f8200 200 = some l ∧ l = [1023, 0, 1, 2] ∧ l.Nodup :=
  (libat_lock_n_indices 0x7f8200 200).elim
    (fun l h => ⟨l, h.1, h.2.1.trans (by decide), h.2.2.2.2.2⟩)

end Libatomic

namespace CPrettyPrint

/-! ## The text of a string constant -/

theorem octal_digits_are_digits (fuel n : Nat) (acc : List Nat)
    (h : ∀ x ∈ acc, 48 ≤ x ∧ x ≤ 55) :
    ∀ x ∈ octal_digits fuel n acc, 48 ≤ x ∧ x ≤ 55 := by
  induction fuel generalizing n acc with
  | zero => exact h
  | succ fuel ih =>
    have hc : ∀ x ∈ (48 + n % 8) :: acc, 48 ≤ x ∧ x ≤ 55 := by
      intro x hx
      rcases List.mem_cons.1 hx with e | hm
      · rw [e]; omega
      · exact h x hm
    simp only [octal_digits]
    split
    · exact hc
    · exact ih _ _ hc

theorem has_unescaped_doublequote_plain (b : Nat) (rest : List Nat)
    (h92 : ¬ b = 92) (h34 : ¬ b = 34) :
    has_unescaped_doublequote false (b :: rest) = has_unescaped_doublequote false rest := by
  simp only [has_unescaped_doublequote, h92, h34, if_false]

theorem has_unescaped_doublequote_digits (ds rest : List Nat)
    (h : ∀ x ∈ ds, 48 ≤ x ∧ x ≤ 55) :
    has_unescaped_doublequote false (ds ++ rest) = has_unescaped_doublequote false rest := by
  induction ds with
  | nil => rfl
  | cons d ds ih =>
    have hd := h d (List.mem_cons_self _ _)
    have h92 : ¬ d = 92 := by omega
    have h34 : ¬ d = 34 := by omega
    simp only [List.cons_append, has_unescaped_doublequote, h92, h34, if_false]
    exact ih (fun x hx => h x (List.mem_cons_of_mem _ hx))

theorem has_unescaped_doublequote_octal (c : Int) (rest : List Nat) :
    has_unescaped_doublequote false (pp_scalar_octal c ++ rest)
      = has_unescaped_doublequote false rest := by
  have hall : ∀ x ∈ List.replicate (3 - (octal_digits 11 (c % 2 ^ 32).toNat []).length) 48
      ++ octal_digits 11 (c % 2 ^ 32).toNat [], 48 ≤ x ∧ x ≤ 55 := by
    intro x hx
    rcases List.mem_append.1 hx with h1 | h1
    · rw [List.eq_of_mem_replicate h1]; omega
    · exact octal_digits_are_digits 11 _ [] (fun _ h => by cases h) x h1
  have hlen : 3 ≤ (List.replicate (3 - (octal_digits 11 (c % 2 ^ 32).toNat []).length) 48
      ++ octal_digits 11 (c % 2 ^ 32).toNat []).length := by
    simp only [List.length_append, List.length_replicate]; omega
  simp only [pp_scalar_octal]
  generalize List.replicate (3 - (octal_digits 11 (c % 2 ^ 32).toNat []).length) 48
      ++ octal_digits 11 (c % 2 ^ 32).toNat [] = ds at hall hlen
  cases ds with
  | nil => simp at hlen
  | cons d ds =>
    simp only [List.cons_append, has_unescaped_doublequote, if_true]
    exact has_unescaped_doublequote_digits ds rest
      (fun x hx => hall x (List.mem_cons_of_mem _ hx))

theorem has_unescaped_doublequote_pp_c_char (c : Int) (rest : List Nat)
    (h0 : -128 ≤ c) (h1 : c ≤ 255) :
    has_unescaped_doublequote false (pp_c_char c ++ rest)
      = has_unescaped_doublequote false rest := by
  unfold pp_c_char
  by_cases c0 : c = TARGET_NEWLINE
  · rw [if_pos c0]; rfl
  rw [if_neg c0]
  by_cases c1 : c = TARGET_TAB
  · rw [if_pos c1]; rfl
  rw [if_neg c1]
  by_cases c2 : c = TARGET_VT
  · rw [if_pos c2]; rfl
  rw [if_neg c2]
  by_cases c3 : c = TARGET_BS
  · rw [if_pos c3]; rfl
  rw [if_neg c3]
  by_cases c4 : c = TARGET_CR
  · rw [if_pos c4]; rfl
  rw [if_neg c4]
  by_cases c5 : c = TARGET_FF
  · rw [if_pos c5]; rfl
  rw [if_neg c5]
  by_cases c6 : c = TARGET_BELL
  · rw [if_pos c6]; rfl
  rw [if_neg c6]
  by_cases c7 : c = 92
  · rw [if_pos c7]; rfl
  rw [if_neg c7]
  by_cases c8 : c = 39
  · rw [if_pos c8]; rfl
  rw [if_neg c8]
  by_cases c9 : c = 34
  · rw [if_pos c9]; rfl
  rw [if_neg c9]
  by_cases hp : ISPRINT c = true
  · rw [if_pos hp]
    have hp2 : 32 ≤ c % 256 ∧ c % 256 ≤ 126 := of_decide_eq_true hp
    have hb92 : ¬ (c % 256).toNat = 92 := by omega
    have hb34 : ¬ (c % 256).toNat = 34 := by omega
    exact has_unescaped_doublequote_plain _ rest hb92 hb34
  · rw [if_neg hp]
    exact has_unescaped_doublequote_octal c rest

theorem char_value_range (char_is_signed : Bool) (b : Nat) :
    -128 ≤ char_value char_is_signed b ∧ char_value char_is_signed b ≤ 255 := by
  have hb : b % 256 < 256 := Nat.mod_lt _ (by decide)
  unfold char_value
  split
  · rename_i hc
    simp only [Bool.and_eq_true, decide_eq_true_eq] at hc
    omega
  · omega

theorem has_unescaped_doublequote_loop (char_is_signed : Bool) (n : Nat) (s rest : List Nat) :
    has_unescaped_doublequote false (pp_c_string_literal_loop char_is_signed n s ++ rest)
      = has_unescaped_doublequote false rest := by
  induction n generalizing s with
  | zero => simp [pp_c_string_literal_loop]
  | succ n ih =>
    cases s with
    | nil => simp [pp_c_string_literal_loop]
    | cons b bs =>
      simp only [pp_c_string_literal_loop, List.append_assoc]
      rw [has_unescaped_doublequote_pp_c_char _ _ (char_value_range char_is_signed b).1
        (char_value_range char_is_signed b).2]
      exact ih bs

theorem pp_c_string_literal_loop_eq_flatMap (char_is_signed : Bool) (n : Nat) (s : List Nat) :
    pp_c_string_literal_loop char_is_signed n s
      = (s.take n).flatMap (fun b => pp_c_char (char_value char_is_signed b)) := by
  induction n generalizing s with
  | zero => simp [pp_c_string_literal_loop]
  | succ n ih =>
    cases s with
    | nil => simp [pp_c_string_literal_loop]
    | cons b bs => simp [pp_c_string_literal_loop, ih]

/-- C40: `pp_c_string_literal` appends a double quote, then for each byte of
the string but the last, in order, what `pp_c_char` appends for it, then a
double quote. For a byte that is a double quote, a single quote or a backslash
`pp_c_char` appends a backslash and the byte. The text between the two
delimiters has no double quote outside an escape, and the delimiter that closes
it is not inside one. -/
theorem pp_c_string_literal_escapes (char_is_signed : Bool) (s : List Nat) :
    pp_c_string_literal char_is_signed s
      = [34] ++ (s.take (s.length - 1)).flatMap (fun b => pp_c_char (char_value char_is_signed b))
          ++ [34] ∧
    (∀ b, b % 256 = 34 ∨ b % 256 = 39 ∨ b % 256 = 92 →
      pp_c_char (char_value char_is_signed b) = [92, b % 256]) ∧
    has_unescaped_doublequote false
      ((s.take (s.length - 1)).flatMap (fun b => pp_c_char (char_value char_is_signed b)))
      = false ∧
    has_unescaped_doublequote false
      ((s.take (s.length - 1)).flatMap (fun b => pp_c_char (char_value char_is_signed b)) ++ [34])
      = true := by
  have hn : ((s.length : Int) - 1).toNat = s.length - 1 := by omega
  refine ⟨?_, ?_, ?_, ?_⟩
  · simp only [pp_c_string_literal, hn, pp_c_string_literal_loop_eq_flatMap]
  · intro b hb
    have hv : char_value char_is_signed b = ((b % 256 : Nat) : Int) := by
      unfold char_value
      have : ¬ 128 ≤ b % 256 := by omega
      simp [this]
    rw [hv]
    rcases hb with h | h | h <;> rw [h] <;> decide
  · have h := has_unescaped_doublequote_loop char_is_signed (s.length - 1) s []
    rw [pp_c_string_literal_loop_eq_flatMap, List.append_nil] at h
    exact h
  · have h := has_unescaped_doublequote_loop char_is_signed (s.length - 1) s [34]
    rw [pp_c_string_literal_loop_eq_flatMap] at h
    rw [h]
    decide

/-- Witness for C40: the string of the bytes `h`, `"`, newline, backslash, the
byte 1, `'` and the final NUL. -/
theorem pp_c_string_literal_escapes_witness :
    pp_c_string_literal true [104, 34, 10, 92, 1, 39, 0]
      = [34, 104, 92, 34, 92, 110, 92, 92, 92, 48, 48, 49, 92, 39, 34] ∧
    pp_c_char (char_value true 34) = [92, 34] :=
  ⟨(pp_c_string_literal_escapes true [104, 34, 10, 92, 1, 39, 0]).1.trans (by decide),
   (pp_c_string_literal_escapes true []).2.1 34 (Or.inl (by decide))⟩

end CPrettyPrint
